import Mathlib

/-!
Verification of the puzzle-generation and solvability core of the
Arc-Agi3 repository (environments ga85, pm07, cd01), as a shallow
embedding in Lean 4.

Conventions used throughout:
- grids are `List (List Nat)`, indexed `grid[y][x]` exactly as the
  Python code indexes `self._grid[y][x]`;
- coordinates are `Int` so that out-of-bounds candidate positions
  (such as `x - 1` at the left edge) are representable, matching the
  Python code which forms such candidates before bounds checks;
- Python `while` loops that the source bounds only by data growth are
  embedded with an explicit fuel parameter; `none` (or `false`) on
  fuel exhaustion is an embedding artifact, and the theorems either
  hold for every fuel or exhibit a sufficient fuel explicitly;
- Python `random` draws are universally quantified inputs: every
  claim settled here quantifies over all RNG outcomes, so the drawn
  values (click lists, candidate placements) appear as parameters.
-/

/-- List read with default 0, `l[n]` on an in-range index. -/
def lget : List Nat → Nat → Nat
  | [], _ => 0
  | a :: _, 0 => a
  | _ :: t, n + 1 => lget t n

/-- List write `l[n] = v`; out-of-range writes are dropped. -/
def lset : List Nat → Nat → Nat → List Nat
  | [], _, _ => []
  | _ :: t, 0, v => v :: t
  | a :: t, n + 1, v => a :: lset t n v

/-- Row read with default `[]`, `g[n]` on an in-range index. -/
def rget : List (List Nat) → Nat → List Nat
  | [], _ => []
  | a :: _, 0 => a
  | _ :: t, n + 1 => rget t n

/-- Row write `g[n] = row`; out-of-range writes are dropped. -/
def rset : List (List Nat) → Nat → List Nat → List (List Nat)
  | [], _, _ => []
  | _ :: t, 0, row => row :: t
  | a :: t, n + 1, row => a :: rset t n row

/-- Read the cell `grid[y][x]`; out-of-range reads (which the Python
code never performs on the paths modelled here) default to 0. -/
def cellAt (g : List (List Nat)) (y x : Int) : Nat :=
  if 0 ≤ y ∧ 0 ≤ x then lget (rget g y.toNat) x.toNat else 0

/-- Write the cell `grid[y][x] = v`; out-of-range writes are dropped. -/
def setAt (g : List (List Nat)) (y x : Int) (v : Nat) : List (List Nat) :=
  if 0 ≤ y ∧ 0 ≤ x then rset g y.toNat (lset (rget g y.toNat) x.toNat v) else g

/-- Dimension predicate: `g` has `ph` rows of `pw` cells each. -/
def GridDims (g : List (List Nat)) (pw ph : Nat) : Prop :=
  g.length = ph ∧ ∀ row ∈ g, row.length = pw

/-! ## ga85 — Grid Alchemist (color-cycle click puzzle)

Shallow embedding of src/environment_files/ga85/v1/ga85.py.  Solutions
and click positions are `(row, col)` pairs, as in the source. -/

namespace Ga85

/-- From ga85.py line 27: the fixed ordered ARC palette slice. -/
def COLOR_CYCLE : List Nat := [8, 2, 3, 4, 7, 6]

/-- One cyclic color advance as performed inside `_apply_click`
(lines 66-71): `ci = colors_pool.index(cur)` with the `ValueError`
handler setting `ci = 0`, then `colors_pool[(ci + 1) % nc]`. -/
def colorStep (pool : List Nat) (cur : Nat) : Nat :=
  let ci := match pool.findIdx? (fun c => c == cur) with
    | some i => i
    | none => 0
  pool.getD ((ci + 1) % pool.length) 0

/-- Loop body of `_apply_click` (ga85.py lines 64-71): advance one
target cell `(tx, ty)` if it is in bounds, else leave the grid alone. -/
def click_target (pw ph : Nat) (pool : List Nat) (g : List (List Nat))
    (t : Int × Int) : List (List Nat) :=
  if 0 ≤ t.1 ∧ t.1 < (pw : Int) ∧ 0 ≤ t.2 ∧ t.2 < (ph : Int) then
    setAt g t.2 t.1 (colorStep pool (cellAt g t.2 t.1))
  else g

/-- The five click targets of `_apply_click` (ga85.py line 64): the
clicked cell and its four orthogonal neighbour candidates, as
`(tx, ty)` pairs. -/
def click_targets (cr cc : Int) : List (Int × Int) :=
  [(cc, cr), (cc - 1, cr), (cc + 1, cr), (cc, cr - 1), (cc, cr + 1)]

/-- Embedding of `_apply_click` (ga85.py lines 59-72): advance the
clicked cell and its four orthogonal in-bounds neighbours one step. -/
def apply_click (grid : List (List Nat)) (cr cc : Int) (pw ph : Nat)
    (pool : List Nat) : List (List Nat) :=
  (click_targets cr cc).foldl (click_target pw ph pool) grid

/-- Embedding of `_is_solved` (ga85.py lines 79-84). -/
def is_solved (grid : List (List Nat)) (target : Nat) (pw ph : Nat) : Bool :=
  (List.range ph).all fun r => (List.range pw).all fun c =>
    cellAt grid (r : Int) (c : Int) == target

/-- Replaying a click list in order, the loop body of `_verify_solution`
(ga85.py lines 131-133). -/
def replay (grid : List (List Nat)) (sol : List (Int × Int)) (pw ph : Nat)
    (pool : List Nat) : List (List Nat) :=
  sol.foldl (fun g rc => apply_click g rc.1 rc.2 pw ph pool) grid

/-- Embedding of `_verify_solution` (ga85.py lines 129-134). -/
def verify_solution (grid : List (List Nat)) (solution : List (Int × Int))
    (target : Nat) (pw ph : Nat) (pool : List Nat) : Bool :=
  is_solved (replay grid solution pw ph pool) target pw ph

/-- Embedding of `_cycle_color` (ga85.py lines 552-559): the in-game
color advance, whose `ValueError` handler returns `pool[0]` directly. -/
def cycle_color (nc : Nat) (color : Nat) : Nat :=
  let pool := COLOR_CYCLE.take nc
  match pool.findIdx? (fun c => c == color) with
  | some idx => pool.getD ((idx + 1) % pool.length) 0
  | none => pool.getD 0 0

/-- Loop body of `_activate_cell` (ga85.py lines 568-570): apply
`_cycle_color` to one target cell if it is in bounds. -/
def activate_target (pw ph nc : Nat) (g : List (List Nat))
    (t : Int × Int) : List (List Nat) :=
  if 0 ≤ t.1 ∧ t.1 < (pw : Int) ∧ 0 ≤ t.2 ∧ t.2 < (ph : Int) then
    setAt g t.2 t.1 (cycle_color nc (cellAt g t.2 t.1))
  else g

/-- Embedding of `_activate_cell` (ga85.py lines 561-570), restricted to
its effect on the grid; the history push it also performs is part of the
ga85 undo mechanism, which no claim here involves. -/
def activate_cell (pw ph nc : Nat) (gx gy : Int)
    (grid : List (List Nat)) : List (List Nat) :=
  if gx < 0 ∨ (pw : Int) ≤ gx ∨ gy < 0 ∨ (ph : Int) ≤ gy then grid
  else
    [(gx, gy), (gx - 1, gy), (gx + 1, gy), (gx, gy - 1), (gx, gy + 1)].foldl
      (activate_target pw ph nc) grid

/-- The row-major position enumeration used by the solver loops
`for r in range(ph): for c in range(pw)` (ga85.py lines 105-106). -/
def grid_positions (pw ph : Nat) : List (Int × Int) :=
  (List.range ph).flatMap fun r => (List.range pw).map fun c => ((r : Int), (c : Int))

/-- The inner double loop of `_solve_bfs` (ga85.py lines 105-114): expand
one dequeued grid over every click position, returning early with the
solution when a click solves, otherwise accumulating the unvisited
successor grids (into `visited`) and queue items in order. -/
def expand_cells (pw ph : Nat) (pool : List Nat) (target : Nat)
    (g : List (List Nat)) (moves : List (Int × Int)) :
    List (Int × Int) → List (List (List Nat)) →
    List (List (List Nat) × List (Int × Int)) →
    Sum (List (Int × Int))
      (List (List (List Nat)) × List (List (List Nat) × List (Int × Int)))
  | [], visited, acc => Sum.inr (visited, acc)
  | rc :: ps, visited, acc =>
    let g2 := apply_click g rc.1 rc.2 pw ph pool
    let new_moves := moves ++ [rc]
    if is_solved g2 target pw ph then Sum.inl new_moves
    else if g2 ∈ visited then expand_cells pw ph pool target g moves ps visited acc
    else expand_cells pw ph pool target g moves ps (visited ++ [g2]) (acc ++ [(g2, new_moves)])

/-- The `while queue` loop of `_solve_bfs` (ga85.py lines 101-114), with
fuel; `none` means the fuel ran out (an embedding artifact shown below
to be avoidable), `some r` is the loop finishing with result `r`. -/
def solve_bfs_loop (pw ph : Nat) (pool : List Nat) (target : Nat) (max_depth : Nat) :
    Nat → List (List (List Nat)) → List (List (List Nat) × List (Int × Int)) →
    Option (Option (List (Int × Int)))
  | 0, _, _ => none
  | _ + 1, _, [] => some none
  | fuel + 1, visited, (g, moves) :: rest =>
    if max_depth ≤ moves.length then
      solve_bfs_loop pw ph pool target max_depth fuel visited rest
    else
      match expand_cells pw ph pool target g moves (grid_positions pw ph) visited [] with
      | Sum.inl sol => some (some sol)
      | Sum.inr (visited2, items) =>
        solve_bfs_loop pw ph pool target max_depth fuel visited2 (rest ++ items)

/-- Embedding of `_solve_bfs` (ga85.py lines 92-115). -/
def solve_bfs (grid : List (List Nat)) (target : Nat) (pw ph : Nat)
    (pool : List Nat) (max_depth fuel : Nat) : Option (Option (List (Int × Int))) :=
  if is_solved grid target pw ph then some (some [])
  else solve_bfs_loop pw ph pool target max_depth fuel [grid] [(grid, [])]

/-- Embedding of the scramble-application loop of `_generate_solvable_grid`
(ga85.py lines 313-321): apply the drawn clicks in order, skipping any
click equal to the immediately preceding one, and record the filtered
clicks; returns the scrambled grid and the filtered click list. -/
def scramble_apply (pw ph : Nat) (pool : List Nat) :
    List (List Nat) → Int × Int → List (Int × Int) →
    List (List Nat) × List (Int × Int)
  | grid, _, [] => (grid, [])
  | grid, prev, rc :: rest =>
    if rc = prev then scramble_apply pw ph pool grid prev rest
    else
      let g2 := apply_click grid rc.1 rc.2 pw ph pool
      let res := scramble_apply pw ph pool g2 rc rest
      (res.1, rc :: res.2)

/-- The reverse-scramble solution of `_generate_solvable_grid`
(ga85.py lines 332-335): each scramble click, in reverse order,
repeated `nc - 1` times. -/
def build_solution (clicks : List (Int × Int)) (nc : Nat) : List (Int × Int) :=
  clicks.reverse.flatMap fun rc => List.replicate (nc - 1) rc

/-- One attempt of the generation loop of `_generate_solvable_grid`
(ga85.py lines 297-347).  The scramble clicks drawn from the RNG by the
per-level strategy are the input `clicks`; `none` means the attempt was
rejected (already solved, or failed verification) and the loop retries. -/
def attempt_gen (pw ph nc : Nat) (target : Nat) (bfsFuel : Nat)
    (clicks : List (Int × Int)) : Option (List (List Nat) × List (Int × Int)) :=
  let pool := COLOR_CYCLE.take nc
  let grid0 := List.replicate ph (List.replicate pw target)
  let res := scramble_apply pw ph pool grid0 (-1, -1) clicks
  let grid := res.1
  let filtered := res.2
  if is_solved grid target pw ph then none
  else
    let solution := build_solution filtered nc
    if verify_solution grid solution target pw ph pool = false then none
    else
      let solution :=
        if pw ≤ 4 ∧ ph ≤ 4 ∧ nc ≤ 2 then
          match solve_bfs grid target pw ph pool 8 bfsFuel with
          | some (some bfs_sol) =>
            if bfs_sol.length < solution.length then bfs_sol else solution
          | _ => solution
        else solution
      some (grid, solution)

/-- Embedding of `_generate_solvable_grid` (ga85.py lines 290-354): try
the attempts in order and accept the first that verifies; if every
attempt fails (in the source, all 500), fall back to the single
center-click instance with the center clicked `nc - 1` times as its
solution.  `attempts` is the list of per-attempt scramble click draws. -/
def generate_solvable_grid (pw ph nc : Nat) (target : Nat) (bfsFuel : Nat)
    (attempts : List (List (Int × Int))) : List (List Nat) × List (Int × Int) :=
  match attempts.findSome? (attempt_gen pw ph nc target bfsFuel) with
  | some res => res
  | none =>
    let pool := COLOR_CYCLE.take nc
    let grid0 := List.replicate ph (List.replicate pw target)
    let grid := apply_click grid0 ((ph : Int) / 2) ((pw : Int) / 2) pw ph pool
    (grid, List.replicate (nc - 1) (((ph : Int) / 2), ((pw : Int) / 2)))


/-- Every in-bounds cell of the grid carries a label from the palette
slice `pool`; this is the domain on which the generation-time and
in-game click operations coincide. -/
def AllInPool (g : List (List Nat)) (pw ph : Nat) (pool : List Nat) : Prop :=
  ∀ y x : Int, 0 ≤ y → y < (ph : Int) → 0 ≤ x → x < (pw : Int) → cellAt g y x ∈ pool

end Ga85

/-- All lists of length at most `n` over the elements of `xs`; a finite
enumeration used to bound the breadth-first searches below. -/
def allListsUpTo {a : Type} : Nat → List a → List (List a)
  | 0, _ => [[]]
  | n + 1, xs => [] :: xs.flatMap fun v => (allListsUpTo n xs).map fun l => v :: l

/-! ## pm07 — Pattern Master (7-level hidden-rule grid puzzles)

Shallow embedding of src/environment_files/pm07/v1/pm07.py.  Positions
are `(x, y)` pairs with `(0, 0)` top-left, as in the source; the grid
is indexed `grid[y][x]`. -/

namespace Pm07

def C_BLACK : Nat := 0
def C_DARK_GRAY : Nat := 1
def C_RED : Nat := 2
def C_GREEN : Nat := 3
def C_BLUE : Nat := 4
def C_YELLOW : Nat := 5
def C_ORANGE : Nat := 7
def C_CYAN : Nat := 8
def C_LIGHT_GRAY : Nat := 15

/-- The four direction candidates `[(0, -1), (0, 1), (-1, 0), (1, 0)]`
used by every pm07 BFS and by `_get_dir`. -/
def directions : List (Int × Int) := [(0, -1), (0, 1), (-1, 0), (1, 0)]

/-- The `self._extra` dictionary, with one field per key the handlers
use.  `gems_left` is an `Option` because the code reads it with
`.get` under two different defaults (0 when decrementing, 1 in the win
check); every other key is read by direct indexing after being set. -/
structure Extra where
  c1 : Nat := 0
  c2 : Nat := 0
  gems_total : Int := 0
  gems_left : Option Int := none
  wall_positions : List (Int × Int) := []
  teleport_map : List ((Int × Int) × (Int × Int)) := []
  exit_x : Int := 0
  exit_y : Int := 0
  mirror_x : Int := 0
  mirror_y : Int := 0
  target_x : Int := 0
  target_y : Int := 0
  block_colors : List Nat := []
  target_colors : List Nat := []
  target_positions : List ((Int × Int) × Nat) := []
  original_targets : List ((Int × Int) × Nat) := []
  deriving DecidableEq

/-- The tuple pushed by `_save_state` (pm07.py lines 158-168): grid,
cursor, phase, last direction, previous color, and the extra dict. -/
structure Snapshot where
  grid : List (List Nat)
  cursor_x : Int
  cursor_y : Int
  phase : Nat
  last_dx : Int
  last_dy : Int
  prev_color : Nat
  extra : Extra
  deriving DecidableEq

/-- The mutable per-level state of the `Pm07` game object. -/
structure State where
  grid : List (List Nat)
  cursor_x : Int
  cursor_y : Int
  phase : Nat
  prev_color : Nat
  last_dx : Int
  last_dy : Int
  extra : Extra
  history : List Snapshot
  deriving DecidableEq

/-- Embedding of `_save_state` (pm07.py lines 158-168). -/
def save_state (s : State) : State :=
  { s with history :=
      ⟨s.grid, s.cursor_x, s.cursor_y, s.phase, s.last_dx, s.last_dy,
        s.prev_color, s.extra⟩ :: s.history }

/-- Embedding of `_undo` (pm07.py lines 170-175). -/
def undo (s : State) : State :=
  match s.history with
  | [] => s
  | snap :: rest =>
    { grid := snap.grid, cursor_x := snap.cursor_x, cursor_y := snap.cursor_y,
      phase := snap.phase, last_dx := snap.last_dx, last_dy := snap.last_dy,
      prev_color := snap.prev_color, extra := snap.extra, history := rest }

/-- Embedding of `_get_dir` (pm07.py lines 177-187). -/
def get_dir : Nat → Int × Int
  | 1 => (0, -1)
  | 2 => (0, 1)
  | 3 => (-1, 0)
  | 4 => (1, 0)
  | _ => (0, 0)

/-- Embedding of `_in_bounds` (pm07.py lines 189-190). -/
def in_bounds (x y w h : Int) : Prop := 0 ≤ x ∧ x < w ∧ 0 ≤ y ∧ y < h

instance (x y w h : Int) : Decidable (in_bounds x y w h) := by
  unfold in_bounds
  infer_instance

/-- True when some cell of the grid holds color `c` (the level-1 win
check scans for remaining gray cells this way). -/
def has_color (g : List (List Nat)) (c : Nat) : Bool :=
  g.any fun row => row.any fun v => v == c

/-- The level-2 win scan: every cell equals `first`
(pm07.py lines 390-391). -/
def grid_uniform (g : List (List Nat)) (first : Nat) (w h : Int) : Bool :=
  (List.range h.toNat).all fun r => (List.range w.toNat).all fun c =>
    cellAt g (r : Int) (c : Int) == first

/-- Embedding of `_step_level_1` (pm07.py lines 319-345); the returned
Bool is true when the handler called `next_level`. -/
def step_level_1 (w h : Int) (d : Int × Int) (s : State) : State × Bool :=
  if d = (0, 0) then (s, false)
  else
    let s := save_state s
    let leaving_color := cellAt s.grid s.cursor_y s.cursor_x
    let s := if leaving_color ≠ C_LIGHT_GRAY ∧ leaving_color ≠ C_BLACK then
        { s with prev_color := leaving_color } else s
    let nx := max 0 (min (w - 1) (s.cursor_x + d.1))
    let ny := max 0 (min (h - 1) (s.cursor_y + d.2))
    let s := { s with cursor_x := nx, cursor_y := ny }
    let s := if cellAt s.grid ny nx = C_LIGHT_GRAY ∧ s.prev_color ≠ C_BLACK then
        { s with grid := setAt s.grid ny nx s.prev_color } else s
    (s, !(has_color s.grid C_LIGHT_GRAY))

/-- Embedding of `_step_level_2` (pm07.py lines 370-392): the cursor is
clamped to the grid and the arrival cell toggles between the two
colors. -/
def step_level_2 (w h : Int) (d : Int × Int) (s : State) : State × Bool :=
  if d = (0, 0) then (s, false)
  else
    let s := save_state s
    let nx := max 0 (min (w - 1) (s.cursor_x + d.1))
    let ny := max 0 (min (h - 1) (s.cursor_y + d.2))
    let s := { s with cursor_x := nx, cursor_y := ny }
    let c1 := s.extra.c1
    let c2 := s.extra.c2
    let cur := cellAt s.grid ny nx
    let s := { s with grid := setAt s.grid ny nx (if cur = c1 then c2 else c1) }
    (s, grid_uniform s.grid (cellAt s.grid 0 0) w h)

/-- The ice slide of `_step_level_3` (pm07.py lines 517-529): keep
stepping until edge or wall, collecting green gems passed over; the
fuel exceeds any slide length on the level grids. -/
def slide_loop (w h : Int) (d : Int × Int) :
    Nat → List (List Nat) × Int × Int × Option Int →
    List (List Nat) × Int × Int × Option Int
  | 0, st => st
  | fuel + 1, (g, cx, cy, gl) =>
    let nx := cx + d.1
    let ny := cy + d.2
    if ¬ in_bounds nx ny w h then (g, cx, cy, gl)
    else if cellAt g ny nx = C_DARK_GRAY then (g, cx, cy, gl)
    else if cellAt g ny nx = C_GREEN then
      slide_loop w h d fuel (setAt g ny nx C_BLACK, nx, ny, some (gl.getD 0 - 1))
    else slide_loop w h d fuel (g, nx, ny, gl)

/-- Embedding of `_step_level_3` (pm07.py lines 507-536). -/
def step_level_3 (w h : Int) (d : Int × Int) (s : State) : State × Bool :=
  if d = (0, 0) then (s, false)
  else
    let s := save_state s
    let res := slide_loop w h d ((w + h).toNat + 2)
      (s.grid, s.cursor_x, s.cursor_y, s.extra.gems_left)
    let s := { s with
      grid := res.1
      cursor_x := res.2.1
      cursor_y := res.2.2.1
      extra := { s.extra with gems_left := res.2.2.2 } }
    (s, decide (s.extra.gems_left.getD 1 ≤ 0))

/-- Embedding of `_step_level_4` (pm07.py lines 643-676): plain maze
walking; out-of-bounds or wall destinations leave everything but the
undo history unchanged. -/
def step_level_4 (w h : Int) (d : Int × Int) (s : State) : State × Bool :=
  if d = (0, 0) then (s, false)
  else
    let s := save_state s
    let wall_positions := s.extra.wall_positions
    let nx := s.cursor_x + d.1
    let ny := s.cursor_y + d.2
    if ¬ in_bounds nx ny w h then (s, false)
    else if (nx, ny) ∈ wall_positions then (s, false)
    else
      let s := { s with cursor_x := nx, cursor_y := ny }
      let s := if cellAt s.grid ny nx = C_YELLOW then
          { s with
            grid := setAt s.grid ny nx C_BLACK
            extra := { s.extra with
              gems_left := some (s.extra.gems_left.getD 0 - 1) } }
        else s
      (s, decide (s.extra.gems_left.getD 1 ≤ 0))

/-- Dictionary lookup in the teleport map. -/
def tele_get? (m : List ((Int × Int) × (Int × Int))) (k : Int × Int) :
    Option (Int × Int) :=
  (m.find? fun kv => kv.1 == k).map fun kv => kv.2

/-- Embedding of `_step_level_5` (pm07.py lines 836-874). -/
def step_level_5 (w h : Int) (d : Int × Int) (s : State) : State × Bool :=
  if d = (0, 0) then (s, false)
  else
    let s := save_state s
    let wall_positions := s.extra.wall_positions
    let teleport_map := s.extra.teleport_map
    let nx := s.cursor_x + d.1
    let ny := s.cursor_y + d.2
    if ¬ in_bounds nx ny w h then (s, false)
    else if (nx, ny) ∈ wall_positions then (s, false)
    else
      let s := { s with cursor_x := nx, cursor_y := ny }
      let s := match tele_get? teleport_map (nx, ny) with
        | some dest => { s with cursor_x := dest.1, cursor_y := dest.2 }
        | none => s
      (s, decide (s.cursor_x = s.extra.exit_x ∧ s.cursor_y = s.extra.exit_y))

/-- Embedding of `_step_level_6` (pm07.py lines 1091-1124): the main
cursor moves by `(dx, dy)` and the mirror cursor by `(-dx, -dy)`, each
independently pinned when its destination is off-grid or a wall. -/
def step_level_6 (w h : Int) (d : Int × Int) (s : State) : State × Bool :=
  if d = (0, 0) then (s, false)
  else
    let s := save_state s
    let wall_positions := s.extra.wall_positions
    let mnx := s.cursor_x + d.1
    let mny := s.cursor_y + d.2
    let s := if in_bounds mnx mny w h ∧ (mnx, mny) ∉ wall_positions then
        { s with cursor_x := mnx, cursor_y := mny } else s
    let mrnx := s.extra.mirror_x - d.1
    let mrny := s.extra.mirror_y - d.2
    let s := if in_bounds mrnx mrny w h ∧ (mrnx, mrny) ∉ wall_positions then
        { s with extra := { s.extra with mirror_x := mrnx, mirror_y := mrny } }
      else s
    let tx := s.extra.target_x
    let ty := s.extra.target_y
    (s, decide (s.cursor_x = tx ∧ s.cursor_y = ty ∧
      s.extra.mirror_x = tx ∧ s.extra.mirror_y = ty))

/-- Dictionary lookup among the block targets. -/
def targets_get? (m : List ((Int × Int) × Nat)) (k : Int × Int) : Option Nat :=
  (m.find? fun kv => kv.1 == k).map fun kv => kv.2

/-- The level-7 win scan: every target holds its matching block
(pm07.py lines 1313-1318). -/
def sokoban_win (g : List (List Nat)) (original_targets : List ((Int × Int) × Nat)) :
    Bool :=
  original_targets.all fun kv => cellAt g kv.1.2 kv.1.1 == kv.2

/-- Embedding of `_step_level_7` (pm07.py lines 1251-1319), the Sokoban
push rules. -/
def step_level_7 (w h : Int) (d : Int × Int) (s : State) : State × Bool :=
  if d = (0, 0) then (s, false)
  else
    let s := save_state s
    let wall_positions := s.extra.wall_positions
    let block_colors := s.extra.block_colors
    let target_colors := s.extra.target_colors
    let original_targets := s.extra.original_targets
    let nx := s.cursor_x + d.1
    let ny := s.cursor_y + d.2
    if ¬ in_bounds nx ny w h then (s, false)
    else if (nx, ny) ∈ wall_positions then (s, false)
    else
      let cell := cellAt s.grid ny nx
      if cell ∈ block_colors then
        let push_x := nx + d.1
        let push_y := ny + d.2
        if ¬ in_bounds push_x push_y w h then (s, false)
        else if (push_x, push_y) ∈ wall_positions then (s, false)
        else
          let push_dest := cellAt s.grid push_y push_x
          if push_dest ∈ block_colors ∨ push_dest = C_DARK_GRAY then (s, false)
          else
            let block_color := cell
            let s := match targets_get? original_targets (nx, ny) with
              | some tc => { s with grid := setAt s.grid ny nx tc }
              | none => { s with grid := setAt s.grid ny nx C_BLACK }
            let s := { s with grid := setAt s.grid push_y push_x block_color }
            let s := { s with cursor_x := nx, cursor_y := ny }
            (s, sokoban_win s.grid original_targets)
      else if cell = C_BLACK ∨ cell ∈ target_colors then
        let s := { s with cursor_x := nx, cursor_y := ny }
        (s, sokoban_win s.grid original_targets)
      else (s, false)

/-- Embedding of `step` (pm07.py lines 257-276): ACTION7 undoes,
otherwise the level handler runs on the decoded direction. -/
def step (lvl : Nat) (w h : Int) (action_id : Nat) (s : State) : State × Bool :=
  if action_id = 7 then (undo s, false)
  else
    let d := get_dir action_id
    match lvl with
    | 0 => step_level_1 w h d s
    | 1 => step_level_2 w h d s
    | 2 => step_level_3 w h d s
    | 3 => step_level_4 w h d s
    | 4 => step_level_5 w h d s
    | 5 => step_level_6 w h d s
    | _ => step_level_7 w h d s

/-- The joint-state successor of `_bfs_mirror_solvable`
(pm07.py lines 912-918): main candidate `(dx, dy)`, mirror candidate
`(-dx, -dy)`, each reset to its prior position if off-grid or a wall. -/
def bfs_mirror_succ (w h : Int) (walls : List (Int × Int))
    (st : Int × Int × Int × Int) (d : Int × Int) : Int × Int × Int × Int :=
  let scx := st.1
  let scy := st.2.1
  let smx := st.2.2.1
  let smy := st.2.2.2
  let p1 :=
    if ¬ (0 ≤ scx + d.1 ∧ scx + d.1 < w ∧ 0 ≤ scy + d.2 ∧ scy + d.2 < h) ∨
        (scx + d.1, scy + d.2) ∈ walls then (scx, scy)
    else (scx + d.1, scy + d.2)
  let p2 :=
    if ¬ (0 ≤ smx - d.1 ∧ smx - d.1 < w ∧ 0 ≤ smy - d.2 ∧ smy - d.2 < h) ∨
        (smx - d.1, smy - d.2) ∈ walls then (smx, smy)
    else (smx - d.1, smy - d.2)
  (p1.1, p1.2, p2.1, p2.2)

/-- The per-state direction loop of `_bfs_mirror_solvable`
(pm07.py lines 911-924); `none` signals that the target joint state was
found and the search returns True. -/
def mirror_expand (w h : Int) (walls : List (Int × Int)) (tx ty : Int)
    (st : Int × Int × Int × Int) :
    List (Int × Int) → List (Int × Int × Int × Int) →
    List (Int × Int × Int × Int) →
    Option (List (Int × Int × Int × Int) × List (Int × Int × Int × Int))
  | [], visited, acc => some (visited, acc)
  | d :: ds, visited, acc =>
    let ns := bfs_mirror_succ w h walls st d
    if ns ∈ visited then mirror_expand w h walls tx ty st ds visited acc
    else if ns.1 = tx ∧ ns.2.1 = ty ∧ ns.2.2.1 = tx ∧ ns.2.2.2 = ty then none
    else mirror_expand w h walls tx ty st ds (visited ++ [ns]) (acc ++ [ns])

/-- The queue loop of `_bfs_mirror_solvable` (pm07.py lines 910-925),
with fuel. -/
def bfs_mirror_loop (w h : Int) (walls : List (Int × Int)) (tx ty : Int) :
    Nat → List (Int × Int × Int × Int) → List (Int × Int × Int × Int) → Bool
  | 0, _, _ => false
  | _ + 1, _, [] => false
  | fuel + 1, visited, st :: rest =>
    match mirror_expand w h walls tx ty st directions visited [] with
    | none => true
    | some res => bfs_mirror_loop w h walls tx ty fuel res.1 (rest ++ res.2)

/-- Embedding of `_bfs_mirror_solvable` (pm07.py lines 892-925). -/
def bfs_mirror_solvable (w h : Int) (walls : List (Int × Int))
    (cx cy mx my tx ty : Int) (fuel : Nat) : Bool :=
  if cx = tx ∧ cy = ty ∧ mx = tx ∧ my = ty then true
  else bfs_mirror_loop w h walls tx ty fuel [(cx, cy, mx, my)] [(cx, cy, mx, my)]

/-- One simulated slide of `_can_reach_by_slide`
(pm07.py lines 426-436): walk in direction `d` until edge or wall,
remembering whether the target cell was passed. -/
def slide_sim (w h : Int) (grid : List (List Nat)) (tx ty : Int) (d : Int × Int) :
    Nat → Int × Int → Bool → Int × Int × Bool
  | 0, p, passed => (p.1, p.2, passed)
  | fuel + 1, (sx, sy), passed =>
    let nx := sx + d.1
    let ny := sy + d.2
    if ¬ in_bounds nx ny w h then (sx, sy, passed)
    else if cellAt grid ny nx = C_DARK_GRAY then (sx, sy, passed)
    else slide_sim w h grid tx ty d fuel (nx, ny) (passed ∨ (nx = tx ∧ ny = ty))

/-- The per-cell direction loop of `_can_reach_by_slide`
(pm07.py lines 422-442); `none` signals `passed_target` and the search
returns True. -/
def slide_expand (w h : Int) (grid : List (List Nat)) (tx ty : Int)
    (cx cy : Int) :
    List (Int × Int) → List (Int × Int) → List (Int × Int) →
    Option (List (Int × Int) × List (Int × Int))
  | [], visited, acc => some (visited, acc)
  | d :: ds, visited, acc =>
    let res := slide_sim w h grid tx ty d ((w + h).toNat + 2) (cx, cy) false
    if res.2.2 then none
    else if (res.1, res.2.1) ∈ visited then
      slide_expand w h grid tx ty cx cy ds visited acc
    else slide_expand w h grid tx ty cx cy ds
      (visited ++ [(res.1, res.2.1)]) (acc ++ [(res.1, res.2.1)])

/-- The queue loop of `_can_reach_by_slide` (pm07.py lines 421-444),
with fuel. -/
def can_reach_loop (w h : Int) (grid : List (List Nat)) (tx ty : Int) :
    Nat → List (Int × Int) → List (Int × Int) → Bool
  | 0, _, _ => false
  | _ + 1, _, [] => false
  | fuel + 1, visited, (cx, cy) :: rest =>
    match slide_expand w h grid tx ty cx cy directions visited [] with
    | none => true
    | some res => can_reach_loop w h grid tx ty fuel res.1 (rest ++ res.2)

/-- Embedding of `_can_reach_by_slide` (pm07.py lines 408-444): BFS
from (0, 0) over slide moves, true when the gem at the target can be
slid over or into. -/
def can_reach_by_slide (grid : List (List Nat)) (tx ty w h : Int)
    (fuel : Nat) : Bool :=
  can_reach_loop w h grid tx ty fuel [(0, 0)] [(0, 0)]

/-- The gem-placement loop of `_setup_level_3` (pm07.py lines 486-505):
draw candidate positions, temporarily place the gem, keep it only when
`_can_reach_by_slide` reports it collectible, else remove it.  The RNG
draws are the input `cands`; the returned triple is the final grid, the
used set and the accepted gem positions. -/
def place_gems (w h : Int) (bfsFuel : Nat) :
    List (Int × Int) → Nat → Nat → List (List Nat) → List (Int × Int) →
    List (Int × Int) →
    List (List Nat) × List (Int × Int) × List (Int × Int)
  | [], _, _, grid, used, gems => (grid, used, gems)
  | (gx, gy) :: cands, placed, attempts, grid, used, gems =>
    if 3 ≤ placed ∨ 300 ≤ attempts then (grid, used, gems)
    else if (gx, gy) ∈ used then
      place_gems w h bfsFuel cands placed (attempts + 1) grid used gems
    else
      let g2 := setAt grid gy gx C_GREEN
      if can_reach_by_slide g2 gx gy w h bfsFuel then
        place_gems w h bfsFuel cands (placed + 1) (attempts + 1) g2
          (used ++ [(gx, gy)]) (gems ++ [(gx, gy)])
      else
        place_gems w h bfsFuel cands placed (attempts + 1)
          (setAt g2 gy gx C_BLACK) used gems

/-- The per-cell direction loop of `_bfs_teleport_reachable`
(pm07.py lines 711-728): step to an in-bounds non-wall neighbour,
substitute the teleport destination as the effective arrival cell, and
mark both the post-warp and pre-warp cells visited (only the post-warp
cell is enqueued). -/
def teleport_expand (w h : Int) (grid : List (List Nat))
    (tm : List ((Int × Int) × (Int × Int))) (cx cy : Int) :
    List (Int × Int) → List (Int × Int) → List (Int × Int) →
    List (Int × Int) × List (Int × Int)
  | [], visited, acc => (visited, acc)
  | d :: ds, visited, acc =>
    let nx := cx + d.1
    let ny := cy + d.2
    if ¬ in_bounds nx ny w h then teleport_expand w h grid tm cx cy ds visited acc
    else if cellAt grid ny nx = C_DARK_GRAY then
      teleport_expand w h grid tm cx cy ds visited acc
    else
      let fin := match tele_get? tm (nx, ny) with
        | some dest => dest
        | none => (nx, ny)
      let step1 := if fin ∉ visited then (visited ++ [fin], acc ++ [fin])
        else (visited, acc)
      let visited2 := if (nx, ny) ∉ step1.1 then step1.1 ++ [(nx, ny)] else step1.1
      teleport_expand w h grid tm cx cy ds visited2 step1.2

/-- The queue loop of `_bfs_teleport_reachable`
(pm07.py lines 706-730), with fuel. -/
def bfs_teleport_loop (w h : Int) (grid : List (List Nat))
    (tm : List ((Int × Int) × (Int × Int))) (tx ty : Int) :
    Nat → List (Int × Int) → List (Int × Int) → Bool
  | 0, _, _ => false
  | _ + 1, _, [] => false
  | fuel + 1, visited, (cx, cy) :: rest =>
    if cx = tx ∧ cy = ty then true
    else
      let res := teleport_expand w h grid tm cx cy directions visited []
      bfs_teleport_loop w h grid tm tx ty fuel res.1 (rest ++ res.2)

/-- Embedding of `_bfs_teleport_reachable` (pm07.py lines 697-730). -/
def bfs_teleport_reachable (sx sy tx ty w h : Int) (grid : List (List Nat))
    (tm : List ((Int × Int) × (Int × Int))) (fuel : Nat) : Bool :=
  bfs_teleport_loop w h grid tm tx ty fuel [(sx, sy)] [(sx, sy)]

/-- One candidate level-5 layout: the parts of the game state the
generation attempt of `_setup_level_5` builds before its solvability
check. -/
structure Layout where
  grid : List (List Nat)
  wall_positions : List (Int × Int)
  exit_x : Int
  exit_y : Int
  teleport_map : List ((Int × Int) × (Int × Int))
  deriving DecidableEq

/-- Embedding of `_setup_level_5` (pm07.py lines 732-834): accept the
first randomly built candidate layout whose exit the teleport-walk BFS
reports reachable from (0, 0); if every attempt fails (in the source,
all 50), fall back to the blank grid with the exit at the
bottom-right corner, no walls and no teleporters.  The per-attempt RNG
builds are the input `cands`. -/
def setup_level_5 (w h : Int) (cands : List Layout) : Layout :=
  match cands.find? (fun L => bfs_teleport_reachable 0 0 L.exit_x L.exit_y w h
      L.grid L.teleport_map 1000) with
  | some L => L
  | none =>
    { grid := setAt (List.replicate h.toNat (List.replicate w.toNat C_BLACK))
        (h - 1) (w - 1) C_GREEN,
      wall_positions := [], exit_x := w - 1, exit_y := h - 1, teleport_map := [] }

/-- Two grids agree on which cells are walls; the slide-reachability
BFS reads the grid only through this predicate. -/
def WallEq (g1 g2 : List (List Nat)) : Prop :=
  ∀ y x : Int, cellAt g1 y x = C_DARK_GRAY ↔ cellAt g2 y x = C_DARK_GRAY

end Pm07

/-! ## cd01 — Connect All Paths (multi-color path-drawing puzzle)

Shallow embedding of src/environment_files/cd01/v1/cd01.py.  Positions
are `(x, y)` pairs; the grid is indexed `grid[y][x]`; color ids are
positive and 0 is the empty cell. -/

namespace Cd01

/-- From cd01.py line 33. -/
def DIRS : List (Int × Int) := [(0, -1), (0, 1), (-1, 0), (1, 0)]

/-- The mutable state of the `Cd01` game object that the path
operations touch. -/
structure CdState where
  grid : List (List Nat)
  grid_w : Nat
  grid_h : Nat
  endpoints : List (Nat × ((Int × Int) × (Int × Int)))
  bridges : List (Int × Int)
  cursor_x : Int
  cursor_y : Int
  selected_color : Nat
  drawn_paths : List (Nat × List (Int × Int))
  deriving DecidableEq

/-- Dictionary read `self.drawn_paths.get(color, [])`. -/
def paths_get (d : List (Nat × List (Int × Int))) (c : Nat) : List (Int × Int) :=
  match d.find? (fun kv => kv.1 == c) with
  | some kv => kv.2
  | none => []

/-- Dictionary write `self.drawn_paths[color] = p` (the key is always
already present: the dict is keyed once per color at level setup). -/
def paths_set (d : List (Nat × List (Int × Int))) (c : Nat)
    (p : List (Int × Int)) : List (Nat × List (Int × Int)) :=
  d.map fun kv => if kv.1 = c then (kv.1, p) else kv

/-- Dictionary read `self.endpoints[color]`; the code only reads keys
it created, so the default is never exercised on the modelled paths. -/
def eps_get (e : List (Nat × ((Int × Int) × (Int × Int)))) (c : Nat) :
    (Int × Int) × (Int × Int) :=
  match e.find? (fun kv => kv.1 == c) with
  | some kv => kv.2
  | none => ((0, 0), (0, 0))

/-- Embedding of `_other_occupant` (cd01.py lines 496-500): the first
color other than `exclude_color` whose drawn path passes through
`pos`, else 0. -/
def other_occupant (d : List (Nat × List (Int × Int))) (pos : Int × Int)
    (exclude_color : Nat) : Nat :=
  match d.find? (fun kv => decide (kv.1 ≠ exclude_color ∧ pos ∈ kv.2)) with
  | some kv => kv.1
  | none => 0

/-- Embedding of `_move_cursor` (cd01.py lines 386-390). -/
def move_cursor (s : CdState) (dx dy : Int) : CdState :=
  let nx := s.cursor_x + dx
  let ny := s.cursor_y + dy
  if 0 ≤ nx ∧ nx < (s.grid_w : Int) ∧ 0 ≤ ny ∧ ny < (s.grid_h : Int) then
    { s with cursor_x := nx, cursor_y := ny }
  else s

/-- Embedding of `_undo_last_cell` (cd01.py lines 466-479): pop the
last path cell; unless it is an endpoint, release its grid cell to the
other occupant color (or empty). -/
def undo_last_cell (s : CdState) (color : Nat) : CdState :=
  let path := paths_get s.drawn_paths color
  match path.getLast? with
  | none => s
  | some removed =>
    let s := { s with drawn_paths := paths_set s.drawn_paths color path.dropLast }
    let eps := eps_get s.endpoints color
    if removed = eps.1 ∨ removed = eps.2 then s
    else if cellAt s.grid removed.2 removed.1 = color then
      let other := other_occupant s.drawn_paths removed color
      { s with grid := setAt s.grid removed.2 removed.1 other }
    else s

/-- The release loop of `_clear_drawn_path` (cd01.py lines 484-490):
walk the old path, skipping endpoints, and release every cell still
holding this color to its other occupant (or empty). -/
def clear_cells (eps : (Int × Int) × (Int × Int)) (color : Nat)
    (d : List (Nat × List (Int × Int))) :
    List (List Nat) → List (Int × Int) → List (List Nat)
  | g, [] => g
  | g, pos :: rest =>
    if pos = eps.1 ∨ pos = eps.2 then clear_cells eps color d g rest
    else if cellAt g pos.2 pos.1 = color then
      clear_cells eps color d (setAt g pos.2 pos.1 (other_occupant d pos color)) rest
    else clear_cells eps color d g rest

/-- Embedding of `_clear_drawn_path` (cd01.py lines 481-491). -/
def clear_drawn_path (s : CdState) (color : Nat) : CdState :=
  let eps := eps_get s.endpoints color
  let old_path := paths_get s.drawn_paths color
  let s := { s with grid := clear_cells eps color s.drawn_paths s.grid old_path }
  { s with drawn_paths := paths_set s.drawn_paths color [] }

/-- Embedding of `_handle_select` (cd01.py lines 392-402): deselect
when drawing; otherwise select the color whose endpoint is under the
cursor, clearing its old path and starting a fresh one. -/
def handle_select (s : CdState) : CdState :=
  let pos := (s.cursor_x, s.cursor_y)
  if 0 < s.selected_color then { s with selected_color := 0 }
  else
    match s.endpoints.find? (fun kv => pos == kv.2.1 || pos == kv.2.2) with
    | some kv =>
      let s := clear_drawn_path s kv.1
      { s with selected_color := kv.1,
               drawn_paths := paths_set s.drawn_paths kv.1 [pos] }
    | none => s

/-- Embedding of `_handle_undo` (cd01.py lines 404-413). -/
def handle_undo (s : CdState) : CdState :=
  if s.selected_color = 0 then s
  else
    let path := paths_get s.drawn_paths s.selected_color
    if path.length ≤ 1 then s
    else
      let s := undo_last_cell s s.selected_color
      let path := paths_get s.drawn_paths s.selected_color
      match path.getLast? with
      | some last => { s with cursor_x := last.1, cursor_y := last.2 }
      | none => s

/-- Embedding of `_extend_path` (cd01.py lines 419-464), with the five
branches in source order: back-step (implicit undo), own-path
rejection, completion at the far endpoint, empty-cell occupation,
bridge crossing; anything else is a no-op. -/
def extend_path (s : CdState) (dx dy : Int) : CdState :=
  let nx := s.cursor_x + dx
  let ny := s.cursor_y + dy
  if ¬ (0 ≤ nx ∧ nx < (s.grid_w : Int) ∧ 0 ≤ ny ∧ ny < (s.grid_h : Int)) then s
  else
    let color := s.selected_color
    let path := paths_get s.drawn_paths color
    if path = [] then s
    else
      let target := (nx, ny)
      if 2 ≤ path.length ∧ path[path.length - 2]? = some target then
        let s := undo_last_cell s color
        { s with cursor_x := nx, cursor_y := ny }
      else if target ∈ path then s
      else
        let eps := eps_get s.endpoints color
        let start_ep := path.headD (0, 0)
        let other_ep := if start_ep = eps.1 then eps.2 else eps.1
        if target = other_ep then
          { s with drawn_paths := paths_set s.drawn_paths color (path ++ [target]),
                   cursor_x := nx, cursor_y := ny, selected_color := 0 }
        else if cellAt s.grid ny nx = 0 then
          { s with drawn_paths := paths_set s.drawn_paths color (path ++ [target]),
                   grid := setAt s.grid ny nx color, cursor_x := nx,
                   cursor_y := ny }
        else if target ∈ s.bridges ∧ cellAt s.grid ny nx ≠ color then
          { s with drawn_paths := paths_set s.drawn_paths color (path ++ [target]),
                   cursor_x := nx, cursor_y := ny }
        else s

/-- One player action, as dispatched by `step`
(cd01.py lines 350-369): a direction extends the selected path or
moves the cursor, ACTION5 selects, ACTION7 undoes. -/
inductive CdAct where
  | dir (d : Int × Int)
  | select
  | undoAct
  deriving DecidableEq

/-- Apply one action to the state, following the dispatch of `step`. -/
def cd_apply (s : CdState) : CdAct → CdState
  | .dir d => if 0 < s.selected_color then extend_path s d.1 d.2
      else move_cursor s d.1 d.2
  | .select => handle_select s
  | .undoAct => handle_undo s

/-- Run a sequence of actions. -/
def cd_run (s : CdState) : List CdAct → CdState
  | [] => s
  | a :: acts => cd_run (cd_apply s a) acts

/-- The per-level grid sizes of `LEVEL_CONFIGS` (cd01.py lines 35-42). -/
def LEVEL_GRIDS : List (Nat × Nat) :=
  [(8, 8), (16, 16), (8, 8), (16, 16), (32, 32), (32, 32)]

/-- The hand-authored `PUZZLES` table (cd01.py lines 52-162): per level
the endpoint dictionary, in insertion order, and the bridge set. -/
def PUZZLES :
    List (List (Nat × ((Int × Int) × (Int × Int))) × List (Int × Int)) :=
  [([(1, ((6, 6), (0, 4))), (2, ((0, 3), (2, 0))), (3, ((3, 0), (5, 3))),
    (4, ((5, 4), (3, 4))), (5, ((3, 5), (2, 1)))], []),
   ([(1, ((2, 13), (15, 14))), (2, ((14, 14), (14, 12))),
    (3, ((14, 11), (13, 11))), (4, ((13, 12), (8, 12))),
    (5, ((9, 12), (10, 3))), (6, ((9, 3), (4, 8)))], []),
   ([(1, ((0, 0), (1, 3))), (2, ((0, 4), (1, 7))), (3, ((2, 0), (3, 2))),
    (4, ((2, 3), (3, 7))), (5, ((4, 0), (5, 3))), (6, ((4, 4), (5, 7))),
    (7, ((6, 0), (7, 7)))], [(3, 3)]),
   ([(1, ((0, 0), (7, 3))), (2, ((8, 0), (15, 3))), (3, ((0, 4), (7, 7))),
    (4, ((8, 4), (15, 7))), (5, ((0, 8), (7, 11))), (6, ((8, 8), (15, 11))),
    (7, ((0, 12), (7, 15))), (8, ((8, 12), (15, 15)))], [(7, 4), (8, 11)]),
   ([(1, ((0, 0), (31, 3))), (2, ((0, 4), (31, 6))), (3, ((0, 7), (31, 10))),
    (4, ((0, 11), (31, 13))), (5, ((0, 14), (31, 17))),
    (6, ((0, 18), (31, 20))), (7, ((0, 21), (31, 23))),
    (8, ((0, 24), (31, 27))), (9, ((0, 28), (31, 31)))], [(15, 6), (16, 21)]),
   ([(1, ((0, 0), (31, 2))), (2, ((0, 3), (31, 5))), (3, ((0, 6), (31, 8))),
    (4, ((0, 9), (31, 11))), (5, ((0, 12), (31, 14))),
    (6, ((0, 15), (31, 17))), (7, ((0, 18), (31, 20))),
    (8, ((0, 21), (31, 23))), (9, ((0, 24), (31, 26))),
    (10, ((0, 27), (31, 31)))], [(10, 3), (21, 3), (10, 20), (21, 20)])]

/-- The endpoint-marking loop of `on_set_level` (cd01.py lines 328-330). -/
def init_grid (gw gh : Nat)
    (eps : List (Nat × ((Int × Int) × (Int × Int)))) : List (List Nat) :=
  eps.foldl
    (fun g kv => setAt (setAt g kv.2.1.2 kv.2.1.1 kv.1) kv.2.2.2 kv.2.2.1 kv.1)
    (List.replicate gh (List.replicate gw 0))

/-- Embedding of `on_set_level` (cd01.py lines 317-344), restricted to
the path-machine state. -/
def on_set_level (idx : Nat) : CdState :=
  let cfg := LEVEL_GRIDS.getD idx (8, 8)
  let pz := PUZZLES.getD idx ([], [])
  { grid := init_grid cfg.1 cfg.2 pz.1
    grid_w := cfg.1
    grid_h := cfg.2
    endpoints := pz.1
    bridges := pz.2
    cursor_x := ((eps_get pz.1 1).1).1
    cursor_y := ((eps_get pz.1 1).1).2
    selected_color := 0
    drawn_paths := pz.1.map fun kv => (kv.1, []) }

/-- Python set insertion, preserving first-insertion order. -/
def sadd (l : List (Int × Int)) (x : Int × Int) : List (Int × Int) :=
  if x ∈ l then l else l ++ [x]

/-- The `covered` set computed by `_check_win`
(cd01.py lines 507-512): all endpoint cells plus all drawn-path cells. -/
def covered (s : CdState) : List (Int × Int) :=
  let c1 := s.endpoints.foldl (fun acc kv => sadd (sadd acc kv.2.1) kv.2.2) []
  s.drawn_paths.foldl (fun acc kv => kv.2.foldl sadd acc) c1

/-- The neighbour loop of `_path_connects` (cd01.py lines 534-539). -/
def connect_expand (cells : List (Int × Int)) (pos : Int × Int) :
    List (Int × Int) → List (Int × Int) → List (Int × Int) →
    List (Int × Int) × List (Int × Int)
  | [], visited, acc => (visited, acc)
  | d :: ds, visited, acc =>
    let nb := (pos.1 + d.1, pos.2 + d.2)
    if nb ∉ visited ∧ nb ∈ cells then
      connect_expand cells pos ds (visited ++ [nb]) (acc ++ [nb])
    else connect_expand cells pos ds visited acc

/-- The queue loop of `_path_connects` (cd01.py lines 528-540), with
fuel. -/
def connect_loop (cells : List (Int × Int)) (finish : Int × Int) :
    Nat → List (Int × Int) → List (Int × Int) → Bool
  | 0, _, _ => false
  | _ + 1, _, [] => false
  | fuel + 1, visited, pos :: rest =>
    if pos = finish then true
    else
      let res := connect_expand cells pos DIRS visited []
      connect_loop cells finish fuel res.1 (rest ++ res.2)

/-- Embedding of `_path_connects` (cd01.py lines 523-540): BFS over the
color-owned path cells plus the two endpoints. -/
def path_connects (s : CdState) (color : Nat) (start finish : Int × Int)
    (fuel : Nat) : Bool :=
  let cells := sadd (sadd (paths_get s.drawn_paths color) start) finish
  connect_loop cells finish fuel [start] [start]

/-- Embedding of `_check_win` (cd01.py lines 506-521). -/
def check_win (s : CdState) (fuel : Nat) : Bool :=
  if (covered s).length < s.grid_w * s.grid_h then false
  else s.endpoints.all fun kv => path_connects s kv.1 kv.2.1 kv.2.2 fuel

/-- Membership description of the covered set: a cell is covered when
it is an endpoint of some color or lies on some color's drawn path. -/
def covered_mem (s : CdState) (p : Int × Int) : Prop :=
  (∃ kv ∈ s.endpoints, p = kv.2.1 ∨ p = kv.2.2) ∨
    ∃ kv ∈ s.drawn_paths, p ∈ kv.2

/-- Every cell of the board, for the coverage comparison. -/
def allCells (w h : Nat) : List (Int × Int) :=
  ((List.range w) ×ˢ (List.range h)).map fun p => ((p.1 : Int), (p.2 : Int))

/-- One Extend call that appends a fresh cell: in bounds, not a
back-step, not on any path, not an endpoint of its own color, and
either an empty cell or an unclaimed bridge.  These are exactly the
Extend calls that a matching Undo inverts. -/
def append_extend_ok (s : CdState) (d : Int × Int) : Bool :=
  let nx := s.cursor_x + d.1
  let ny := s.cursor_y + d.2
  let target := (nx, ny)
  let c := s.selected_color
  let path := paths_get s.drawn_paths c
  let eps := eps_get s.endpoints c
  decide (0 < c) &&
  decide (0 ≤ nx ∧ nx < (s.grid_w : Int) ∧ 0 ≤ ny ∧ ny < (s.grid_h : Int)) &&
  decide (path ≠ []) &&
  decide (target ∉ path) &&
  decide (target ≠ eps.1 ∧ target ≠ eps.2) &&
  decide (∀ kv ∈ s.drawn_paths, kv.1 ≠ c → target ∉ kv.2) &&
  (decide (cellAt s.grid ny nx = 0) ||
    decide (target ∈ s.bridges ∧ cellAt s.grid ny nx ≠ c))

/-- A sequence of Extend directions each of which appends a fresh cell
from the state reached so far. -/
def append_seq_ok (s : CdState) : List (Int × Int) → Bool
  | [] => true
  | d :: ds => append_extend_ok s d && append_seq_ok (extend_path s d.1 d.2) ds

/-- Apply a sequence of Extend calls. -/
def applyExtends (s : CdState) : List (Int × Int) → CdState
  | [] => s
  | d :: ds => applyExtends (extend_path s d.1 d.2) ds

/-- Apply `n` Undo calls. -/
def applyUndos : Nat → CdState → CdState
  | 0, s => s
  | n + 1, s => applyUndos n (handle_undo s)

/-- The inductive invariant of the path machine: well-formed static
data (distinct endpoint cells, nonzero color keys, the path dictionary
keyed exactly like the endpoint dictionary, grid dimensions), plus the
claimed path invariants and the supporting facts about grid contents. -/
def Inv (s : CdState) : Prop :=
  GridDims s.grid s.grid_w s.grid_h ∧
  (s.endpoints.flatMap fun kv => [kv.2.1, kv.2.2]).Nodup ∧
  (∀ kv ∈ s.endpoints, kv.1 ≠ 0) ∧
  (s.endpoints.map Prod.fst).Nodup ∧
  s.drawn_paths.map Prod.fst = s.endpoints.map Prod.fst ∧
  (s.selected_color = 0 ∨ s.selected_color ∈ s.endpoints.map Prod.fst) ∧
  (∀ c, (paths_get s.drawn_paths c).Nodup) ∧
  (∀ c1 c2, c1 ≠ c2 → ∀ p : Int × Int, p ∈ paths_get s.drawn_paths c1 →
    p ∈ paths_get s.drawn_paths c2 → p ∈ s.bridges) ∧
  (∀ kv ∈ s.endpoints, cellAt s.grid kv.2.1.2 kv.2.1.1 = kv.1 ∧
    cellAt s.grid kv.2.2.2 kv.2.2.1 = kv.1) ∧
  (∀ c, ∀ p ∈ paths_get s.drawn_paths c,
    (∃ kv ∈ s.endpoints, kv.1 = c ∧ (p = kv.2.1 ∨ p = kv.2.2)) ∨
      p ∈ s.bridges ∨ cellAt s.grid p.2 p.1 = c)

end Cd01

/-! ## Theorems -/

theorem length_lset (l : List Nat) (n v : Nat) : (lset l n v).length = l.length := by
  induction l generalizing n with
  | nil => rfl
  | cons a t ih => cases n with
    | zero => rfl
    | succ m => simpa [lset] using ih m

theorem length_rset (g : List (List Nat)) (n : Nat) (row : List Nat) :
    (rset g n row).length = g.length := by
  induction g generalizing n with
  | nil => rfl
  | cons a t ih => cases n with
    | zero => rfl
    | succ m => simpa [rset] using ih m

theorem lget_lset_self (l : List Nat) (n v : Nat) (h : n < l.length) :
    lget (lset l n v) n = v := by
  induction l generalizing n with
  | nil => simp at h
  | cons a t ih => cases n with
    | zero => rfl
    | succ m => exact ih m (by simpa using h)

theorem lget_lset_of_ne (l : List Nat) (n m v : Nat) (h : n ≠ m) :
    lget (lset l n v) m = lget l m := by
  induction l generalizing n m with
  | nil => rfl
  | cons a t ih =>
    cases n with
    | zero => cases m with
      | zero => exact absurd rfl h
      | succ k => rfl
    | succ n2 => cases m with
      | zero => rfl
      | succ k => exact ih n2 k (by omega)

theorem rget_rset_self (g : List (List Nat)) (n : Nat) (row : List Nat) :
    rget (rset g n row) n = if n < g.length then row else rget g n := by
  induction g generalizing n with
  | nil => simp [rset, rget]
  | cons a t ih =>
    cases n with
    | zero => simp [rset, rget]
    | succ m => simpa [rset, rget] using ih m

theorem rget_rset_of_ne (g : List (List Nat)) (n m : Nat) (row : List Nat) (h : n ≠ m) :
    rget (rset g n row) m = rget g m := by
  induction g generalizing n m with
  | nil => rfl
  | cons a t ih =>
    cases n with
    | zero => cases m with
      | zero => exact absurd rfl h
      | succ k => rfl
    | succ n2 => cases m with
      | zero => rfl
      | succ k => exact ih n2 k (by omega)

theorem mem_rset (g : List (List Nat)) (n : Nat) (row r : List Nat)
    (h : r ∈ rset g n row) : r ∈ g ∨ r = row := by
  induction g generalizing n with
  | nil => simp [rset] at h
  | cons a t ih =>
    cases n with
    | zero =>
      rcases List.mem_cons.mp h with h1 | h1
      · right; exact h1
      · left; exact List.mem_cons_of_mem _ h1
    | succ m =>
      rcases List.mem_cons.mp h with h1 | h1
      · left; simp [h1]
      · rcases ih m h1 with h2 | h2
        · left; exact List.mem_cons_of_mem _ h2
        · right; exact h2

theorem rget_mem (g : List (List Nat)) (n : Nat) (h : n < g.length) : rget g n ∈ g := by
  induction g generalizing n with
  | nil => simp at h
  | cons a t ih =>
    cases n with
    | zero => simp [rget]
    | succ m => exact List.mem_cons_of_mem _ (ih m (by simpa using h))

theorem rset_eq_of_ge (g : List (List Nat)) (n : Nat) (row : List Nat)
    (h : g.length ≤ n) : rset g n row = g := by
  induction g generalizing n with
  | nil => rfl
  | cons a t ih =>
    cases n with
    | zero => simp at h
    | succ m => simp only [rset]; rw [ih m (by simpa using h)]

theorem lget_replicate (n m t : Nat) (h : m < n) : lget (List.replicate n t) m = t := by
  induction n generalizing m with
  | zero => omega
  | succ k ih =>
    cases m with
    | zero => rfl
    | succ j => exact ih j (by omega)

theorem rget_replicate (n m : Nat) (r : List Nat) (h : m < n) :
    rget (List.replicate n r) m = r := by
  induction n generalizing m with
  | zero => omega
  | succ k ih =>
    cases m with
    | zero => rfl
    | succ j => exact ih j (by omega)

theorem gridDims_setAt {g : List (List Nat)} {pw ph : Nat} (hd : GridDims g pw ph)
    (y x : Int) (v : Nat) : GridDims (setAt g y x v) pw ph := by
  unfold setAt
  split
  · constructor
    · rw [length_rset]; exact hd.1
    · intro row hrow
      rcases mem_rset _ _ _ _ hrow with h | h
      · exact hd.2 _ h
      · subst h
        rcases Nat.lt_or_ge y.toNat g.length with hy | hy
        · rw [length_lset]
          exact hd.2 _ (rget_mem g y.toNat hy)
        · rw [rset_eq_of_ge _ _ _ hy] at hrow
          exact hd.2 _ hrow
  · exact hd

theorem cellAt_setAt_self {g : List (List Nat)} {pw ph : Nat} (hd : GridDims g pw ph)
    {y x : Int} (hy0 : 0 ≤ y) (hyh : y < (ph : Int)) (hx0 : 0 ≤ x) (hxw : x < (pw : Int))
    (v : Nat) : cellAt (setAt g y x v) y x = v := by
  have hyl : y.toNat < g.length := by rw [hd.1]; omega
  have hxl : x.toNat < (rget g y.toNat).length := by
    rw [hd.2 _ (rget_mem g y.toNat hyl)]; omega
  unfold cellAt setAt
  rw [if_pos ⟨hy0, hx0⟩, if_pos ⟨hy0, hx0⟩]
  rw [rget_rset_self, if_pos hyl, lget_lset_self _ _ _ hxl]

theorem cellAt_setAt_ne {g : List (List Nat)} {y x y2 x2 : Int}
    (hne : ¬(y2 = y ∧ x2 = x)) (v : Nat) :
    cellAt (setAt g y x v) y2 x2 = cellAt g y2 x2 := by
  unfold cellAt setAt
  by_cases hset : 0 ≤ y ∧ 0 ≤ x
  · rw [if_pos hset]
    by_cases hget : 0 ≤ y2 ∧ 0 ≤ x2
    · rw [if_pos hget, if_pos hget]
      by_cases hyy : y2 = y
      · subst hyy
        have hxne : x2 ≠ x := fun h => hne ⟨rfl, h⟩
        have hxx : x.toNat ≠ x2.toNat := by omega
        rw [rget_rset_self]
        split
        · rw [lget_lset_of_ne _ _ _ _ hxx]
        · rfl
      · have : y.toNat ≠ y2.toNat := by omega
        rw [rget_rset_of_ne _ _ _ _ this]
    · rw [if_neg hget, if_neg hget]
  · rw [if_neg hset]

theorem cellAt_replicate (ph pw t : Nat) (y x : Int) (hy0 : 0 ≤ y) (hyh : y < (ph : Int))
    (hx0 : 0 ≤ x) (hxw : x < (pw : Int)) :
    cellAt (List.replicate ph (List.replicate pw t)) y x = t := by
  unfold cellAt
  rw [if_pos ⟨hy0, hx0⟩]
  rw [rget_replicate _ _ _ (by omega), lget_replicate _ _ _ (by omega)]

theorem gridDims_replicate (ph pw t : Nat) :
    GridDims (List.replicate ph (List.replicate pw t)) pw ph := by
  constructor
  · simp
  · intro row hrow
    rw [List.eq_of_mem_replicate hrow]
    simp

namespace Ga85

example : apply_click [[2, 2], [2, 2]] 0 0 2 2 (COLOR_CYCLE.take 2) = [[8, 8], [8, 2]] := by
  decide

example : is_solved [[2, 2], [2, 2]] 2 2 2 = true := by decide

example : verify_solution [[8, 8], [8, 2]] [(0, 0)] 2 2 2 (COLOR_CYCLE.take 2) = true := by
  decide


end Ga85

namespace Ga85

theorem getD_mem_of_lt (l : List Nat) (n d : Nat) (h : n < l.length) : l.getD n d ∈ l := by
  induction l generalizing n with
  | nil => simp at h
  | cons a t ih =>
    cases n with
    | zero => simp [List.getD]
    | succ m => exact List.mem_cons_of_mem _ (ih m (by simpa using h))

theorem colorStep_mem (pool : List Nat) (v : Nat) (hpool : pool ≠ []) :
    colorStep pool v ∈ pool := by
  unfold colorStep
  exact getD_mem_of_lt _ _ _ (Nat.mod_lt _ (List.length_pos.mpr hpool))

theorem cycle_color_eq_colorStep {nc v : Nat} (hv : v ∈ COLOR_CYCLE.take nc) :
    cycle_color nc v = colorStep (COLOR_CYCLE.take nc) v := by
  simp only [cycle_color, colorStep]
  cases h : (COLOR_CYCLE.take nc).findIdx? (fun c => c == v) with
  | some i => rfl
  | none =>
    exfalso
    have h2 := List.findIdx?_eq_none_iff.mp h v hv
    simp at h2

theorem gridDims_click_target {g : List (List Nat)} {pw ph : Nat} (pool : List Nat)
    (t : Int × Int) (hd : GridDims g pw ph) :
    GridDims (click_target pw ph pool g t) pw ph := by
  unfold click_target
  split
  · exact gridDims_setAt hd _ _ _
  · exact hd

theorem allInPool_click_target {g : List (List Nat)} {pw ph : Nat} {pool : List Nat}
    (t : Int × Int) (hd : GridDims g pw ph) (hp : AllInPool g pw ph pool)
    (hpool : pool ≠ []) : AllInPool (click_target pw ph pool g t) pw ph pool := by
  unfold click_target
  split
  case isTrue hb =>
    intro y x hy hyh hx hxw
    by_cases heq : y = t.2 ∧ x = t.1
    · rw [heq.1, heq.2,
        cellAt_setAt_self hd hb.2.2.1 hb.2.2.2 hb.1 hb.2.1]
      exact colorStep_mem pool _ hpool
    · rw [cellAt_setAt_ne heq]
      exact hp y x hy hyh hx hxw
  case isFalse hb => exact hp

theorem activate_target_eq_click_target {g : List (List Nat)} {pw ph nc : Nat}
    (t : Int × Int) (hd : GridDims g pw ph)
    (hp : AllInPool g pw ph (COLOR_CYCLE.take nc)) :
    activate_target pw ph nc g t = click_target pw ph (COLOR_CYCLE.take nc) g t := by
  unfold activate_target click_target
  split
  case isTrue hb =>
    have hv : cellAt g t.2 t.1 ∈ COLOR_CYCLE.take nc :=
      hp t.2 t.1 hb.2.2.1 hb.2.2.2 hb.1 hb.2.1
    rw [cycle_color_eq_colorStep hv]
  case isFalse hb => rfl

theorem foldl_activate_eq_click (pw ph nc : Nat) (ts : List (Int × Int)) :
    ∀ g : List (List Nat), GridDims g pw ph →
      AllInPool g pw ph (COLOR_CYCLE.take nc) → 1 ≤ nc →
      ts.foldl (activate_target pw ph nc) g =
        ts.foldl (click_target pw ph (COLOR_CYCLE.take nc)) g := by
  have hpool : ∀ nc : Nat, 1 ≤ nc → (COLOR_CYCLE.take nc) ≠ [] := by
    intro nc hnc h
    have := congrArg List.length h
    simp [COLOR_CYCLE] at this
    omega
  induction ts with
  | nil => intro g _ _ _; rfl
  | cons t rest ih =>
    intro g hd hp hnc
    simp only [List.foldl_cons, activate_target_eq_click_target t hd hp]
    exact ih _ (gridDims_click_target _ t hd)
      (allInPool_click_target t hd hp (hpool nc hnc)) hnc

/-- C7 (amended): for every grid whose labels all lie in the palette
slice `COLOR_CYCLE[:nc]` and for every in-bounds click position, the
generation-time click `_apply_click` and the in-game click
`_activate_cell` (via `_cycle_color`) produce identical resulting grids
(clicked cell and in-bounds orthogonal neighbours advanced one cyclic
step, out-of-bounds neighbours skipped).  The restriction to in-palette
labels is forced by the counterexample: on a label outside the palette,
`_apply_click` treats it as palette index 0 and then advances (yielding
palette index 1), while `_cycle_color` resets it to palette index 0. -/
theorem ga85_click_engine_refinement (pw ph nc : Nat) (grid : List (List Nat))
    (gx gy : Int) (hnc : 1 ≤ nc) (hd : GridDims grid pw ph)
    (hp : AllInPool grid pw ph (COLOR_CYCLE.take nc))
    (hx0 : 0 ≤ gx) (hxw : gx < (pw : Int)) (hy0 : 0 ≤ gy) (hyh : gy < (ph : Int)) :
    activate_cell pw ph nc gx gy grid =
      apply_click grid gy gx pw ph (COLOR_CYCLE.take nc) := by
  unfold activate_cell apply_click click_targets
  rw [if_neg (by omega)]
  exact foldl_activate_eq_click pw ph nc _ grid hd hp hnc

/-- C7 counterexample: on the 1-by-1 grid holding label 99 (outside the
palette), clicking (0,0) advances to palette index 1 under `_apply_click`
but resets to palette index 0 under `_activate_cell`, so the two click
operations do not produce identical grids for out-of-palette labels. -/
theorem ga85_click_engine_refinement_counterexample :
    ¬ (activate_cell 1 1 2 0 0 [[99]] =
        apply_click [[99]] 0 0 1 1 (COLOR_CYCLE.take 2)) := by
  decide

/-- Concrete instance of the amended C7 theorem at a 1-by-1 in-palette
grid. -/
theorem ga85_click_engine_refinement_witness :
    activate_cell 1 1 2 0 0 [[2]] =
      apply_click [[2]] 0 0 1 1 (COLOR_CYCLE.take 2) := by
  refine ga85_click_engine_refinement 1 1 2 [[2]] 0 0 (by norm_num)
    ⟨rfl, ?_⟩ ?_ (by norm_num) (by norm_num) (by norm_num) (by norm_num)
  · intro row hrow
    simp at hrow
    rw [hrow]
    rfl
  · intro y x hy hyh hx hxw
    have hy2 : y = 0 := by omega
    have hx2 : x = 0 := by omega
    rw [hy2, hx2]
    decide

end Ga85

namespace Ga85

theorem gridDims_foldl_click (pw ph : Nat) (pool : List Nat) (ts : List (Int × Int)) :
    ∀ g, GridDims g pw ph → GridDims (ts.foldl (click_target pw ph pool) g) pw ph := by
  induction ts with
  | nil => intro g hd; exact hd
  | cons t rest ih => intro g hd; exact ih _ (gridDims_click_target _ t hd)

theorem gridDims_apply_click {g : List (List Nat)} {pw ph : Nat} (pool : List Nat)
    (cr cc : Int) (hd : GridDims g pw ph) :
    GridDims (apply_click g cr cc pw ph pool) pw ph :=
  gridDims_foldl_click pw ph pool _ g hd

theorem cellAt_click_target (pw ph : Nat) (pool : List Nat) {g : List (List Nat)}
    (t : Int × Int) {y x : Int} (hd : GridDims g pw ph)
    (hx0 : 0 ≤ x) (hxw : x < (pw : Int)) (hy0 : 0 ≤ y) (hyh : y < (ph : Int)) :
    cellAt (click_target pw ph pool g t) y x =
      if (x, y) = t then colorStep pool (cellAt g y x) else cellAt g y x := by
  obtain ⟨tx, ty⟩ := t
  unfold click_target
  by_cases heq : (x, y) = ((tx : Int), (ty : Int))
  · rw [Prod.mk.injEq] at heq
    obtain ⟨h1, h2⟩ := heq
    subst h1; subst h2
    rw [if_pos ⟨hx0, hxw, hy0, hyh⟩, if_pos rfl]
    exact cellAt_setAt_self hd hy0 hyh hx0 hxw _
  · rw [if_neg heq]
    by_cases hb : 0 ≤ tx ∧ tx < (pw : Int) ∧ 0 ≤ ty ∧ ty < (ph : Int)
    · rw [if_pos hb]
      apply cellAt_setAt_ne
      intro hc
      exact heq (by rw [Prod.mk.injEq]; exact ⟨hc.2, hc.1⟩)
    · rw [if_neg hb]

theorem cellAt_foldl_click (pw ph : Nat) (pool : List Nat) (ts : List (Int × Int)) :
    ∀ g, ts.Nodup → GridDims g pw ph → ∀ {y x : Int},
      0 ≤ x → x < (pw : Int) → 0 ≤ y → y < (ph : Int) →
      cellAt (ts.foldl (click_target pw ph pool) g) y x =
        if (x, y) ∈ ts then colorStep pool (cellAt g y x) else cellAt g y x := by
  induction ts with
  | nil => intro g _ _ y x _ _ _ _; simp
  | cons t rest ih =>
    intro g hnd hd y x hx0 hxw hy0 hyh
    simp only [List.foldl_cons]
    rw [ih _ (List.Nodup.of_cons hnd) (gridDims_click_target _ t hd) hx0 hxw hy0 hyh,
      cellAt_click_target pw ph pool t hd hx0 hxw hy0 hyh]
    by_cases h1 : (x, y) = t
    · have h2 : (x, y) ∉ rest := by
        rw [h1]; exact (List.nodup_cons.mp hnd).1
      rw [if_neg h2, if_pos h1, if_pos (by rw [h1]; exact List.mem_cons_self t rest)]
    · by_cases h2 : (x, y) ∈ rest
      · rw [if_pos h2, if_neg h1, if_pos (List.mem_cons_of_mem t h2)]
      · rw [if_neg h2, if_neg h1, if_neg (by
          intro hc
          rcases List.mem_cons.mp hc with hc | hc
          · exact h1 hc
          · exact h2 hc)]

theorem click_targets_nodup (cr cc : Int) : (click_targets cr cc).Nodup := by
  simp only [click_targets, List.nodup_cons, List.mem_cons, List.mem_singleton,
    List.not_mem_nil, Prod.mk.injEq, List.nodup_nil, and_true, not_or]
  norm_num
  omega

theorem cellAt_apply_click (pw ph : Nat) (pool : List Nat) {g : List (List Nat)}
    (cr cc : Int) {y x : Int} (hd : GridDims g pw ph)
    (hx0 : 0 ≤ x) (hxw : x < (pw : Int)) (hy0 : 0 ≤ y) (hyh : y < (ph : Int)) :
    cellAt (apply_click g cr cc pw ph pool) y x =
      if (x, y) ∈ click_targets cr cc then colorStep pool (cellAt g y x)
      else cellAt g y x := by
  unfold apply_click
  exact cellAt_foldl_click pw ph pool _ g (click_targets_nodup cr cc) hd hx0 hxw hy0 hyh

theorem cellAt_iterate_apply_click (pw ph : Nat) (pool : List Nat) (cr cc : Int) (k : Nat) :
    ∀ g, GridDims g pw ph →
      GridDims ((fun h => apply_click h cr cc pw ph pool)^[k] g) pw ph ∧
      ∀ {y x : Int}, 0 ≤ x → x < (pw : Int) → 0 ≤ y → y < (ph : Int) →
        cellAt ((fun h => apply_click h cr cc pw ph pool)^[k] g) y x =
          if (x, y) ∈ click_targets cr cc then (colorStep pool)^[k] (cellAt g y x)
          else cellAt g y x := by
  induction k with
  | zero => intro g hd; exact ⟨hd, by intro y x _ _ _ _; simp⟩
  | succ m ihk =>
    intro g hd
    have hstep := gridDims_apply_click pool cr cc hd
    obtain ⟨ihd, ihcell⟩ := ihk (apply_click g cr cc pw ph pool) hstep
    constructor
    · rw [Function.iterate_succ_apply]
      exact ihd
    · intro y x hx0 hxw hy0 hyh
      by_cases hm : (x, y) ∈ click_targets cr cc
      · simp only [Function.iterate_succ_apply]
        rw [ihcell hx0 hxw hy0 hyh, if_pos hm,
          cellAt_apply_click pw ph pool cr cc hd hx0 hxw hy0 hyh, if_pos hm,
          if_pos hm]
      · simp only [Function.iterate_succ_apply]
        rw [ihcell hx0 hxw hy0 hyh, if_neg hm,
          cellAt_apply_click pw ph pool cr cc hd hx0 hxw hy0 hyh, if_neg hm,
          if_neg hm]

theorem findIdx_of_nodup (pool : List Nat) (hnd : pool.Nodup) :
    ∀ i : Nat, ∀ hi : i < pool.length,
      pool.findIdx? (fun c => c == pool[i]) = some i := by
  induction pool with
  | nil => intro i hi; simp at hi
  | cons a t ihp =>
    intro i hi
    rw [List.findIdx?_cons]
    cases i with
    | zero => simp
    | succ j =>
      have hj : j < t.length := by simpa using hi
      have hmem : t[j] ∈ t := List.getElem_mem hj
      have hne : ¬ (a == (a :: t)[j + 1]) = true := by
        simp only [List.getElem_cons_succ, beq_iff_eq]
        intro hc
        exact (List.nodup_cons.mp hnd).1 (hc ▸ hmem)
      rw [if_neg hne]
      simp only [List.getElem_cons_succ]
      rw [List.findIdx?_succ, ihp (List.Nodup.of_cons hnd) j hj]
      rfl

theorem colorStep_getD (pool : List Nat) (hnd : pool.Nodup) (i : Nat)
    (hi : i < pool.length) :
    colorStep pool (pool.getD i 0) = pool.getD ((i + 1) % pool.length) 0 := by
  unfold colorStep
  have hgd : pool.getD i 0 = pool[i] := by
    rw [List.getD_eq_getElem?_getD, List.getElem?_eq_getElem hi]
    rfl
  rw [hgd, findIdx_of_nodup pool hnd i hi]

theorem iterate_colorStep (pool : List Nat) (hnd : pool.Nodup) :
    ∀ (k i : Nat), i < pool.length →
      (colorStep pool)^[k] (pool.getD i 0) = pool.getD ((i + k) % pool.length) 0 := by
  intro k
  induction k with
  | zero =>
    intro i hi
    simp only [Function.iterate_zero, id]
    rw [Nat.add_zero, Nat.mod_eq_of_lt hi]
  | succ m ihk =>
    intro i hi
    rw [Function.iterate_succ_apply, colorStep_getD pool hnd i hi,
      ihk _ (Nat.mod_lt _ (by omega))]
    have h2 : ((i + 1) % pool.length + m) % pool.length = (i + (m + 1)) % pool.length := by
      rw [Nat.mod_add_mod]
      congr 1
      omega
    rw [h2]

theorem iterate_colorStep_self (pool : List Nat) (hnd : pool.Nodup) (v : Nat)
    (hv : v ∈ pool) : (colorStep pool)^[pool.length] v = v := by
  obtain ⟨i, hi, hgv⟩ := List.getElem_of_mem hv
  have hgd : pool.getD i 0 = v := by
    rw [List.getD_eq_getElem?_getD, List.getElem?_eq_getElem hi]
    rw [← hgv]
    rfl
  rw [← hgd, iterate_colorStep pool hnd _ _ hi, Nat.add_mod_right, Nat.mod_eq_of_lt hi]

theorem is_solved_iff (grid : List (List Nat)) (target : Nat) (pw ph : Nat) :
    is_solved grid target pw ph = true ↔
      ∀ r c : Nat, r < ph → c < pw → cellAt grid (r : Int) (c : Int) = target := by
  unfold is_solved
  simp only [List.all_eq_true, List.mem_range, beq_iff_eq]
  constructor
  · intro h r c hr hc; exact h r hr c hc
  · intro h r hr c hc; exact h r c hr hc

theorem replay_replicate (g : List (List Nat)) (k : Nat) (cr cc : Int)
    (pw ph : Nat) (pool : List Nat) :
    replay g (List.replicate k (cr, cc)) pw ph pool =
      (fun h => apply_click h cr cc pw ph pool)^[k] g := by
  induction k generalizing g with
  | zero => rfl
  | succ m ihk =>
    rw [List.replicate_succ]
    show replay (apply_click g cr cc pw ph pool) (List.replicate m (cr, cc)) pw ph pool = _
    rw [ihk, Function.iterate_succ_apply]

theorem take_color_cycle_length (nc : Nat) (hnc : nc ≤ 6) :
    (COLOR_CYCLE.take nc).length = nc := by
  simp [COLOR_CYCLE]
  omega

theorem take_color_cycle_nodup (nc : Nat) : (COLOR_CYCLE.take nc).Nodup :=
  List.Nodup.sublist (List.take_sublist nc COLOR_CYCLE) (by decide)

/-- Correctness of the fallback instance of `_generate_solvable_grid`:
the single center click is undone by clicking the center `nc - 1` more
times, returning every cell to the target color. -/
theorem fallback_verifies (pw ph nc target : Nat)
    (htp : target ∈ COLOR_CYCLE.take nc) (hnc6 : nc ≤ 6) :
    verify_solution
      (apply_click (List.replicate ph (List.replicate pw target))
        ((ph : Int) / 2) ((pw : Int) / 2) pw ph (COLOR_CYCLE.take nc))
      (List.replicate (nc - 1) (((ph : Int) / 2), ((pw : Int) / 2)))
      target pw ph (COLOR_CYCLE.take nc) = true := by
  have hnc1 : 1 ≤ nc := by
    by_contra hc
    interval_cases nc
    simp [COLOR_CYCLE] at htp
  have hlen := take_color_cycle_length nc hnc6
  have hnd := take_color_cycle_nodup nc
  have hd0 := gridDims_replicate ph pw target
  unfold verify_solution
  rw [replay_replicate, is_solved_iff]
  intro r c hr hc
  have hcomp : (fun h => apply_click h ((ph : Int) / 2) ((pw : Int) / 2) pw ph
      (COLOR_CYCLE.take nc))^[nc - 1]
        (apply_click (List.replicate ph (List.replicate pw target))
          ((ph : Int) / 2) ((pw : Int) / 2) pw ph (COLOR_CYCLE.take nc)) =
      (fun h => apply_click h ((ph : Int) / 2) ((pw : Int) / 2) pw ph
      (COLOR_CYCLE.take nc))^[nc]
        (List.replicate ph (List.replicate pw target)) := by
    rw [← Function.iterate_succ_apply]
    congr 1
    omega
  rw [hcomp]
  obtain ⟨-, hcell⟩ := cellAt_iterate_apply_click pw ph (COLOR_CYCLE.take nc)
    ((ph : Int) / 2) ((pw : Int) / 2) nc _ hd0
  rw [hcell (by omega) (by omega) (by omega) (by omega)]
  have hbase : cellAt (List.replicate ph (List.replicate pw target))
      (r : Int) (c : Int) = target :=
    cellAt_replicate ph pw target _ _ (by omega) (by omega) (by omega) (by omega)
  rw [hbase]
  split
  · have h3 := iterate_colorStep_self _ hnd target htp
    rwa [hlen] at h3
  · rfl

end Ga85

theorem mem_allListsUpTo {a : Type} (n : Nat) (xs : List a) (l : List a) :
    l ∈ allListsUpTo n xs ↔ l.length ≤ n ∧ ∀ v ∈ l, v ∈ xs := by
  induction n generalizing l with
  | zero =>
    cases l with
    | nil => simp [allListsUpTo]
    | cons v t => simp [allListsUpTo]
  | succ m ih =>
    cases l with
    | nil => simp [allListsUpTo]
    | cons v t =>
      simp only [allListsUpTo, List.mem_cons, List.mem_flatMap, List.mem_map]
      constructor
      · intro h
        rcases h with h | ⟨w, hw, l2, hl2, heq⟩
        · simp at h
        · injection heq with h1 h2
          subst h1
          subst h2
          obtain ⟨hlen, hmem⟩ := (ih l2).mp hl2
          refine ⟨by simp; omega, ?_⟩
          intro u hu
          rcases hu with hu | hu
          · rw [hu]; exact hw
          · exact hmem u hu
      · intro h
        right
        refine ⟨v, h.2 v (Or.inl rfl), t, (ih t).mpr ⟨?_, ?_⟩, rfl⟩
        · have := h.1; simp at this; omega
        · intro u hu; exact h.2 u (Or.inr hu)

namespace Ga85

theorem replay_snoc (g : List (List Nat)) (sol : List (Int × Int)) (rc : Int × Int)
    (pw ph : Nat) (pool : List Nat) :
    replay g (sol ++ [rc]) pw ph pool =
      apply_click (replay g sol pw ph pool) rc.1 rc.2 pw ph pool := by
  unfold replay
  rw [List.foldl_append]
  rfl

theorem expand_cells_sound (pw ph : Nat) (pool : List Nat) (target : Nat)
    (start : List (List Nat)) (max_depth : Nat) (g : List (List Nat))
    (moves : List (Int × Int))
    (hg : replay start moves pw ph pool = g) (hlen : moves.length < max_depth) :
    ∀ (ps : List (Int × Int)) (visited : List (List (List Nat)))
      (acc : List (List (List Nat) × List (Int × Int))),
      (∀ item ∈ acc, replay start item.2 pw ph pool = item.1 ∧
        item.2.length ≤ max_depth) →
      (match expand_cells pw ph pool target g moves ps visited acc with
       | Sum.inl sol =>
         is_solved (replay start sol pw ph pool) target pw ph = true ∧
           sol.length ≤ max_depth
       | Sum.inr res => ∀ item ∈ res.2, replay start item.2 pw ph pool = item.1 ∧
           item.2.length ≤ max_depth) := by
  intro ps
  induction ps with
  | nil =>
    intro visited acc hacc
    exact hacc
  | cons rc ps2 ih =>
    intro visited acc hacc
    rw [expand_cells]
    by_cases hs : is_solved (apply_click g rc.1 rc.2 pw ph pool) target pw ph = true
    · rw [if_pos hs]
      constructor
      · rw [replay_snoc, hg]
        exact hs
      · simp
        omega
    · rw [if_neg hs]
      by_cases hv : apply_click g rc.1 rc.2 pw ph pool ∈ visited
      · rw [if_pos hv]
        exact ih visited acc hacc
      · rw [if_neg hv]
        apply ih
        intro item hitem
        rcases List.mem_append.mp hitem with h | h
        · exact hacc item h
        · simp at h
          rw [h]
          constructor
          · rw [replay_snoc, hg]
          · simp
            omega

theorem solve_bfs_loop_sound (pw ph : Nat) (pool : List Nat) (target : Nat)
    (max_depth : Nat) (start : List (List Nat)) :
    ∀ (fuel : Nat) (visited : List (List (List Nat)))
      (queue : List (List (List Nat) × List (Int × Int))),
      (∀ item ∈ queue, replay start item.2 pw ph pool = item.1 ∧
        item.2.length ≤ max_depth) →
      ∀ sol, solve_bfs_loop pw ph pool target max_depth fuel visited queue =
          some (some sol) →
        is_solved (replay start sol pw ph pool) target pw ph = true ∧
          sol.length ≤ max_depth := by
  intro fuel
  induction fuel with
  | zero =>
    intro visited queue hq sol h
    simp [solve_bfs_loop] at h
  | succ f ih =>
    intro visited queue hq sol h
    cases queue with
    | nil => simp [solve_bfs_loop] at h
    | cons item rest =>
      obtain ⟨g, moves⟩ := item
      rw [solve_bfs_loop] at h
      split at h
      · exact ih visited rest (fun it hit => hq it (List.mem_cons_of_mem _ hit)) sol h
      · have hitem := hq (g, moves) (List.mem_cons_self _ _)
        have hspec := expand_cells_sound pw ph pool target start max_depth g moves
          hitem.1 (by omega) (grid_positions pw ph) visited [] (by intro it hit; simp at hit)
        split at h
        case h_1 sol2 heq =>
          rw [heq] at hspec
          cases h
          exact hspec
        case h_2 v2 items heq =>
          rw [heq] at hspec
          apply ih v2 (rest ++ items) ?_ sol h
          intro it hit
          rcases List.mem_append.mp hit with h2 | h2
          · exact hq it (List.mem_cons_of_mem _ h2)
          · exact hspec it h2

theorem solve_bfs_sound (grid : List (List Nat)) (target pw ph : Nat)
    (pool : List Nat) (max_depth fuel : Nat) (sol : List (Int × Int))
    (h : solve_bfs grid target pw ph pool max_depth fuel = some (some sol)) :
    verify_solution grid sol target pw ph pool = true ∧ sol.length ≤ max_depth := by
  unfold solve_bfs at h
  split at h
  case isTrue hs =>
    have hsol : sol = [] := by
      cases h
      rfl
    rw [hsol]
    exact ⟨hs, by simp⟩
  case isFalse hs =>
    have := solve_bfs_loop_sound pw ph pool target max_depth grid fuel
      [grid] [(grid, [])] ?_ sol h
    · exact ⟨this.1, this.2⟩
    · intro item hitem
      simp at hitem
      rw [hitem]
      exact ⟨rfl, by simp⟩

end Ga85

namespace Ga85

/-- The finite enumeration bounding the solver search space: every grid
the solver ever visits is the replay of a click list of length at most
`max_depth` over the position grid. -/
def search_image (start : List (List Nat)) (pw ph : Nat) (pool : List Nat)
    (max_depth : Nat) : List (List (List Nat)) :=
  (allListsUpTo max_depth (grid_positions pw ph)).map fun ms => replay start ms pw ph pool

theorem length_le_of_nodup_subset {a : Type} [DecidableEq a] (l m : List a)
    (hnd : l.Nodup) (hsub : ∀ x ∈ l, x ∈ m) : l.length ≤ m.length :=
  List.Subperm.length_le (List.Nodup.subperm hnd hsub)

theorem expand_cells_spec (pw ph : Nat) (pool : List Nat) (target : Nat)
    (start : List (List Nat)) (max_depth : Nat) (g : List (List Nat))
    (moves : List (Int × Int))
    (hg : replay start moves pw ph pool = g) (hlen : moves.length < max_depth)
    (hmoves : ∀ rc ∈ moves, rc ∈ grid_positions pw ph) :
    ∀ (ps : List (Int × Int)), (∀ rc ∈ ps, rc ∈ grid_positions pw ph) →
      ∀ (visited : List (List (List Nat)))
        (acc : List (List (List Nat) × List (Int × Int))),
      visited.Nodup →
      (∀ gk ∈ visited, gk ∈ search_image start pw ph pool max_depth) →
      (match expand_cells pw ph pool target g moves ps visited acc with
       | Sum.inl _ => True
       | Sum.inr res =>
         res.1.Nodup ∧
         (∀ gk ∈ res.1, gk ∈ search_image start pw ph pool max_depth) ∧
         res.1.length + acc.length = visited.length + res.2.length ∧
         (∀ item ∈ res.2, item ∈ acc ∨
           (replay start item.2 pw ph pool = item.1 ∧ item.2.length ≤ max_depth ∧
             ∀ rc ∈ item.2, rc ∈ grid_positions pw ph))) := by
  intro ps
  induction ps with
  | nil =>
    intro hps visited acc hnd himg
    rw [expand_cells]
    refine ⟨hnd, himg, rfl, ?_⟩
    intro item hitem
    exact Or.inl hitem
  | cons rc ps2 ih =>
    intro hps visited acc hnd himg
    rw [expand_cells]
    by_cases hs : is_solved (apply_click g rc.1 rc.2 pw ph pool) target pw ph = true
    · rw [if_pos hs]
      trivial
    · rw [if_neg hs]
      by_cases hv : apply_click g rc.1 rc.2 pw ph pool ∈ visited
      · rw [if_pos hv]
        exact ih (fun u hu => hps u (List.mem_cons_of_mem _ hu)) visited acc hnd himg
      · rw [if_neg hv]
        have hg2 : apply_click g rc.1 rc.2 pw ph pool ∈
            search_image start pw ph pool max_depth := by
          unfold search_image
          rw [List.mem_map]
          refine ⟨moves ++ [rc], ?_, ?_⟩
          · rw [mem_allListsUpTo]
            constructor
            · simp; omega
            · intro u hu
              rcases List.mem_append.mp hu with hu | hu
              · exact hmoves u hu
              · simp at hu
                rw [hu]
                exact hps rc (List.mem_cons_self _ _)
          · rw [replay_snoc, hg]
        have hnd2 : (visited ++ [apply_click g rc.1 rc.2 pw ph pool]).Nodup := by
          rw [List.nodup_append]
          exact ⟨hnd, List.nodup_singleton _, by
            intro u hu
            simp
            intro hc
            rw [hc] at hu
            exact hv hu⟩
        have himg2 : ∀ gk ∈ visited ++ [apply_click g rc.1 rc.2 pw ph pool],
            gk ∈ search_image start pw ph pool max_depth := by
          intro gk hgk
          rcases List.mem_append.mp hgk with h | h
          · exact himg gk h
          · simp at h
            rw [h]
            exact hg2
        have hrec := ih (fun u hu => hps u (List.mem_cons_of_mem _ hu))
          (visited ++ [apply_click g rc.1 rc.2 pw ph pool])
          (acc ++ [(apply_click g rc.1 rc.2 pw ph pool, moves ++ [rc])]) hnd2 himg2
        split at hrec
        · trivial
        · rename_i res heq
          obtain ⟨h1, h2, h3, h4⟩ := hrec
          refine ⟨h1, h2, by simp at h3 ⊢; omega, ?_⟩
          intro item hitem
          rcases h4 item hitem with h5 | h5
          · rcases List.mem_append.mp h5 with h6 | h6
            · exact Or.inl h6
            · simp at h6
              rw [h6]
              refine Or.inr ⟨?_, ?_, ?_⟩
              · rw [replay_snoc, hg]
              · simp; omega
              · intro u hu
                rcases List.mem_append.mp hu with hu | hu
                · exact hmoves u hu
                · simp at hu
                  rw [hu]
                  exact hps rc (List.mem_cons_self _ _)
          · exact Or.inr h5

theorem solve_bfs_loop_terminates (pw ph : Nat) (pool : List Nat) (target : Nat)
    (max_depth : Nat) (start : List (List Nat)) :
    ∀ (fuel : Nat) (visited : List (List (List Nat)))
      (queue : List (List (List Nat) × List (Int × Int))),
      visited.Nodup →
      (∀ gk ∈ visited, gk ∈ search_image start pw ph pool max_depth) →
      (∀ item ∈ queue, replay start item.2 pw ph pool = item.1 ∧
        item.2.length ≤ max_depth ∧ ∀ rc ∈ item.2, rc ∈ grid_positions pw ph) →
      queue.length +
        ((search_image start pw ph pool max_depth).length - visited.length) < fuel →
      (solve_bfs_loop pw ph pool target max_depth fuel visited queue).isSome := by
  intro fuel
  induction fuel with
  | zero =>
    intro visited queue hnd himg hq hfuel
    omega
  | succ f ih =>
    intro visited queue hnd himg hq hfuel
    cases queue with
    | nil => simp [solve_bfs_loop]
    | cons item rest =>
      obtain ⟨g, moves⟩ := item
      rw [solve_bfs_loop]
      split
      · apply ih visited rest hnd himg
        · intro it hit
          exact hq it (List.mem_cons_of_mem _ hit)
        · simp at hfuel ⊢
          omega
      · have hitem := hq (g, moves) (List.mem_cons_self _ _)
        have hspec := expand_cells_spec pw ph pool target start max_depth g moves
          hitem.1 (by omega) hitem.2.2 (grid_positions pw ph) (fun u hu => hu)
          visited [] hnd himg
        split
        case h_1 sol2 heq => simp
        case h_2 v2 items heq =>
          rw [heq] at hspec
          obtain ⟨h1, h2, h3, h4⟩ := hspec
          have hle : v2.length ≤ (search_image start pw ph pool max_depth).length :=
            length_le_of_nodup_subset _ _ h1 h2
          apply ih v2 (rest ++ items) h1 h2
          · intro it hit
            rcases List.mem_append.mp hit with h5 | h5
            · exact hq it (List.mem_cons_of_mem _ h5)
            · rcases h4 it h5 with h6 | h6
              · simp at h6
              · exact h6
          · have hvle : visited.length ≤ (search_image start pw ph pool max_depth).length :=
              length_le_of_nodup_subset _ _ hnd himg
            simp at hfuel h3 ⊢
            omega

theorem solve_bfs_terminates (grid : List (List Nat)) (target pw ph : Nat)
    (pool : List Nat) (max_depth : Nat) :
    (solve_bfs grid target pw ph pool max_depth
      ((search_image grid pw ph pool max_depth).length + 2)).isSome := by
  by_cases hs : is_solved grid target pw ph = true
  · simp [solve_bfs, hs]
  · unfold solve_bfs
    rw [if_neg hs]
    apply solve_bfs_loop_terminates
    · exact List.nodup_singleton _
    · intro gk hgk
      simp at hgk
      rw [hgk]
      unfold search_image
      rw [List.mem_map]
      refine ⟨[], ?_, rfl⟩
      rw [mem_allListsUpTo]
      simp
    · intro item hitem
      simp at hitem
      rw [hitem]
      refine ⟨rfl, by simp, by simp⟩
    · have hpos : 1 ≤ (search_image grid pw ph pool max_depth).length := by
        apply List.length_pos.mpr
        unfold search_image
        simp
        cases max_depth <;> simp [allListsUpTo]
      simp
      omega

end Ga85


namespace Ga85

/-- Case analysis of one accepted generation attempt: the returned grid
is the scrambled grid, the reverse-scramble solution verified, and the
returned solution is either that reverse-scramble solution or a
strictly shorter one found by `_solve_bfs`. -/
theorem attempt_gen_cases (pw ph nc : Nat) (target : Nat) (bfsFuel : Nat)
    (clicks : List (Int × Int)) (grid2 : List (List Nat)) (sol2 : List (Int × Int))
    (h : attempt_gen pw ph nc target bfsFuel clicks = some (grid2, sol2)) :
    grid2 = (scramble_apply pw ph (List.take nc COLOR_CYCLE)
        (List.replicate ph (List.replicate pw target)) (-1, -1) clicks).1 ∧
    verify_solution grid2
      (build_solution (scramble_apply pw ph (List.take nc COLOR_CYCLE)
        (List.replicate ph (List.replicate pw target)) (-1, -1) clicks).2 nc)
      target pw ph (List.take nc COLOR_CYCLE) = true ∧
    (sol2 = build_solution (scramble_apply pw ph (List.take nc COLOR_CYCLE)
        (List.replicate ph (List.replicate pw target)) (-1, -1) clicks).2 nc ∨
      (solve_bfs grid2 target pw ph (List.take nc COLOR_CYCLE) 8 bfsFuel =
          some (some sol2) ∧
        sol2.length < (build_solution (scramble_apply pw ph (List.take nc COLOR_CYCLE)
          (List.replicate ph (List.replicate pw target)) (-1, -1) clicks).2 nc).length)) := by
  simp only [attempt_gen] at h
  generalize hS : scramble_apply pw ph (List.take nc COLOR_CYCLE)
    (List.replicate ph (List.replicate pw target)) (-1, -1) clicks = S at h ⊢
  by_cases h1 : is_solved S.1 target pw ph = true
  · rw [if_pos h1] at h
    cases h
  · rw [if_neg h1] at h
    by_cases h2 : verify_solution S.1 (build_solution S.2 nc) target pw ph
        (List.take nc COLOR_CYCLE) = false
    · rw [if_pos h2] at h
      cases h
    · rw [if_neg h2] at h
      rw [Bool.not_eq_false] at h2
      by_cases h3 : pw ≤ 4 ∧ ph ≤ 4 ∧ nc ≤ 2
      · rw [if_pos h3] at h
        cases heqb : solve_bfs S.1 target pw ph (List.take nc COLOR_CYCLE) 8 bfsFuel with
        | none =>
          rw [heqb] at h
          simp only [Option.some.injEq, Prod.mk.injEq] at h
          exact ⟨h.1.symm, by rw [← h.1]; exact h2, Or.inl h.2.symm⟩
        | some o =>
          cases o with
          | none =>
            rw [heqb] at h
            simp only [Option.some.injEq, Prod.mk.injEq] at h
            exact ⟨h.1.symm, by rw [← h.1]; exact h2, Or.inl h.2.symm⟩
          | some bfs_sol =>
            rw [heqb] at h
            simp only [Option.some.injEq, Prod.mk.injEq] at h
            by_cases h4 : bfs_sol.length < (build_solution S.2 nc).length
            · rw [if_pos h4] at h
              refine ⟨h.1.symm, by rw [← h.1]; exact h2, Or.inr ⟨?_, ?_⟩⟩
              · rw [← h.1, ← h.2]
                exact heqb
              · rw [← h.2]
                exact h4
            · rw [if_neg h4] at h
              exact ⟨h.1.symm, by rw [← h.1]; exact h2, Or.inl h.2.symm⟩
      · rw [if_neg h3] at h
        simp only [Option.some.injEq, Prod.mk.injEq] at h
        exact ⟨h.1.symm, by rw [← h.1]; exact h2, Or.inl h.2.symm⟩

theorem attempt_gen_verifies (pw ph nc : Nat) (target : Nat) (bfsFuel : Nat)
    (clicks : List (Int × Int)) (grid2 : List (List Nat)) (sol2 : List (Int × Int))
    (h : attempt_gen pw ph nc target bfsFuel clicks = some (grid2, sol2)) :
    verify_solution grid2 sol2 target pw ph (COLOR_CYCLE.take nc) = true := by
  obtain ⟨hg, hver, hsol⟩ := attempt_gen_cases pw ph nc target bfsFuel clicks grid2 sol2 h
  rcases hsol with hsol | hsol
  · rw [hsol]
    exact hver
  · exact (solve_bfs_sound _ _ _ _ _ _ _ _ hsol.1).1

/-- C1: for every RNG outcome (the per-attempt scramble click draws),
grid size, supported palette slice and target color in it,
`_generate_solvable_grid` returns a pair `(grid, solution)` such that
replaying the solution clicks in order on the returned grid via
`_apply_click` reaches the uniform target grid — including the case in
which every generation attempt fails and the single-center-click
fallback instance is returned. -/
theorem ga85_generate_roundtrip (pw ph nc : Nat) (target : Nat) (bfsFuel : Nat)
    (attempts : List (List (Int × Int)))
    (htp : target ∈ COLOR_CYCLE.take nc) (hnc6 : nc ≤ 6) :
    verify_solution (generate_solvable_grid pw ph nc target bfsFuel attempts).1
      (generate_solvable_grid pw ph nc target bfsFuel attempts).2
      target pw ph (COLOR_CYCLE.take nc) = true := by
  unfold generate_solvable_grid
  cases hfs : attempts.findSome? (attempt_gen pw ph nc target bfsFuel) with
  | none => exact fallback_verifies pw ph nc target htp hnc6
  | some res =>
    obtain ⟨clicks, hmem, hgen⟩ := List.exists_of_findSome?_eq_some hfs
    exact attempt_gen_verifies pw ph nc target bfsFuel clicks res.1 res.2
      (by rw [hgen])

/-- Concrete instance of the C1 theorem: the 3-by-3, 2-color level with
every attempt failing, exercising the fallback path; the returned
solution is the single center click and it verifies. -/
theorem ga85_generate_roundtrip_witness :
    verify_solution (generate_solvable_grid 3 3 2 2 0 []).1
      (generate_solvable_grid 3 3 2 2 0 []).2 2 3 3 (COLOR_CYCLE.take 2) = true :=
  ga85_generate_roundtrip 3 3 2 2 0 [] (by decide) (by decide)

/-- C9: the bounded-depth solver `_solve_bfs` terminates on every input
grid (exhibited by an explicit sufficient fuel, at which the embedded
loop provably finishes rather than running out); whenever it returns a
click list, that list has length at most `max_depth` and replaying it
via `_apply_click` reaches the all-target grid; and inside
`_generate_solvable_grid` its result replaces the reverse-scramble
solution only when it is strictly shorter. -/
theorem ga85_solver_bounded (grid : List (List Nat)) (target pw ph : Nat)
    (pool : List Nat) (max_depth : Nat) :
    ((solve_bfs grid target pw ph pool max_depth
        ((search_image grid pw ph pool max_depth).length + 2)).isSome) ∧
    (∀ fuel sol, solve_bfs grid target pw ph pool max_depth fuel = some (some sol) →
      sol.length ≤ max_depth ∧ verify_solution grid sol target pw ph pool = true) ∧
    (∀ nc bfsFuel clicks grid2 sol2,
      attempt_gen pw ph nc target bfsFuel clicks = some (grid2, sol2) →
      sol2 = build_solution
          (scramble_apply pw ph (List.take nc COLOR_CYCLE)
            (List.replicate ph (List.replicate pw target)) (-1, -1) clicks).2 nc ∨
      (solve_bfs grid2 target pw ph (List.take nc COLOR_CYCLE) 8 bfsFuel =
          some (some sol2) ∧
        sol2.length < (build_solution
          (scramble_apply pw ph (List.take nc COLOR_CYCLE)
            (List.replicate ph (List.replicate pw target)) (-1, -1) clicks).2 nc).length)) := by
  refine ⟨solve_bfs_terminates grid target pw ph pool max_depth, ?_, ?_⟩
  · intro fuel sol h
    have := solve_bfs_sound grid target pw ph pool max_depth fuel sol h
    exact ⟨this.2, this.1⟩
  · intro nc bfsFuel clicks grid2 sol2 h
    exact (attempt_gen_cases pw ph nc target bfsFuel clicks grid2 sol2 h).2.2

/-- Concrete instance of the C9 theorem: on the already-solved 1-by-1
grid the solver returns the empty click list, which is within the depth
bound and verifies. -/
theorem ga85_solver_bounded_witness :
    ([] : List (Int × Int)).length ≤ 8 ∧
      verify_solution [[2]] [] 2 1 1 (COLOR_CYCLE.take 2) = true :=
  (ga85_solver_bounded [[2]] 2 1 1 (COLOR_CYCLE.take 2) 8).2.1 1 [] (by decide)

end Ga85

namespace Pm07

theorem mem_directions_ne_zero {d : Int × Int} (hd : d ∈ directions) : d ≠ (0, 0) := by
  intro hc
  rw [hc] at hd
  exact absurd hd (by decide)

/-- C2: in the mirror puzzle, for every wall configuration and every
directional action `(dx, dy)`, the main agent moves to
`(x + dx, y + dy)` exactly when that cell is in bounds and not a wall
and otherwise stays, the mirror agent independently moves to
`(x - dx, y - dy)` under the same rule (one agent being pinned never
prevents the other from moving), and the joint-state successor of
`_bfs_mirror_solvable` is computed by this same rule. -/
theorem pm07_mirror_pin_rule (w h : Int) (s : State) (d : Int × Int)
    (hd : d ∈ directions) :
    (((step_level_6 w h d s).1.cursor_x, (step_level_6 w h d s).1.cursor_y) =
       (if in_bounds (s.cursor_x + d.1) (s.cursor_y + d.2) w h ∧
           (s.cursor_x + d.1, s.cursor_y + d.2) ∉ s.extra.wall_positions
         then (s.cursor_x + d.1, s.cursor_y + d.2)
         else (s.cursor_x, s.cursor_y)) ∧
     ((step_level_6 w h d s).1.extra.mirror_x,
       (step_level_6 w h d s).1.extra.mirror_y) =
       (if in_bounds (s.extra.mirror_x - d.1) (s.extra.mirror_y - d.2) w h ∧
           (s.extra.mirror_x - d.1, s.extra.mirror_y - d.2) ∉ s.extra.wall_positions
         then (s.extra.mirror_x - d.1, s.extra.mirror_y - d.2)
         else (s.extra.mirror_x, s.extra.mirror_y))) ∧
    (∀ (walls : List (Int × Int)) (st : Int × Int × Int × Int),
      bfs_mirror_succ w h walls st d =
        ((if in_bounds (st.1 + d.1) (st.2.1 + d.2) w h ∧
            (st.1 + d.1, st.2.1 + d.2) ∉ walls
          then st.1 + d.1 else st.1),
         (if in_bounds (st.1 + d.1) (st.2.1 + d.2) w h ∧
            (st.1 + d.1, st.2.1 + d.2) ∉ walls
          then st.2.1 + d.2 else st.2.1),
         (if in_bounds (st.2.2.1 - d.1) (st.2.2.2 - d.2) w h ∧
            (st.2.2.1 - d.1, st.2.2.2 - d.2) ∉ walls
          then st.2.2.1 - d.1 else st.2.2.1),
         (if in_bounds (st.2.2.1 - d.1) (st.2.2.2 - d.2) w h ∧
            (st.2.2.1 - d.1, st.2.2.2 - d.2) ∉ walls
          then st.2.2.2 - d.2 else st.2.2.2))) := by
  have hne := mem_directions_ne_zero hd
  constructor
  · simp only [step_level_6, save_state, if_neg hne]
    by_cases h1 : in_bounds (s.cursor_x + d.1) (s.cursor_y + d.2) w h ∧
        (s.cursor_x + d.1, s.cursor_y + d.2) ∉ s.extra.wall_positions
    · rw [if_pos h1, if_pos h1]
      by_cases h2 : in_bounds (s.extra.mirror_x - d.1) (s.extra.mirror_y - d.2) w h ∧
          (s.extra.mirror_x - d.1, s.extra.mirror_y - d.2) ∉ s.extra.wall_positions
      · rw [if_pos h2, if_pos h2]
        exact ⟨rfl, rfl⟩
      · rw [if_neg h2, if_neg h2]
        exact ⟨rfl, rfl⟩
    · rw [if_neg h1, if_neg h1]
      by_cases h2 : in_bounds (s.extra.mirror_x - d.1) (s.extra.mirror_y - d.2) w h ∧
          (s.extra.mirror_x - d.1, s.extra.mirror_y - d.2) ∉ s.extra.wall_positions
      · rw [if_pos h2, if_pos h2]
        exact ⟨rfl, rfl⟩
      · rw [if_neg h2, if_neg h2]
        exact ⟨rfl, rfl⟩
  · intro walls st
    simp only [bfs_mirror_succ, in_bounds]
    by_cases h1 : (0 ≤ st.1 + d.1 ∧ st.1 + d.1 < w ∧ 0 ≤ st.2.1 + d.2 ∧
        st.2.1 + d.2 < h) ∧ (st.1 + d.1, st.2.1 + d.2) ∉ walls
    · rw [if_neg (by tauto), if_pos h1, if_pos h1]
      by_cases h2 : (0 ≤ st.2.2.1 - d.1 ∧ st.2.2.1 - d.1 < w ∧
          0 ≤ st.2.2.2 - d.2 ∧ st.2.2.2 - d.2 < h) ∧
          (st.2.2.1 - d.1, st.2.2.2 - d.2) ∉ walls
      · rw [if_neg (by tauto), if_pos h2, if_pos h2]
      · rw [if_pos (by tauto), if_neg h2, if_neg h2]
    · rw [if_pos (by tauto), if_neg h1, if_neg h1]
      by_cases h2 : (0 ≤ st.2.2.1 - d.1 ∧ st.2.2.1 - d.1 < w ∧
          0 ≤ st.2.2.2 - d.2 ∧ st.2.2.2 - d.2 < h) ∧
          (st.2.2.1 - d.1, st.2.2.2 - d.2) ∉ walls
      · rw [if_neg (by tauto), if_pos h2, if_pos h2]
      · rw [if_pos (by tauto), if_neg h2, if_neg h2]

/-- Concrete instance of the C2 theorem on a 2-by-1 grid: moving right
pins the mirror agent at the left edge while the main agent moves. -/
theorem pm07_mirror_pin_rule_witness :
    (((step_level_6 2 1 (1, 0)
        { grid := [[C_BLACK, C_BLACK]], cursor_x := 0, cursor_y := 0, phase := 0,
          prev_color := 0, last_dx := 0, last_dy := 0, extra := {}, history := [] }).1.cursor_x,
      (step_level_6 2 1 (1, 0)
        { grid := [[C_BLACK, C_BLACK]], cursor_x := 0, cursor_y := 0, phase := 0,
          prev_color := 0, last_dx := 0, last_dy := 0, extra := {}, history := [] }).1.cursor_y) =
        (1, 0)) ∧
    bfs_mirror_succ 2 1 [] (0, 0, 0, 0) (1, 0) = (1, 0, 0, 0) := by
  have h := pm07_mirror_pin_rule 2 1
    { grid := [[C_BLACK, C_BLACK]], cursor_x := 0, cursor_y := 0, phase := 0,
      prev_color := 0, last_dx := 0, last_dy := 0, extra := {}, history := [] }
    (1, 0) (by decide)
  constructor
  · rw [h.1.1]
    decide
  · rw [h.2 [] (0, 0, 0, 0)]
    decide

end Pm07

namespace Pm07

/-- The snapshot `_save_state` records for a given state. -/
theorem undo_restores (s s2 : State)
    (h : s2.history =
      (⟨s.grid, s.cursor_x, s.cursor_y, s.phase, s.last_dx, s.last_dy,
        s.prev_color, s.extra⟩ : Snapshot) :: s.history) :
    undo s2 = s := by
  unfold undo
  rw [h]

theorem step_level_1_history (w h : Int) (d : Int × Int) (s : State)
    (hd : d ≠ (0, 0)) :
    (step_level_1 w h d s).1.history =
      (⟨s.grid, s.cursor_x, s.cursor_y, s.phase, s.last_dx, s.last_dy,
        s.prev_color, s.extra⟩ : Snapshot) :: s.history := by
  simp only [step_level_1, save_state, if_neg hd]
  split <;> split <;> rfl

theorem step_level_2_history (w h : Int) (d : Int × Int) (s : State)
    (hd : d ≠ (0, 0)) :
    (step_level_2 w h d s).1.history =
      (⟨s.grid, s.cursor_x, s.cursor_y, s.phase, s.last_dx, s.last_dy,
        s.prev_color, s.extra⟩ : Snapshot) :: s.history := by
  simp only [step_level_2, save_state, if_neg hd]

theorem step_level_3_history (w h : Int) (d : Int × Int) (s : State)
    (hd : d ≠ (0, 0)) :
    (step_level_3 w h d s).1.history =
      (⟨s.grid, s.cursor_x, s.cursor_y, s.phase, s.last_dx, s.last_dy,
        s.prev_color, s.extra⟩ : Snapshot) :: s.history := by
  simp only [step_level_3, save_state, if_neg hd]

theorem step_level_4_history (w h : Int) (d : Int × Int) (s : State)
    (hd : d ≠ (0, 0)) :
    (step_level_4 w h d s).1.history =
      (⟨s.grid, s.cursor_x, s.cursor_y, s.phase, s.last_dx, s.last_dy,
        s.prev_color, s.extra⟩ : Snapshot) :: s.history := by
  simp only [step_level_4, save_state, if_neg hd]
  split
  · rfl
  · split
    · rfl
    · split <;> rfl

theorem step_level_5_history (w h : Int) (d : Int × Int) (s : State)
    (hd : d ≠ (0, 0)) :
    (step_level_5 w h d s).1.history =
      (⟨s.grid, s.cursor_x, s.cursor_y, s.phase, s.last_dx, s.last_dy,
        s.prev_color, s.extra⟩ : Snapshot) :: s.history := by
  cases htel : tele_get? s.extra.teleport_map (s.cursor_x + d.1, s.cursor_y + d.2) with
  | none =>
    simp only [step_level_5, save_state, if_neg hd, htel]
    split
    · rfl
    · split <;> rfl
  | some dest =>
    simp only [step_level_5, save_state, if_neg hd, htel]
    split
    · rfl
    · split <;> rfl

theorem step_level_6_history (w h : Int) (d : Int × Int) (s : State)
    (hd : d ≠ (0, 0)) :
    (step_level_6 w h d s).1.history =
      (⟨s.grid, s.cursor_x, s.cursor_y, s.phase, s.last_dx, s.last_dy,
        s.prev_color, s.extra⟩ : Snapshot) :: s.history := by
  simp only [step_level_6, save_state, if_neg hd]
  split <;> split <;> rfl

theorem step_level_7_history (w h : Int) (d : Int × Int) (s : State)
    (hd : d ≠ (0, 0)) :
    (step_level_7 w h d s).1.history =
      (⟨s.grid, s.cursor_x, s.cursor_y, s.phase, s.last_dx, s.last_dy,
        s.prev_color, s.extra⟩ : Snapshot) :: s.history := by
  cases htar : targets_get? s.extra.original_targets
      (s.cursor_x + d.1, s.cursor_y + d.2) with
  | none =>
    simp only [step_level_7, save_state, if_neg hd, htar]
    split
    · rfl
    · split
      · rfl
      · split
        · split
          · rfl
          · split
            · rfl
            · split <;> rfl
        · split <;> rfl
  | some tc =>
    simp only [step_level_7, save_state, if_neg hd, htar]
    split
    · rfl
    · split
      · rfl
      · split
        · split
          · rfl
          · split
            · rfl
            · split <;> rfl
        · split <;> rfl

/-- C10: for every pm07 level and every directional action that does
not complete the level, issuing the undo action (ACTION7) immediately
afterwards restores the entire state — grid, cursor position, phase,
last direction, previous color and the auxiliary extra dictionary —
because every step handler pushes a full snapshot before mutating. -/
theorem pm07_undo_restores (lvl : Nat) (w h : Int) (aid : Nat) (s : State)
    (hlvl : lvl < 7) (haid : aid ∈ [1, 2, 3, 4])
    (hcomp : (step lvl w h aid s).2 = false) :
    step lvl w h 7 (step lvl w h aid s).1 = (s, false) := by
  have haid2 : aid = 1 ∨ aid = 2 ∨ aid = 3 ∨ aid = 4 := by
    simpa using haid
  have haid7 : aid ≠ 7 := by
    rcases haid2 with rfl | rfl | rfl | rfl <;> decide
  have hd : get_dir aid ≠ (0, 0) := by
    rcases haid2 with rfl | rfl | rfl | rfl <;> decide
  have hstep7 : ∀ s3 : State, step lvl w h 7 s3 = (undo s3, false) := by
    intro s3
    unfold step
    rw [if_pos rfl]
  rw [hstep7]
  have hundo : undo (step lvl w h aid s).1 = s := by
    apply undo_restores
    unfold step
    rw [if_neg haid7]
    interval_cases lvl
    · exact step_level_1_history w h (get_dir aid) s hd
    · exact step_level_2_history w h (get_dir aid) s hd
    · exact step_level_3_history w h (get_dir aid) s hd
    · exact step_level_4_history w h (get_dir aid) s hd
    · exact step_level_5_history w h (get_dir aid) s hd
    · exact step_level_6_history w h (get_dir aid) s hd
    · exact step_level_7_history w h (get_dir aid) s hd
  rw [hundo]

/-- Concrete instance of the C10 theorem: a level-2 toggle step on a
1-by-2 grid followed by ACTION7 returns the exact prior state. -/
theorem pm07_undo_restores_witness :
    step 1 1 2 7 ((step 1 1 2 2
      { grid := [[C_CYAN], [C_CYAN]], cursor_x := 0, cursor_y := 0, phase := 0,
        prev_color := 0, last_dx := 0, last_dy := 0,
        extra := { c1 := C_CYAN, c2 := C_ORANGE }, history := [] }).1) =
      ({ grid := [[C_CYAN], [C_CYAN]], cursor_x := 0, cursor_y := 0, phase := 0,
         prev_color := 0, last_dx := 0, last_dy := 0,
         extra := { c1 := C_CYAN, c2 := C_ORANGE }, history := [] }, false) :=
  pm07_undo_restores 1 1 2 2
    { grid := [[C_CYAN], [C_CYAN]], cursor_x := 0, cursor_y := 0, phase := 0,
      prev_color := 0, last_dx := 0, last_dy := 0,
      extra := { c1 := C_CYAN, c2 := C_ORANGE }, history := [] }
    (by decide) (by decide) (by decide)

end Pm07

theorem lget_lset_self_total (l : List Nat) (n v : Nat) :
    lget (lset l n v) n = if n < l.length then v else lget l n := by
  induction l generalizing n with
  | nil => simp [lset, lget]
  | cons a t ih =>
    cases n with
    | zero => simp [lset, lget]
    | succ m => simpa [lset, lget] using ih m

theorem cellAt_setAt_self_or (g : List (List Nat)) (y x : Int) (v : Nat) :
    cellAt (setAt g y x v) y x = v ∨ cellAt (setAt g y x v) y x = cellAt g y x := by
  unfold cellAt setAt
  by_cases hb : 0 ≤ y ∧ 0 ≤ x
  · rw [if_pos hb, if_pos hb, if_pos hb, rget_rset_self]
    split
    · rw [lget_lset_self_total]
      split
      · exact Or.inl rfl
      · exact Or.inr rfl
    · exact Or.inr rfl
  · rw [if_neg hb, if_neg hb]
    exact Or.inr rfl

namespace Pm07

theorem wallEq_refl (g : List (List Nat)) : WallEq g g := fun _ _ => Iff.rfl

theorem wallEq_symm {g1 g2 : List (List Nat)} (h : WallEq g1 g2) : WallEq g2 g1 :=
  fun y x => (h y x).symm

theorem wallEq_trans {g1 g2 g3 : List (List Nat)} (h1 : WallEq g1 g2)
    (h2 : WallEq g2 g3) : WallEq g1 g3 :=
  fun y x => (h1 y x).trans (h2 y x)

theorem wallEq_setAt {g : List (List Nat)} {y x : Int} {v : Nat}
    (hold : cellAt g y x ≠ C_DARK_GRAY) (hv : v ≠ C_DARK_GRAY) :
    WallEq (setAt g y x v) g := by
  intro y2 x2
  by_cases heq : y2 = y ∧ x2 = x
  · rw [heq.1, heq.2]
    rcases cellAt_setAt_self_or g y x v with h | h
    · rw [h]
      constructor
      · intro hc; exact absurd hc hv
      · intro hc; exact absurd hc hold
    · rw [h]
  · rw [cellAt_setAt_ne heq]

theorem slide_sim_wallEq {g1 g2 : List (List Nat)} (hw : WallEq g1 g2)
    (w h tx ty : Int) (d : Int × Int) :
    ∀ (fuel : Nat) (p : Int × Int) (b : Bool),
      slide_sim w h g1 tx ty d fuel p b = slide_sim w h g2 tx ty d fuel p b := by
  intro fuel
  induction fuel with
  | zero => intro p b; rfl
  | succ f ih =>
    intro p b
    obtain ⟨sx, sy⟩ := p
    rw [slide_sim, slide_sim]
    by_cases h1 : in_bounds (sx + d.1) (sy + d.2) w h
    · simp only [h1, not_true_eq_false, if_neg (by trivial : ¬ False)]
      by_cases h2 : cellAt g1 (sy + d.2) (sx + d.1) = C_DARK_GRAY
      · rw [if_pos h2, if_pos ((hw (sy + d.2) (sx + d.1)).mp h2)]
      · rw [if_neg h2, if_neg (fun hc => h2 ((hw (sy + d.2) (sx + d.1)).mpr hc))]
        exact ih (sx + d.1, sy + d.2) _
    · rw [if_pos (by exact h1), if_pos (by exact h1)]

theorem slide_expand_wallEq {g1 g2 : List (List Nat)} (hw : WallEq g1 g2)
    (w h tx ty cx cy : Int) :
    ∀ (ds : List (Int × Int)) (visited acc : List (Int × Int)),
      slide_expand w h g1 tx ty cx cy ds visited acc =
        slide_expand w h g2 tx ty cx cy ds visited acc := by
  intro ds
  induction ds with
  | nil => intro visited acc; rfl
  | cons d ds2 ih =>
    intro visited acc
    rw [slide_expand, slide_expand,
      slide_sim_wallEq hw w h tx ty d ((w + h).toNat + 2) (cx, cy) false]
    split
    · rfl
    · split
      · exact ih visited acc
      · exact ih _ _

theorem can_reach_loop_wallEq {g1 g2 : List (List Nat)} (hw : WallEq g1 g2)
    (w h tx ty : Int) :
    ∀ (fuel : Nat) (visited queue : List (Int × Int)),
      can_reach_loop w h g1 tx ty fuel visited queue =
        can_reach_loop w h g2 tx ty fuel visited queue := by
  intro fuel
  induction fuel with
  | zero => intro visited queue; rfl
  | succ f ih =>
    intro visited queue
    cases queue with
    | nil => rfl
    | cons p rest =>
      obtain ⟨cx, cy⟩ := p
      rw [can_reach_loop, can_reach_loop,
        slide_expand_wallEq hw w h tx ty cx cy directions visited []]
      split
      · rfl
      · exact ih _ _

theorem can_reach_by_slide_wallEq {g1 g2 : List (List Nat)} (hw : WallEq g1 g2)
    (tx ty w h : Int) (fuel : Nat) :
    can_reach_by_slide g1 tx ty w h fuel = can_reach_by_slide g2 tx ty w h fuel :=
  can_reach_loop_wallEq hw w h tx ty fuel [(0, 0)] [(0, 0)]

theorem place_gems_reach (w h : Int) (bfsFuel : Nat) :
    ∀ (cands : List (Int × Int)) (placed attempts : Nat) (grid : List (List Nat))
      (used gems : List (Int × Int)),
      (∀ y x : Int, cellAt grid y x = C_DARK_GRAY → (x, y) ∈ used) →
      (∀ p ∈ gems, can_reach_by_slide grid p.1 p.2 w h bfsFuel = true) →
      ∀ p ∈ (place_gems w h bfsFuel cands placed attempts grid used gems).2.2,
        can_reach_by_slide
          (place_gems w h bfsFuel cands placed attempts grid used gems).1
          p.1 p.2 w h bfsFuel = true := by
  intro cands
  induction cands with
  | nil =>
    intro placed attempts grid used gems hwalls hgems p hp
    exact hgems p hp
  | cons c cands2 ih =>
    obtain ⟨gx, gy⟩ := c
    intro placed attempts grid used gems hwalls hgems p hp
    rw [place_gems] at hp ⊢
    by_cases h1 : 3 ≤ placed ∨ 300 ≤ attempts
    · rw [if_pos h1] at hp ⊢
      exact hgems p hp
    · rw [if_neg h1] at hp ⊢
      by_cases h2 : (gx, gy) ∈ used
      · rw [if_pos h2] at hp ⊢
        exact ih placed (attempts + 1) grid used gems hwalls hgems p hp
      · rw [if_neg h2] at hp ⊢
        have hnotwall : cellAt grid gy gx ≠ C_DARK_GRAY := by
          intro hc
          exact h2 (hwalls gy gx hc)
        have hwg : WallEq (setAt grid gy gx C_GREEN) grid :=
          wallEq_setAt hnotwall (by decide)
        by_cases h3 : can_reach_by_slide (setAt grid gy gx C_GREEN) gx gy w h
            bfsFuel = true
        · rw [if_pos h3] at hp ⊢
          apply ih (placed + 1) (attempts + 1) (setAt grid gy gx C_GREEN)
            (used ++ [(gx, gy)]) (gems ++ [(gx, gy)]) ?_ ?_ p hp
          · intro y2 x2 hc
            rcases cellAt_setAt_self_or grid gy gx C_GREEN with hcell | hcell
            · by_cases heq : y2 = gy ∧ x2 = gx
              · rw [heq.1, heq.2, hcell] at hc
                exact absurd hc (by decide)
              · rw [cellAt_setAt_ne heq] at hc
                exact List.mem_append.mpr (Or.inl (hwalls y2 x2 hc))
            · by_cases heq : y2 = gy ∧ x2 = gx
              · rw [heq.1, heq.2, hcell] at hc
                exact absurd hc hnotwall
              · rw [cellAt_setAt_ne heq] at hc
                exact List.mem_append.mpr (Or.inl (hwalls y2 x2 hc))
          · intro q hq
            rcases List.mem_append.mp hq with hq | hq
            · rw [can_reach_by_slide_wallEq hwg q.1 q.2 w h bfsFuel]
              exact hgems q hq
            · simp at hq
              rw [hq]
              exact h3
        · rw [if_neg h3] at hp ⊢
          have hwb : WallEq (setAt (setAt grid gy gx C_GREEN) gy gx C_BLACK) grid := by
            have hw1 : WallEq (setAt (setAt grid gy gx C_GREEN) gy gx C_BLACK)
                (setAt grid gy gx C_GREEN) := by
              apply wallEq_setAt ?_ (by decide)
              rcases cellAt_setAt_self_or grid gy gx C_GREEN with hcell | hcell
              · rw [hcell]; decide
              · rw [hcell]; exact hnotwall
            exact wallEq_trans hw1 hwg
          apply ih placed (attempts + 1) _ used gems ?_ ?_ p hp
          · intro y2 x2 hc
            rw [hwb y2 x2] at hc
            exact hwalls y2 x2 hc
          · intro q hq
            rw [can_reach_by_slide_wallEq hwb q.1 q.2 w h bfsFuel]
            exact hgems q hq

end Pm07

theorem lget_replicate_total (n c k : Nat) :
    lget (List.replicate n c) k = if k < n then c else 0 := by
  induction n generalizing k with
  | zero => simp [lget]
  | succ m ih =>
    cases k with
    | zero => simp [List.replicate_succ, lget]
    | succ j => simpa [List.replicate_succ, lget] using ih j

theorem rget_replicate_total (n k : Nat) (r : List Nat) :
    rget (List.replicate n r) k = if k < n then r else [] := by
  induction n generalizing k with
  | zero => simp [rget]
  | succ m ih =>
    cases k with
    | zero => simp [List.replicate_succ, rget]
    | succ j => simpa [List.replicate_succ, rget] using ih j

theorem cellAt_replicate_cases (ph pw c : Nat) (y x : Int) :
    cellAt (List.replicate ph (List.replicate pw c)) y x = c ∨
      cellAt (List.replicate ph (List.replicate pw c)) y x = 0 := by
  unfold cellAt
  split
  · rw [rget_replicate_total]
    split
    · rw [lget_replicate_total]
      split
      · exact Or.inl rfl
      · exact Or.inr rfl
    · exact Or.inr rfl
  · exact Or.inr rfl

namespace Pm07

/-- C6: (a) every gem the ice-slide level-3 setup keeps was accepted
only after `_can_reach_by_slide` reported it collectible from (0, 0),
and collectibility persists to the final returned grid because later
placements never change the wall set; (b) every layout
`_setup_level_5` returns — accepted inside the retry loop or produced
by the fallback — has its green exit reachable from (0, 0) according
to `_bfs_teleport_reachable`. -/
theorem pm07_generation_reachability :
    (∀ (w h : Int) (bfsFuel : Nat) (cands : List (Int × Int))
       (grid0 : List (List Nat)) (used0 : List (Int × Int)),
       (∀ y x : Int, cellAt grid0 y x = C_DARK_GRAY → (x, y) ∈ used0) →
       ∀ p ∈ (place_gems w h bfsFuel cands 0 0 grid0 used0 []).2.2,
         can_reach_by_slide (place_gems w h bfsFuel cands 0 0 grid0 used0 []).1
           p.1 p.2 w h bfsFuel = true) ∧
    (∀ cands : List Layout,
       bfs_teleport_reachable 0 0 (setup_level_5 8 8 cands).exit_x
         (setup_level_5 8 8 cands).exit_y 8 8 (setup_level_5 8 8 cands).grid
         (setup_level_5 8 8 cands).teleport_map 1000 = true) := by
  constructor
  · intro w h bfsFuel cands grid0 used0 hwalls p hp
    exact place_gems_reach w h bfsFuel cands 0 0 grid0 used0 [] hwalls
      (by intro q hq; simp at hq) p hp
  · intro cands
    unfold setup_level_5
    cases hfind : cands.find? (fun L => bfs_teleport_reachable 0 0 L.exit_x
        L.exit_y 8 8 L.grid L.teleport_map 1000) with
    | some L =>
      have h2 := List.find?_some hfind
      simpa using h2
    | none => decide

/-- Concrete instance of the C6 theorem: on a blank 2-by-2 level-3
grid with only the start cell used, the candidate gem at (0, 1) is
accepted and is slide-collectible on the returned grid. -/
theorem pm07_generation_reachability_witness :
    can_reach_by_slide
      (place_gems 2 2 20 [(0, 1)] 0 0
        (List.replicate 2 (List.replicate 2 C_BLACK)) [(0, 0)] []).1
      0 1 2 2 20 = true := by
  have hwalls : ∀ y x : Int,
      cellAt (List.replicate 2 (List.replicate 2 C_BLACK)) y x = C_DARK_GRAY →
        (x, y) ∈ ([(0, 0)] : List (Int × Int)) := by
    intro y x hc
    exfalso
    rcases cellAt_replicate_cases 2 2 C_BLACK y x with h2 | h2 <;>
      rw [h2] at hc <;> exact absurd hc (by decide)
  have h := pm07_generation_reachability.1 2 2 20 [(0, 1)]
    (List.replicate 2 (List.replicate 2 C_BLACK)) [(0, 0)] hwalls (0, 1)
  apply h
  decide

end Pm07

namespace Cd01

theorem paths_get_cons (kv : Nat × List (Int × Int))
    (rest : List (Nat × List (Int × Int))) (c : Nat) :
    paths_get (kv :: rest) c = if kv.1 = c then kv.2 else paths_get rest c := by
  by_cases h : kv.1 = c
  · simp [paths_get, List.find?_cons, h]
  · simp [paths_get, List.find?_cons, h]

theorem eps_get_cons (kv : Nat × ((Int × Int) × (Int × Int)))
    (rest : List (Nat × ((Int × Int) × (Int × Int)))) (c : Nat) :
    eps_get (kv :: rest) c = if kv.1 = c then kv.2 else eps_get rest c := by
  by_cases h : kv.1 = c
  · simp [eps_get, List.find?_cons, h]
  · simp [eps_get, List.find?_cons, h]

theorem paths_set_cons (kv : Nat × List (Int × Int))
    (rest : List (Nat × List (Int × Int))) (c : Nat) (p : List (Int × Int)) :
    paths_set (kv :: rest) c p =
      (if kv.1 = c then (kv.1, p) else kv) :: paths_set rest c p := rfl

theorem paths_get_set_ne (d : List (Nat × List (Int × Int))) (c c2 : Nat)
    (p : List (Int × Int)) (h : c2 ≠ c) :
    paths_get (paths_set d c p) c2 = paths_get d c2 := by
  induction d with
  | nil => rfl
  | cons kv rest ih =>
    rw [paths_set_cons, paths_get_cons, paths_get_cons]
    by_cases hk : kv.1 = c
    · rw [if_pos hk]
      have h1 : ¬ kv.1 = c2 := by omega
      rw [if_neg h1, if_neg h1, ih]
    · rw [if_neg hk]
      by_cases h2 : kv.1 = c2
      · rw [if_pos h2, if_pos h2]
      · rw [if_neg h2, if_neg h2, ih]

theorem paths_get_set_self (d : List (Nat × List (Int × Int))) (c : Nat)
    (p : List (Int × Int)) (h : c ∈ d.map Prod.fst) :
    paths_get (paths_set d c p) c = p := by
  induction d with
  | nil => simp at h
  | cons kv rest ih =>
    rw [paths_set_cons, paths_get_cons]
    by_cases hk : kv.1 = c
    · rw [if_pos hk]; simp [hk]
    · rw [if_neg hk, if_neg hk]
      apply ih
      simp only [List.map_cons, List.mem_cons] at h
      rcases h with h | h
      · exact absurd h.symm hk
      · exact h

theorem paths_get_absent (d : List (Nat × List (Int × Int))) (c : Nat)
    (h : c ∉ d.map Prod.fst) : paths_get d c = [] := by
  induction d with
  | nil => rfl
  | cons kv rest ih =>
    simp only [List.map_cons, List.mem_cons, not_or] at h
    rw [paths_get_cons, if_neg (fun hh => h.1 hh.symm)]
    exact ih h.2

theorem map_fst_paths_set (d : List (Nat × List (Int × Int))) (c : Nat)
    (p : List (Int × Int)) :
    (paths_set d c p).map Prod.fst = d.map Prod.fst := by
  induction d with
  | nil => rfl
  | cons kv rest ih =>
    rw [paths_set_cons, List.map_cons, List.map_cons, ih]
    by_cases hk : kv.1 = c
    · rw [if_pos hk]
    · rw [if_neg hk]

theorem paths_set_set (d : List (Nat × List (Int × Int))) (c : Nat)
    (p q : List (Int × Int)) :
    paths_set (paths_set d c p) c q = paths_set d c q := by
  induction d with
  | nil => rfl
  | cons kv rest ih =>
    rw [paths_set_cons, paths_set_cons, paths_set_cons, ih]
    by_cases hk : kv.1 = c
    · rw [if_pos hk]; simp [hk]
    · rw [if_neg hk, if_neg hk]

theorem paths_set_eq_self (d : List (Nat × List (Int × Int))) (c : Nat)
    (p : List (Int × Int)) (h : ∀ kv ∈ d, kv.1 = c → kv.2 = p) :
    paths_set d c p = d := by
  induction d with
  | nil => rfl
  | cons kv rest ih =>
    rw [paths_set_cons]
    have hrest : paths_set rest c p = rest :=
      ih fun kv2 h2 => h kv2 (List.mem_cons_of_mem _ h2)
    rw [hrest]
    by_cases hk : kv.1 = c
    · rw [if_pos hk]
      have := h kv (List.mem_cons_self _ _) hk
      rw [← this]
    · rw [if_neg hk]

theorem paths_get_of_mem (d : List (Nat × List (Int × Int)))
    (kv : Nat × List (Int × Int)) (hnd : (d.map Prod.fst).Nodup) (hm : kv ∈ d) :
    paths_get d kv.1 = kv.2 := by
  induction d with
  | nil => simp at hm
  | cons a rest ih =>
    rw [List.map_cons, List.nodup_cons] at hnd
    rw [paths_get_cons]
    rcases List.mem_cons.mp hm with h | h
    · subst h; rw [if_pos rfl]
    · have hne : ¬ a.1 = kv.1 := by
        intro he
        exact hnd.1 (he ▸ List.mem_map_of_mem Prod.fst h)
      rw [if_neg hne]
      exact ih hnd.2 h

theorem eps_get_of_mem (d : List (Nat × ((Int × Int) × (Int × Int))))
    (kv : Nat × ((Int × Int) × (Int × Int))) (hnd : (d.map Prod.fst).Nodup)
    (hm : kv ∈ d) : eps_get d kv.1 = kv.2 := by
  induction d with
  | nil => simp at hm
  | cons a rest ih =>
    rw [List.map_cons, List.nodup_cons] at hnd
    rw [eps_get_cons]
    rcases List.mem_cons.mp hm with h | h
    · subst h; rw [if_pos rfl]
    · have hne : ¬ a.1 = kv.1 := by
        intro he
        exact hnd.1 (he ▸ List.mem_map_of_mem Prod.fst h)
      rw [if_neg hne]
      exact ih hnd.2 h

theorem mem_paths_get (d : List (Nat × List (Int × Int))) (c : Nat)
    (p : Int × Int) (hp : p ∈ paths_get d c) :
    ∃ kv ∈ d, kv.1 = c ∧ p ∈ kv.2 := by
  unfold paths_get at hp
  cases hfind : d.find? (fun kv => kv.1 == c) with
  | none => rw [hfind] at hp; simp at hp
  | some kv =>
    rw [hfind] at hp
    refine ⟨kv, List.mem_of_find?_eq_some hfind, ?_, hp⟩
    have := List.find?_some hfind
    simpa using this

theorem other_occupant_eq_zero (d : List (Nat × List (Int × Int)))
    (pos : Int × Int) (c : Nat) (h : ∀ kv ∈ d, kv.1 ≠ c → pos ∉ kv.2) :
    other_occupant d pos c = 0 := by
  unfold other_occupant
  cases hfind : d.find? (fun kv => decide (kv.1 ≠ c ∧ pos ∈ kv.2)) with
  | none => rfl
  | some kv =>
    have hmem := List.mem_of_find?_eq_some hfind
    have hpred := List.find?_some hfind
    simp only [decide_eq_true_eq] at hpred
    exact absurd hpred.2 (h kv hmem hpred.1)

theorem lset_lget_self (l : List Nat) (n : Nat) : lset l n (lget l n) = l := by
  induction l generalizing n with
  | nil => rfl
  | cons a t ih =>
    cases n with
    | zero => rfl
    | succ m => simp only [lset, lget]; rw [ih]

theorem rset_rget_self_eq (g : List (List Nat)) (n : Nat) :
    rset g n (rget g n) = g := by
  induction g generalizing n with
  | nil => rfl
  | cons a t ih =>
    cases n with
    | zero => rfl
    | succ m => simp only [rset, rget]; rw [ih]

theorem lset_lset (l : List Nat) (n v v2 : Nat) :
    lset (lset l n v) n v2 = lset l n v2 := by
  induction l generalizing n with
  | nil => rfl
  | cons a t ih =>
    cases n with
    | zero => rfl
    | succ m => simp only [lset]; rw [ih]

theorem rset_rset (g : List (List Nat)) (n : Nat) (r1 r2 : List Nat) :
    rset (rset g n r1) n r2 = rset g n r2 := by
  induction g generalizing n with
  | nil => rfl
  | cons a t ih =>
    cases n with
    | zero => rfl
    | succ m => simp only [rset]; rw [ih]

theorem setAt_cellAt_self (g : List (List Nat)) (y x : Int) :
    setAt g y x (cellAt g y x) = g := by
  unfold setAt cellAt
  by_cases h : 0 ≤ y ∧ 0 ≤ x
  · rw [if_pos h, if_pos h, lset_lget_self, rset_rget_self_eq]
  · rw [if_neg h]

theorem setAt_setAt (g : List (List Nat)) (y x : Int) (v v2 : Nat) :
    setAt (setAt g y x v) y x v2 = setAt g y x v2 := by
  unfold setAt
  by_cases h : 0 ≤ y ∧ 0 ≤ x
  · rw [if_pos h, if_pos h, if_pos h]
    rcases Nat.lt_or_ge y.toNat g.length with hy | hy
    · rw [rget_rset_self, if_pos hy, lset_lset, rset_rset]
    · rw [rset_eq_of_ge _ _ _ hy, rset_eq_of_ge _ _ _ hy]
  · rw [if_neg h, if_neg h, if_neg h]

theorem mem_flat_cells (eps : List (Nat × ((Int × Int) × (Int × Int))))
    (e : Int × Int) :
    e ∈ (eps.flatMap fun kv => [kv.2.1, kv.2.2]) ↔
      ∃ kv ∈ eps, e = kv.2.1 ∨ e = kv.2.2 := by
  simp [List.mem_flatMap]

theorem ep_cells_inj (eps : List (Nat × ((Int × Int) × (Int × Int))))
    (hnd : (eps.flatMap fun kv => [kv.2.1, kv.2.2]).Nodup)
    (kv1 kv2 : Nat × ((Int × Int) × (Int × Int))) (e : Int × Int)
    (h1 : kv1 ∈ eps) (h2 : kv2 ∈ eps)
    (he1 : e = kv1.2.1 ∨ e = kv1.2.2) (he2 : e = kv2.2.1 ∨ e = kv2.2.2) :
    kv1 = kv2 := by
  induction eps with
  | nil => simp at h1
  | cons a rest ih =>
    rw [List.flatMap_cons, List.nodup_append] at hnd
    rcases List.mem_cons.mp h1 with hm1 | hm1 <;>
      rcases List.mem_cons.mp h2 with hm2 | hm2
    · rw [hm1, hm2]
    · subst hm1
      exfalso
      have hin1 : e ∈ [kv1.2.1, kv1.2.2] := by
        rcases he1 with h | h <;> simp [h]
      have hin2 : e ∈ (rest.flatMap fun kv => [kv.2.1, kv.2.2]) :=
        (mem_flat_cells rest e).mpr ⟨kv2, hm2, he2⟩
      exact hnd.2.2 hin1 hin2
    · subst hm2
      exfalso
      have hin2 : e ∈ [kv2.2.1, kv2.2.2] := by
        rcases he2 with h | h <;> simp [h]
      have hin1 : e ∈ (rest.flatMap fun kv => [kv.2.1, kv.2.2]) :=
        (mem_flat_cells rest e).mpr ⟨kv1, hm1, he1⟩
      exact hnd.2.2 hin2 hin1
    · exact ih hnd.2.1 hm1 hm2

end Cd01

/-- C8 counterexample: the claim quantifies over every puzzle state and
every directional action with an out-of-bounds destination, but the
pm07 level-2 toggle handler clamps the cursor into the grid and still
toggles the landing cell, so an out-of-bounds move does change the
grid.  Witness: a 1x1 toggle board; moving left is out of bounds yet
flips the single cell. -/
theorem invalid_move_silent_noop_counterexample :
    ¬ Pm07.in_bounds
        (({ grid := [[8]], cursor_x := 0, cursor_y := 0, phase := 0,
            prev_color := 0, last_dx := 0, last_dy := 0,
            extra := { c1 := 8, c2 := 7 }, history := [] } : Pm07.State).cursor_x
          + (-1 : Int))
        (({ grid := [[8]], cursor_x := 0, cursor_y := 0, phase := 0,
            prev_color := 0, last_dx := 0, last_dy := 0,
            extra := { c1 := 8, c2 := 7 }, history := [] } : Pm07.State).cursor_y
          + 0) 1 1 ∧
      (Pm07.step_level_2 1 1 (-1, 0)
          { grid := [[8]], cursor_x := 0, cursor_y := 0, phase := 0,
            prev_color := 0, last_dx := 0, last_dy := 0,
            extra := { c1 := 8, c2 := 7 }, history := [] }).1.grid ≠ [[8]] := by
  constructor
  · decide
  · decide

/-- C8 (corrected): invalid directional moves are silent no-ops for the
handlers that perform a destination check — pm07 level 4 returns
exactly the saved state (only the undo history records the wasted
input) when the destination is out of bounds or a wall, and cd01's
_extend_path returns the state unchanged when the destination is out of
bounds or re-enters the color's own path other than by the back-step
cell.  The pm07 level-2 handler is excluded: it clamps instead of
rejecting (see the counterexample). -/
theorem invalid_move_silent_noop :
    (∀ (w h : Int) (d : Int × Int) (s : Pm07.State), d ≠ (0, 0) →
      (¬ Pm07.in_bounds (s.cursor_x + d.1) (s.cursor_y + d.2) w h ∨
        (s.cursor_x + d.1, s.cursor_y + d.2) ∈ s.extra.wall_positions) →
      Pm07.step_level_4 w h d s = (Pm07.save_state s, false)) ∧
    (∀ (s : Cd01.CdState) (dx dy : Int),
      (¬ (0 ≤ s.cursor_x + dx ∧ s.cursor_x + dx < (s.grid_w : Int) ∧
          0 ≤ s.cursor_y + dy ∧ s.cursor_y + dy < (s.grid_h : Int))) ∨
        ((s.cursor_x + dx, s.cursor_y + dy) ∈
            Cd01.paths_get s.drawn_paths s.selected_color ∧
          ¬ (2 ≤ (Cd01.paths_get s.drawn_paths s.selected_color).length ∧
            (Cd01.paths_get s.drawn_paths s.selected_color)[(Cd01.paths_get s.drawn_paths s.selected_color).length - 2]? =
              some (s.cursor_x + dx, s.cursor_y + dy))) →
      Cd01.extend_path s dx dy = s) := by
  constructor
  · intro w h d s hd hbad
    simp only [Pm07.step_level_4, if_neg hd]
    have hcx : (Pm07.save_state s).cursor_x = s.cursor_x := rfl
    have hcy : (Pm07.save_state s).cursor_y = s.cursor_y := rfl
    have hex : (Pm07.save_state s).extra = s.extra := rfl
    rcases hbad with hoob | hwall
    · rw [if_pos (by rw [hcx, hcy]; exact hoob)]
    · by_cases hin : Pm07.in_bounds ((Pm07.save_state s).cursor_x + d.1)
        ((Pm07.save_state s).cursor_y + d.2) w h
      · rw [if_neg (by simpa using hin), if_pos (by rw [hcx, hcy, hex]; exact hwall)]
      · rw [if_pos hin]
  · intro s dx dy hbad
    by_cases hb : 0 ≤ s.cursor_x + dx ∧ s.cursor_x + dx < (s.grid_w : Int) ∧
      0 ≤ s.cursor_y + dy ∧ s.cursor_y + dy < (s.grid_h : Int)
    · have hmem : (s.cursor_x + dx, s.cursor_y + dy) ∈
          Cd01.paths_get s.drawn_paths s.selected_color ∧
          ¬ (2 ≤ (Cd01.paths_get s.drawn_paths s.selected_color).length ∧
            (Cd01.paths_get s.drawn_paths s.selected_color)[(Cd01.paths_get s.drawn_paths s.selected_color).length - 2]? =
              some (s.cursor_x + dx, s.cursor_y + dy)) := by
        rcases hbad with h | h
        · exact absurd hb h
        · exact h
      have hne : Cd01.paths_get s.drawn_paths s.selected_color ≠ [] := by
        intro hnil
        rw [hnil] at hmem
        simp at hmem
      simp only [Cd01.extend_path, if_neg (not_not_intro hb), if_neg hne,
        if_neg hmem.2, if_pos hmem.1]
    · simp only [Cd01.extend_path, if_pos hb]

/-- C8 witness: a concrete out-of-bounds pm07 level-4 move and a
concrete own-path-re-entering cd01 extension, both silent no-ops. -/
theorem invalid_move_silent_noop_witness :
    Pm07.step_level_4 3 3 (-1, 0)
        { grid := [[0, 0, 0], [0, 0, 0], [0, 0, 0]], cursor_x := 0,
          cursor_y := 0, phase := 0, prev_color := 0, last_dx := 0,
          last_dy := 0, extra := {}, history := [] } =
      (Pm07.save_state
        { grid := [[0, 0, 0], [0, 0, 0], [0, 0, 0]], cursor_x := 0,
          cursor_y := 0, phase := 0, prev_color := 0, last_dx := 0,
          last_dy := 0, extra := {}, history := [] }, false) ∧
    Cd01.extend_path
        { grid := [[1, 1], [1, 1]], grid_w := 2, grid_h := 2,
          endpoints := [(1, ((0, 0), (5, 5)))], bridges := [],
          cursor_x := 0, cursor_y := 1, selected_color := 1,
          drawn_paths := [(1, [(0, 0), (1, 0), (1, 1), (0, 1)])] } 0 (-1) =
      { grid := [[1, 1], [1, 1]], grid_w := 2, grid_h := 2,
        endpoints := [(1, ((0, 0), (5, 5)))], bridges := [],
        cursor_x := 0, cursor_y := 1, selected_color := 1,
        drawn_paths := [(1, [(0, 0), (1, 0), (1, 1), (0, 1)])] } := by
  constructor
  · exact invalid_move_silent_noop.1 3 3 (-1, 0) _ (by decide) (Or.inl (by decide))
  · exact invalid_move_silent_noop.2 _ 0 (-1) (Or.inr (by constructor <;> decide))

namespace Cd01

theorem mem_sadd (l : List (Int × Int)) (x y : Int × Int) :
    y ∈ sadd l x ↔ y = x ∨ y ∈ l := by
  unfold sadd
  by_cases h : x ∈ l
  · rw [if_pos h]
    constructor
    · exact Or.inr
    · rintro (rfl | hy)
      · exact h
      · exact hy
  · rw [if_neg h]
    simp [or_comm]

theorem sadd_nodup (l : List (Int × Int)) (x : Int × Int) (h : l.Nodup) :
    (sadd l x).Nodup := by
  unfold sadd
  by_cases hm : x ∈ l
  · rw [if_pos hm]; exact h
  · rw [if_neg hm]
    simpa [List.nodup_append] using ⟨h, fun hx => hm hx⟩

theorem mem_foldl_sadd (ps : List (Int × Int)) (acc : List (Int × Int))
    (x : Int × Int) : x ∈ ps.foldl sadd acc ↔ x ∈ acc ∨ x ∈ ps := by
  induction ps generalizing acc with
  | nil => simp
  | cons p rest ih =>
    rw [List.foldl_cons, ih, mem_sadd]
    simp [or_comm, or_assoc]
    tauto

theorem nodup_foldl_sadd (ps : List (Int × Int)) (acc : List (Int × Int))
    (h : acc.Nodup) : (ps.foldl sadd acc).Nodup := by
  induction ps generalizing acc with
  | nil => exact h
  | cons p rest ih => exact ih _ (sadd_nodup _ _ h)

theorem mem_ep_foldl (eps : List (Nat × ((Int × Int) × (Int × Int))))
    (acc : List (Int × Int)) (x : Int × Int) :
    x ∈ eps.foldl (fun acc kv => sadd (sadd acc kv.2.1) kv.2.2) acc ↔
      x ∈ acc ∨ ∃ kv ∈ eps, x = kv.2.1 ∨ x = kv.2.2 := by
  induction eps generalizing acc with
  | nil => simp
  | cons kv rest ih =>
    rw [List.foldl_cons, ih, mem_sadd, mem_sadd]
    simp only [List.mem_cons]
    constructor
    · rintro ((h | h | h) | ⟨kv2, h2, h3⟩)
      · exact Or.inr ⟨kv, Or.inl rfl, Or.inr h⟩
      · exact Or.inr ⟨kv, Or.inl rfl, Or.inl h⟩
      · exact Or.inl h
      · exact Or.inr ⟨kv2, Or.inr h2, h3⟩
    · rintro (h | ⟨kv2, (rfl | h2), h3⟩)
      · exact Or.inl (Or.inr (Or.inr h))
      · rcases h3 with h3 | h3
        · exact Or.inl (Or.inr (Or.inl h3))
        · exact Or.inl (Or.inl h3)
      · exact Or.inr ⟨kv2, h2, h3⟩

theorem nodup_ep_foldl (eps : List (Nat × ((Int × Int) × (Int × Int))))
    (acc : List (Int × Int)) (h : acc.Nodup) :
    (eps.foldl (fun acc kv => sadd (sadd acc kv.2.1) kv.2.2) acc).Nodup := by
  induction eps generalizing acc with
  | nil => exact h
  | cons kv rest ih => exact ih _ (sadd_nodup _ _ (sadd_nodup _ _ h))

theorem mem_paths_foldl (d : List (Nat × List (Int × Int)))
    (acc : List (Int × Int)) (x : Int × Int) :
    x ∈ d.foldl (fun acc kv => kv.2.foldl sadd acc) acc ↔
      x ∈ acc ∨ ∃ kv ∈ d, x ∈ kv.2 := by
  induction d generalizing acc with
  | nil => simp
  | cons kv rest ih =>
    rw [List.foldl_cons, ih, mem_foldl_sadd]
    simp only [List.mem_cons]
    constructor
    · rintro ((h | h) | ⟨kv2, h2, h3⟩)
      · exact Or.inl h
      · exact Or.inr ⟨kv, Or.inl rfl, h⟩
      · exact Or.inr ⟨kv2, Or.inr h2, h3⟩
    · rintro (h | ⟨kv2, (rfl | h2), h3⟩)
      · exact Or.inl (Or.inl h)
      · exact Or.inl (Or.inr h3)
      · exact Or.inr ⟨kv2, h2, h3⟩

theorem nodup_paths_foldl (d : List (Nat × List (Int × Int)))
    (acc : List (Int × Int)) (h : acc.Nodup) :
    (d.foldl (fun acc kv => kv.2.foldl sadd acc) acc).Nodup := by
  induction d generalizing acc with
  | nil => exact h
  | cons kv rest ih => exact ih _ (nodup_foldl_sadd _ _ h)

theorem mem_covered (s : CdState) (p : Int × Int) :
    p ∈ covered s ↔ covered_mem s p := by
  unfold covered covered_mem
  rw [mem_paths_foldl, mem_ep_foldl]
  simp

theorem covered_nodup (s : CdState) : (covered s).Nodup := by
  unfold covered
  exact nodup_paths_foldl _ _ (nodup_ep_foldl _ _ (List.nodup_nil))

theorem allCells_mem (w h : Nat) (p : Int × Int) :
    p ∈ allCells w h ↔
      0 ≤ p.1 ∧ p.1 < (w : Int) ∧ 0 ≤ p.2 ∧ p.2 < (h : Int) := by
  unfold allCells
  rw [List.mem_map]
  constructor
  · rintro ⟨q, hq, rfl⟩
    obtain ⟨a, b⟩ := q
    rw [List.mem_product] at hq
    simp only [List.mem_range] at hq
    simp only []
    exact ⟨Int.ofNat_nonneg a, by exact_mod_cast hq.1,
      Int.ofNat_nonneg b, by exact_mod_cast hq.2⟩
  · rintro ⟨h1, h2, h3, h4⟩
    refine ⟨(p.1.toNat, p.2.toNat), ?_, ?_⟩
    · rw [List.mem_product]
      simp only [List.mem_range]
      omega
    · obtain ⟨x, y⟩ := p
      simp only [Prod.mk.injEq]
      constructor <;> omega

theorem allCells_nodup (w h : Nat) : (allCells w h).Nodup := by
  unfold allCells
  apply List.Nodup.map
  · intro a b hab
    simp only [Prod.mk.injEq] at hab
    obtain ⟨a1, a2⟩ := a
    obtain ⟨b1, b2⟩ := b
    simp only [Prod.mk.injEq]
    omega
  · exact List.Nodup.product (List.nodup_range _) (List.nodup_range _)

theorem allCells_length (w h : Nat) : (allCells w h).length = w * h := by
  unfold allCells
  rw [List.length_map, List.length_product, List.length_range, List.length_range]

end Cd01

namespace Cd01

/-- C4: `_check_win` returns true exactly when (1) the cells that are
an endpoint of some color or lie on some color's drawn path are
precisely the full width x height board, and (2) every color's two
endpoints are BFS-connected within that color's drawn path plus its
endpoints; the hypothesis states that all endpoint and path cells lie
on the board, which holds in every reachable state. -/
theorem cd01_check_win_iff (s : CdState) (fuel : Nat)
    (hb : ∀ p : Int × Int, covered_mem s p →
      0 ≤ p.1 ∧ p.1 < (s.grid_w : Int) ∧ 0 ≤ p.2 ∧ p.2 < (s.grid_h : Int)) :
    check_win s fuel = true ↔
      ((∀ p : Int × Int, covered_mem s p ↔
        (0 ≤ p.1 ∧ p.1 < (s.grid_w : Int) ∧ 0 ≤ p.2 ∧ p.2 < (s.grid_h : Int))) ∧
      ∀ kv ∈ s.endpoints, path_connects s kv.1 kv.2.1 kv.2.2 fuel = true) := by
  have hsub : ∀ x ∈ covered s, x ∈ allCells s.grid_w s.grid_h := by
    intro x hx
    rw [allCells_mem]
    exact hb x ((mem_covered s x).mp hx)
  unfold check_win
  constructor
  · intro hwin
    by_cases hlen : (covered s).length < s.grid_w * s.grid_h
    · rw [if_pos hlen] at hwin
      exact absurd hwin (by simp)
    · rw [if_neg hlen] at hwin
      have hsp : (covered s).Subperm (allCells s.grid_w s.grid_h) :=
        List.Nodup.subperm (covered_nodup s) hsub
      have hperm : (covered s).Perm (allCells s.grid_w s.grid_h) :=
        hsp.perm_of_length_le (by rw [allCells_length]; omega)
      constructor
      · intro p
        rw [← mem_covered, ← allCells_mem s.grid_w s.grid_h p]
        exact hperm.mem_iff
      · intro kv hkv
        rw [List.all_eq_true] at hwin
        exact hwin kv hkv
  · rintro ⟨hcov, hcon⟩
    have hsub2 : ∀ x ∈ allCells s.grid_w s.grid_h, x ∈ covered s := by
      intro x hx
      rw [mem_covered]
      exact (hcov x).mpr ((allCells_mem _ _ x).mp hx)
    have h1 : (covered s).length ≤ (allCells s.grid_w s.grid_h).length :=
      Ga85.length_le_of_nodup_subset _ _ (covered_nodup s) hsub
    have h2 : (allCells s.grid_w s.grid_h).length ≤ (covered s).length :=
      Ga85.length_le_of_nodup_subset _ _ (allCells_nodup _ _) hsub2
    rw [allCells_length] at h1 h2
    rw [if_neg (by omega)]
    rw [List.all_eq_true]
    exact hcon

/-- C4 witness: a one-cell board whose single color has both endpoints
on that cell; coverage and connection hold and `_check_win` accepts. -/
theorem cd01_check_win_iff_witness :
    check_win
      { grid := [[1]], grid_w := 1, grid_h := 1,
        endpoints := [(1, ((0, 0), (0, 0)))], bridges := [],
        cursor_x := 0, cursor_y := 0, selected_color := 0,
        drawn_paths := [(1, [])] } 1 = true := by
  refine (cd01_check_win_iff
    { grid := [[1]], grid_w := 1, grid_h := 1,
      endpoints := [(1, ((0, 0), (0, 0)))], bridges := [],
      cursor_x := 0, cursor_y := 0, selected_color := 0,
      drawn_paths := [(1, [])] } 1 ?_).mpr ⟨?_, ?_⟩
  · intro p hp
    have hp0 : p = (0, 0) := by
      simpa [covered_mem] using hp
    subst hp0
    refine ⟨le_refl 0, ?_, le_refl 0, ?_⟩ <;> decide
  · intro p
    constructor
    · intro hp
      have hp0 : p = (0, 0) := by
        simpa [covered_mem] using hp
      subst hp0
      refine ⟨le_refl 0, ?_, le_refl 0, ?_⟩ <;> decide
    · rintro ⟨h1, h2, h3, h4⟩
      obtain ⟨x, y⟩ := p
      have hx : x = 0 := by simp at h1 h2; omega
      have hy : y = 0 := by simp at h3 h4; omega
      subst hx; subst hy
      simp [covered_mem]
  · decide

end Cd01

namespace Cd01

theorem append_extend_ok_spec (s : CdState) (d : Int × Int)
    (hok : append_extend_ok s d = true) :
    0 < s.selected_color ∧
    (0 ≤ s.cursor_x + d.1 ∧ s.cursor_x + d.1 < (s.grid_w : Int) ∧
      0 ≤ s.cursor_y + d.2 ∧ s.cursor_y + d.2 < (s.grid_h : Int)) ∧
    paths_get s.drawn_paths s.selected_color ≠ [] ∧
    (s.cursor_x + d.1, s.cursor_y + d.2) ∉
      paths_get s.drawn_paths s.selected_color ∧
    ((s.cursor_x + d.1, s.cursor_y + d.2) ≠
        (eps_get s.endpoints s.selected_color).1 ∧
      (s.cursor_x + d.1, s.cursor_y + d.2) ≠
        (eps_get s.endpoints s.selected_color).2) ∧
    (∀ kv ∈ s.drawn_paths, kv.1 ≠ s.selected_color →
      (s.cursor_x + d.1, s.cursor_y + d.2) ∉ kv.2) ∧
    (cellAt s.grid (s.cursor_y + d.2) (s.cursor_x + d.1) = 0 ∨
      ((s.cursor_x + d.1, s.cursor_y + d.2) ∈ s.bridges ∧
        cellAt s.grid (s.cursor_y + d.2) (s.cursor_x + d.1) ≠
          s.selected_color)) := by
  simp only [append_extend_ok, Bool.and_eq_true, Bool.or_eq_true,
    decide_eq_true_eq] at hok
  obtain ⟨⟨⟨⟨⟨⟨h1, h2⟩, h3⟩, h4⟩, h5⟩, h6⟩, h7⟩ := hok
  exact ⟨h1, h2, h3, h4, h5, h6, h7⟩

theorem extend_path_append (s : CdState) (d : Int × Int)
    (hok : append_extend_ok s d = true) :
    extend_path s d.1 d.2 =
      if cellAt s.grid (s.cursor_y + d.2) (s.cursor_x + d.1) = 0 then
        { s with
          drawn_paths := paths_set s.drawn_paths s.selected_color
            (paths_get s.drawn_paths s.selected_color ++
              [(s.cursor_x + d.1, s.cursor_y + d.2)]),
          grid := setAt s.grid (s.cursor_y + d.2) (s.cursor_x + d.1)
            s.selected_color,
          cursor_x := s.cursor_x + d.1,
          cursor_y := s.cursor_y + d.2 }
      else
        { s with
          drawn_paths := paths_set s.drawn_paths s.selected_color
            (paths_get s.drawn_paths s.selected_color ++
              [(s.cursor_x + d.1, s.cursor_y + d.2)]),
          cursor_x := s.cursor_x + d.1,
          cursor_y := s.cursor_y + d.2 } := by
  obtain ⟨h1, h2, h3, h4, h5, h6, h7⟩ := append_extend_ok_spec s d hok
  have hbs : ¬ (2 ≤ (paths_get s.drawn_paths s.selected_color).length ∧
      (paths_get s.drawn_paths s.selected_color)[(paths_get s.drawn_paths s.selected_color).length - 2]? =
        some (s.cursor_x + d.1, s.cursor_y + d.2)) := by
    rintro ⟨-, hh⟩
    exact h4 (List.getElem?_mem hh)
  have hcomp : (s.cursor_x + d.1, s.cursor_y + d.2) ≠
      (if (paths_get s.drawn_paths s.selected_color).headD (0, 0) =
          (eps_get s.endpoints s.selected_color).1 then
        (eps_get s.endpoints s.selected_color).2
      else (eps_get s.endpoints s.selected_color).1) := by
    by_cases hh : (paths_get s.drawn_paths s.selected_color).headD (0, 0) =
        (eps_get s.endpoints s.selected_color).1
    · rw [if_pos hh]; exact h5.2
    · rw [if_neg hh]; exact h5.1
  simp only [extend_path]
  rw [if_neg (not_not_intro h2), if_neg h3, if_neg hbs, if_neg h4,
    if_neg hcomp]
  by_cases hcell : cellAt s.grid (s.cursor_y + d.2) (s.cursor_x + d.1) = 0
  · rw [if_pos hcell, if_pos hcell]
  · rw [if_neg hcell, if_neg hcell, if_pos (h7.resolve_left hcell)]

end Cd01

namespace Cd01

theorem paths_set_get_eq_self (d : List (Nat × List (Int × Int))) (c : Nat)
    (hkeys : (d.map Prod.fst).Nodup) :
    paths_set d c (paths_get d c) = d := by
  apply paths_set_eq_self
  intro kv hkv hk
  rw [← hk]
  exact (paths_get_of_mem _ kv hkeys hkv).symm

theorem handle_undo_extend_path (s : CdState) (d : Int × Int)
    (hdims : GridDims s.grid s.grid_w s.grid_h)
    (hkeys : (s.drawn_paths.map Prod.fst).Nodup)
    (hok : append_extend_ok s d = true)
    (hcur : (paths_get s.drawn_paths s.selected_color).getLast? =
      some (s.cursor_x, s.cursor_y)) :
    handle_undo (extend_path s d.1 d.2) = s := by
  obtain ⟨h1, h2, h3, h4, h5, h6, h7⟩ := append_extend_ok_spec s d hok
  have hckey : s.selected_color ∈ s.drawn_paths.map Prod.fst := by
    by_contra hc
    exact h3 (paths_get_absent _ _ hc)
  have hDget : paths_get
      (paths_set s.drawn_paths s.selected_color
        (paths_get s.drawn_paths s.selected_color ++
          [(s.cursor_x + d.1, s.cursor_y + d.2)]))
      s.selected_color =
      paths_get s.drawn_paths s.selected_color ++
        [(s.cursor_x + d.1, s.cursor_y + d.2)] :=
    paths_get_set_self _ _ _ hckey
  have hlen : ¬ (paths_get s.drawn_paths s.selected_color ++
      [(s.cursor_x + d.1, s.cursor_y + d.2)]).length ≤ 1 := by
    rw [List.length_append]
    have := List.length_pos.mpr h3
    simp only [List.length_cons, List.length_nil]
    omega
  have hgl : (paths_get s.drawn_paths s.selected_color ++
      [(s.cursor_x + d.1, s.cursor_y + d.2)]).getLast? =
      some (s.cursor_x + d.1, s.cursor_y + d.2) := List.getLast?_concat _
  have hdl : (paths_get s.drawn_paths s.selected_color ++
      [(s.cursor_x + d.1, s.cursor_y + d.2)]).dropLast =
      paths_get s.drawn_paths s.selected_color := List.dropLast_concat
  have hDrestore : paths_set
      (paths_set s.drawn_paths s.selected_color
        (paths_get s.drawn_paths s.selected_color ++
          [(s.cursor_x + d.1, s.cursor_y + d.2)]))
      s.selected_color (paths_get s.drawn_paths s.selected_color) =
      s.drawn_paths := by
    rw [paths_set_set]
    exact paths_set_get_eq_self _ _ hkeys
  have heps : ¬ ((s.cursor_x + d.1, s.cursor_y + d.2) =
        (eps_get s.endpoints s.selected_color).1 ∨
      (s.cursor_x + d.1, s.cursor_y + d.2) =
        (eps_get s.endpoints s.selected_color).2) := by
    rintro (hh | hh)
    · exact h5.1 hh
    · exact h5.2 hh
  have hoc : other_occupant s.drawn_paths
      (s.cursor_x + d.1, s.cursor_y + d.2) s.selected_color = 0 :=
    other_occupant_eq_zero _ _ _ h6
  have hcne : ¬ s.selected_color = 0 := by omega
  rw [extend_path_append s d hok]
  by_cases hcell : cellAt s.grid (s.cursor_y + d.2) (s.cursor_x + d.1) = 0
  · rw [if_pos hcell]
    have hcset : cellAt
        (setAt s.grid (s.cursor_y + d.2) (s.cursor_x + d.1) s.selected_color)
        (s.cursor_y + d.2) (s.cursor_x + d.1) = s.selected_color :=
      cellAt_setAt_self hdims h2.2.2.1 h2.2.2.2 h2.1 h2.2.1 _
    have hgrestore :
        setAt (setAt s.grid (s.cursor_y + d.2) (s.cursor_x + d.1)
            s.selected_color) (s.cursor_y + d.2) (s.cursor_x + d.1) 0 =
        s.grid := by
      rw [setAt_setAt, ← hcell, setAt_cellAt_self]
    simp only [handle_undo, undo_last_cell, if_neg hcne, hDget, if_neg hlen,
      hgl, hdl, hDrestore, if_neg heps, hcset, if_pos rfl, hoc, hgrestore,
      hcur, if_true, if_false]
  · rw [if_neg hcell]
    have hbr := h7.resolve_left hcell
    simp only [handle_undo, undo_last_cell, if_neg hcne, hDget, if_neg hlen,
      hgl, hdl, hDrestore, if_neg heps, if_neg hbr.2, hcur]

end Cd01

namespace Cd01

theorem extend_path_append_facts (s : CdState) (d : Int × Int)
    (hdims : GridDims s.grid s.grid_w s.grid_h)
    (hkeys : (s.drawn_paths.map Prod.fst).Nodup)
    (hok : append_extend_ok s d = true) :
    GridDims (extend_path s d.1 d.2).grid (extend_path s d.1 d.2).grid_w
      (extend_path s d.1 d.2).grid_h ∧
    ((extend_path s d.1 d.2).drawn_paths.map Prod.fst).Nodup ∧
    (paths_get (extend_path s d.1 d.2).drawn_paths
        (extend_path s d.1 d.2).selected_color).getLast? =
      some ((extend_path s d.1 d.2).cursor_x,
        (extend_path s d.1 d.2).cursor_y) := by
  obtain ⟨h1, h2, h3, h4, h5, h6, h7⟩ := append_extend_ok_spec s d hok
  have hckey : s.selected_color ∈ s.drawn_paths.map Prod.fst := by
    by_contra hc
    exact h3 (paths_get_absent _ _ hc)
  rw [extend_path_append s d hok]
  by_cases hcell : cellAt s.grid (s.cursor_y + d.2) (s.cursor_x + d.1) = 0
  · rw [if_pos hcell]
    refine ⟨gridDims_setAt hdims _ _ _, ?_, ?_⟩
    · simpa [map_fst_paths_set] using hkeys
    · simp only [paths_get_set_self _ _ _ hckey, List.getLast?_concat]
  · rw [if_neg hcell]
    refine ⟨hdims, ?_, ?_⟩
    · simpa [map_fst_paths_set] using hkeys
    · simp only [paths_get_set_self _ _ _ hckey, List.getLast?_concat]

theorem applyUndos_succ (n : Nat) (s : CdState) :
    applyUndos (n + 1) s = handle_undo (applyUndos n s) := by
  induction n generalizing s with
  | zero => rfl
  | succ m ih =>
    show applyUndos (m + 1) (handle_undo s) = _
    rw [ih]
    rfl

/-- C3 counterexample: the claim quantifies over every Drawing-mode
state and every Extend sequence, but an Extend onto the second-to-last
path cell is a back-step that pops the path, and the matching Undo
then refuses to act on the one-cell path, so one Extend plus one Undo
shrinks the drawn path instead of restoring it. -/
theorem cd01_extend_undo_counterexample :
    (applyUndos 1 (applyExtends
        { grid := [[1, 1, 0], [0, 0, 0], [0, 0, 1]], grid_w := 3,
          grid_h := 3, endpoints := [(1, ((0, 0), (2, 2)))], bridges := [],
          cursor_x := 1, cursor_y := 0, selected_color := 1,
          drawn_paths := [(1, [(0, 0), (1, 0)])] }
        [((-1 : Int), (0 : Int))])).drawn_paths ≠
      [(1, [(0, 0), (1, 0)])] := by
  decide

/-- C3 (corrected): Undo inverts the appending Extend calls — for every
well-formed Drawing-mode state (grid dimensions as declared, path
dictionary keyed without duplicates, cursor on the end of the selected
path) and every sequence of Extend calls each of which appends a fresh
cell (in bounds, no back-step, not re-entering any path, not an
endpoint of its own color, landing on an empty cell or a free bridge),
running the Extends and then equally many Undos restores the entire
state: drawn paths, grid occupancy, cursor, and selection.  Back-step
Extends and completing Extends are excluded: the former already pop
the path (see the counterexample) and the latter leave Drawing mode. -/
theorem cd01_extend_undo_inverse (s : CdState) (ds : List (Int × Int))
    (hdims : GridDims s.grid s.grid_w s.grid_h)
    (hkeys : (s.drawn_paths.map Prod.fst).Nodup)
    (hcur : (paths_get s.drawn_paths s.selected_color).getLast? =
      some (s.cursor_x, s.cursor_y))
    (hseq : append_seq_ok s ds = true) :
    applyUndos ds.length (applyExtends s ds) = s := by
  induction ds generalizing s with
  | nil => rfl
  | cons d ds ih =>
    simp only [append_seq_ok, Bool.and_eq_true] at hseq
    obtain ⟨hok, hrest⟩ := hseq
    obtain ⟨hdims2, hkeys2, hcur2⟩ := extend_path_append_facts s d hdims hkeys hok
    have hgw : (extend_path s d.1 d.2).grid_w = s.grid_w := by
      rw [extend_path_append s d hok]
      by_cases hcell : cellAt s.grid (s.cursor_y + d.2) (s.cursor_x + d.1) = 0
      · rw [if_pos hcell]
      · rw [if_neg hcell]
    have hgh : (extend_path s d.1 d.2).grid_h = s.grid_h := by
      rw [extend_path_append s d hok]
      by_cases hcell : cellAt s.grid (s.cursor_y + d.2) (s.cursor_x + d.1) = 0
      · rw [if_pos hcell]
      · rw [if_neg hcell]
    have hrec := ih (extend_path s d.1 d.2) hdims2 hkeys2 hcur2 hrest
    show applyUndos (ds.length + 1) (applyExtends (extend_path s d.1 d.2) ds) = s
    rw [applyUndos_succ, hrec]
    exact handle_undo_extend_path s d hdims hkeys hok hcur

/-- C3 witness: one appending Extend to the right followed by one Undo
restores the concrete starting state. -/
theorem cd01_extend_undo_inverse_witness :
    applyUndos 1 (applyExtends
        { grid := [[1, 0], [0, 1]], grid_w := 2, grid_h := 2,
          endpoints := [(1, ((0, 0), (1, 1)))], bridges := [],
          cursor_x := 0, cursor_y := 0, selected_color := 1,
          drawn_paths := [(1, [(0, 0)])] } [((1 : Int), (0 : Int))]) =
      { grid := [[1, 0], [0, 1]], grid_w := 2, grid_h := 2,
        endpoints := [(1, ((0, 0), (1, 1)))], bridges := [],
        cursor_x := 0, cursor_y := 0, selected_color := 1,
        drawn_paths := [(1, [(0, 0)])] } := by
  have h := cd01_extend_undo_inverse
    { grid := [[1, 0], [0, 1]], grid_w := 2, grid_h := 2,
      endpoints := [(1, ((0, 0), (1, 1)))], bridges := [],
      cursor_x := 0, cursor_y := 0, selected_color := 1,
      drawn_paths := [(1, [(0, 0)])] } [((1 : Int), (0 : Int))]
    (by constructor <;> decide) (by decide) (by decide) (by decide)
  simpa using h

end Cd01

namespace Cd01

theorem pair_ne_flip {a b : Int × Int} (h : a ≠ b) : ¬ (a.2 = b.2 ∧ a.1 = b.1) := by
  rintro ⟨h2, h1⟩
  obtain ⟨a1, a2⟩ := a
  obtain ⟨b1, b2⟩ := b
  simp only [] at h1 h2
  exact h (by rw [h1, h2])

theorem getLast?_not_mem_dropLast (l : List (Int × Int)) (u : Int × Int)
    (hnd : l.Nodup) (hgl : l.getLast? = some u) : u ∉ l.dropLast := by
  have hap := List.dropLast_append_getLast? u hgl
  rw [← hap, List.nodup_append] at hnd
  intro hm
  exact hnd.2.2 hm (by simp)

theorem Inv_undo_last_cell (s : CdState) (c : Nat) (hInv : Inv s) :
    Inv (undo_last_cell s c) := by
  obtain ⟨hHD, hEPN, hKNZ, hKND, hDK, hSEL, hI1, hI2, hI3, hI4⟩ := hInv
  cases hgl : (paths_get s.drawn_paths c).getLast? with
  | none =>
    simp only [undo_last_cell, hgl]
    exact ⟨hHD, hEPN, hKNZ, hKND, hDK, hSEL, hI1, hI2, hI3, hI4⟩
  | some u =>
    simp only [undo_last_cell, hgl]
    have humem : u ∈ paths_get s.drawn_paths c := List.mem_of_mem_getLast? hgl
    have hckey : c ∈ s.drawn_paths.map Prod.fst := by
      by_contra hc
      rw [paths_get_absent _ _ hc] at humem
      simp at humem
    have hD'get_c : paths_get
        (paths_set s.drawn_paths c (paths_get s.drawn_paths c).dropLast) c =
        (paths_get s.drawn_paths c).dropLast :=
      paths_get_set_self _ _ _ hckey
    have hD'sub : ∀ c2 q, q ∈ paths_get
        (paths_set s.drawn_paths c (paths_get s.drawn_paths c).dropLast) c2 →
        q ∈ paths_get s.drawn_paths c2 := by
      intro c2 q hq
      by_cases h : c2 = c
      · subst h
        rw [hD'get_c] at hq
        exact (List.dropLast_sublist _).subset hq
      · rwa [paths_get_set_ne _ _ _ _ h] at hq
    have hbuild : ∀ X, GridDims X s.grid_w s.grid_h →
        (∀ kv ∈ s.endpoints, cellAt X kv.2.1.2 kv.2.1.1 = kv.1 ∧
          cellAt X kv.2.2.2 kv.2.2.1 = kv.1) →
        (∀ c2, ∀ q ∈ paths_get
            (paths_set s.drawn_paths c (paths_get s.drawn_paths c).dropLast) c2,
          (∃ kv ∈ s.endpoints, kv.1 = c2 ∧ (q = kv.2.1 ∨ q = kv.2.2)) ∨
            q ∈ s.bridges ∨ cellAt X q.2 q.1 = c2) →
        Inv { s with
              drawn_paths :=
                paths_set s.drawn_paths c (paths_get s.drawn_paths c).dropLast,
              grid := X } := by
      intro X hXD hXI3 hXI4
      refine ⟨hXD, hEPN, hKNZ, hKND, ?_, hSEL, ?_, ?_, hXI3, hXI4⟩
      · show (paths_set s.drawn_paths c
            (paths_get s.drawn_paths c).dropLast).map Prod.fst =
          s.endpoints.map Prod.fst
        rw [map_fst_paths_set]
        exact hDK
      · intro c2
        by_cases h : c2 = c
        · subst h
          rw [hD'get_c]
          exact List.Nodup.sublist (List.dropLast_sublist _) (hI1 c2)
        · show (paths_get (paths_set s.drawn_paths c
            (paths_get s.drawn_paths c).dropLast) c2).Nodup
          rw [paths_get_set_ne _ _ _ _ h]
          exact hI1 c2
      · intro c1 c2 hne q h1 h2
        exact hI2 c1 c2 hne q (hD'sub c1 q h1) (hD'sub c2 q h2)
    by_cases hep : u = (eps_get s.endpoints c).1 ∨ u = (eps_get s.endpoints c).2
    · rw [if_pos hep]
      exact hbuild s.grid hHD hI3 (fun c2 q hq => hI4 c2 q (hD'sub c2 q hq))
    · rw [if_neg hep]
      by_cases hcell : cellAt s.grid u.2 u.1 = c
      · rw [if_pos hcell]
        have hepcell : ∀ kv ∈ s.endpoints, kv.2.1 ≠ u ∧ kv.2.2 ≠ u := by
          intro kv hkv
          constructor <;> intro hequ
          · have h3 := (hI3 kv hkv).1
            rw [hequ] at h3
            have hkc : kv.1 = c := by rw [← h3, hcell]
            have hget := eps_get_of_mem _ kv hKND hkv
            rw [hkc] at hget
            exact hep (Or.inl (by rw [hget, ← hequ]))
          · have h3 := (hI3 kv hkv).2
            rw [hequ] at h3
            have hkc : kv.1 = c := by rw [← h3, hcell]
            have hget := eps_get_of_mem _ kv hKND hkv
            rw [hkc] at hget
            exact hep (Or.inr (by rw [hget, ← hequ]))
        have hXI3 : ∀ kv ∈ s.endpoints,
            cellAt (setAt s.grid u.2 u.1
              (other_occupant
                (paths_set s.drawn_paths c (paths_get s.drawn_paths c).dropLast)
                u c)) kv.2.1.2 kv.2.1.1 = kv.1 ∧
            cellAt (setAt s.grid u.2 u.1
              (other_occupant
                (paths_set s.drawn_paths c (paths_get s.drawn_paths c).dropLast)
                u c)) kv.2.2.2 kv.2.2.1 = kv.1 := by
          intro kv hkv
          have h := hI3 kv hkv
          have hne := hepcell kv hkv
          constructor
          · rw [cellAt_setAt_ne (pair_ne_flip hne.1) _]
            exact h.1
          · rw [cellAt_setAt_ne (pair_ne_flip hne.2) _]
            exact h.2
        have hunodup : u ∉ (paths_get s.drawn_paths c).dropLast :=
          getLast?_not_mem_dropLast _ _ (hI1 c) hgl
        have hXI4 : ∀ c2, ∀ q ∈ paths_get
            (paths_set s.drawn_paths c (paths_get s.drawn_paths c).dropLast) c2,
            (∃ kv ∈ s.endpoints, kv.1 = c2 ∧ (q = kv.2.1 ∨ q = kv.2.2)) ∨
              q ∈ s.bridges ∨
              cellAt (setAt s.grid u.2 u.1
                (other_occupant
                  (paths_set s.drawn_paths c
                    (paths_get s.drawn_paths c).dropLast) u c)) q.2 q.1 = c2 := by
          intro c2 q hq
          rcases hI4 c2 q (hD'sub c2 q hq) with h | h | h
          · exact Or.inl h
          · exact Or.inr (Or.inl h)
          · by_cases hqu : q = u
            · subst hqu
              have hc2 : c2 = c := by rw [← h, hcell]
              subst hc2
              rw [hD'get_c] at hq
              exact absurd hq hunodup
            · refine Or.inr (Or.inr ?_)
              rw [cellAt_setAt_ne (pair_ne_flip hqu) _]
              exact h
        exact hbuild _ (gridDims_setAt hHD _ _ _) hXI3 hXI4
      · rw [if_neg hcell]
        exact hbuild s.grid hHD hI3 (fun c2 q hq => hI4 c2 q (hD'sub c2 q hq))

end Cd01

namespace Cd01

theorem clear_cells_dims {pw ph : Nat} (e : (Int × Int) × (Int × Int)) (c : Nat)
    (d : List (Nat × List (Int × Int))) (ps : List (Int × Int))
    (g : List (List Nat)) (h : GridDims g pw ph) :
    GridDims (clear_cells e c d g ps) pw ph := by
  induction ps generalizing g with
  | nil => exact h
  | cons p rest ih =>
    simp only [clear_cells]
    by_cases h1 : p = e.1 ∨ p = e.2
    · rw [if_pos h1]
      exact ih _ h
    · rw [if_neg h1]
      by_cases h2 : cellAt g p.2 p.1 = c
      · rw [if_pos h2]
        exact ih _ (gridDims_setAt h _ _ _)
      · rw [if_neg h2]
        exact ih _ h

theorem clear_cells_cellAt_of_not_mem (e : (Int × Int) × (Int × Int)) (c : Nat)
    (d : List (Nat × List (Int × Int))) (ps : List (Int × Int))
    (g : List (List Nat)) (q : Int × Int) (hq : q ∉ ps) :
    cellAt (clear_cells e c d g ps) q.2 q.1 = cellAt g q.2 q.1 := by
  induction ps generalizing g with
  | nil => rfl
  | cons p rest ih =>
    simp only [List.mem_cons, not_or] at hq
    simp only [clear_cells]
    by_cases h1 : p = e.1 ∨ p = e.2
    · rw [if_pos h1]
      exact ih _ hq.2
    · rw [if_neg h1]
      by_cases h2 : cellAt g p.2 p.1 = c
      · rw [if_pos h2]
        rw [ih _ hq.2, cellAt_setAt_ne (pair_ne_flip hq.1) _]
      · rw [if_neg h2]
        exact ih _ hq.2

theorem clear_cells_cellAt_ep (e : (Int × Int) × (Int × Int)) (c : Nat)
    (d : List (Nat × List (Int × Int))) (ps : List (Int × Int))
    (g : List (List Nat)) (q : Int × Int) (hq : q = e.1 ∨ q = e.2) :
    cellAt (clear_cells e c d g ps) q.2 q.1 = cellAt g q.2 q.1 := by
  induction ps generalizing g with
  | nil => rfl
  | cons p rest ih =>
    simp only [clear_cells]
    by_cases h1 : p = e.1 ∨ p = e.2
    · rw [if_pos h1]
      exact ih _
    · rw [if_neg h1]
      by_cases h2 : cellAt g p.2 p.1 = c
      · rw [if_pos h2]
        have hne : q ≠ p := by
          rintro rfl
          exact h1 hq
        rw [ih _, cellAt_setAt_ne (pair_ne_flip hne) _]
      · rw [if_neg h2]
        exact ih _

theorem clear_cells_cellAt_ne_c (e : (Int × Int) × (Int × Int)) (c : Nat)
    (d : List (Nat × List (Int × Int))) (ps : List (Int × Int))
    (g : List (List Nat)) (q : Int × Int) (hq : cellAt g q.2 q.1 ≠ c) :
    cellAt (clear_cells e c d g ps) q.2 q.1 = cellAt g q.2 q.1 := by
  induction ps generalizing g with
  | nil => rfl
  | cons p rest ih =>
    simp only [clear_cells]
    by_cases h1 : p = e.1 ∨ p = e.2
    · rw [if_pos h1]
      exact ih _ hq
    · rw [if_neg h1]
      by_cases h2 : cellAt g p.2 p.1 = c
      · rw [if_pos h2]
        have hne : q ≠ p := by
          rintro rfl
          exact hq h2
        rw [ih _ (by rw [cellAt_setAt_ne (pair_ne_flip hne) _]; exact hq),
          cellAt_setAt_ne (pair_ne_flip hne) _]
      · rw [if_neg h2]
        exact ih _ hq

theorem Inv_clear_drawn_path (s : CdState) (c : Nat) (hc : c ≠ 0)
    (hInv : Inv s) : Inv (clear_drawn_path s c) := by
  obtain ⟨hHD, hEPN, hKNZ, hKND, hDK, hSEL, hI1, hI2, hI3, hI4⟩ := hInv
  simp only [clear_drawn_path]
  have hG := clear_cells_dims (eps_get s.endpoints c) c s.drawn_paths
    (paths_get s.drawn_paths c) s.grid hHD
  refine ⟨hG, hEPN, hKNZ, hKND, ?_, hSEL, ?_, ?_, ?_, ?_⟩
  · show (paths_set s.drawn_paths c []).map Prod.fst = s.endpoints.map Prod.fst
    rw [map_fst_paths_set]
    exact hDK
  · intro c2
    show (paths_get (paths_set s.drawn_paths c []) c2).Nodup
    by_cases h : c2 = c
    · subst h
      by_cases hk : c2 ∈ s.drawn_paths.map Prod.fst
      · rw [paths_get_set_self _ _ _ hk]
        exact List.nodup_nil
      · rw [paths_get_absent _ _ (by rwa [map_fst_paths_set])]
        exact List.nodup_nil
    · rw [paths_get_set_ne _ _ _ _ h]
      exact hI1 c2
  · intro c1 c2 hne q h1 h2
    have hs : ∀ c3 q2, q2 ∈ paths_get (paths_set s.drawn_paths c []) c3 →
        q2 ∈ paths_get s.drawn_paths c3 := by
      intro c3 q2 hq2
      by_cases h : c3 = c
      · subst h
        by_cases hk : c3 ∈ s.drawn_paths.map Prod.fst
        · rw [paths_get_set_self _ _ _ hk] at hq2
          simp at hq2
        · rw [paths_get_absent _ _ (by rwa [map_fst_paths_set])] at hq2
          simp at hq2
      · rwa [paths_get_set_ne _ _ _ _ h] at hq2
    exact hI2 c1 c2 hne q (hs c1 q h1) (hs c2 q h2)
  · intro kv hkv
    have h := hI3 kv hkv
    by_cases hkc : kv.1 = c
    · have hget := eps_get_of_mem _ kv hKND hkv
      rw [hkc] at hget
      constructor
      · rw [clear_cells_cellAt_ep _ _ _ _ _ _ (Or.inl (by rw [hget]))]
        exact h.1
      · rw [clear_cells_cellAt_ep _ _ _ _ _ _ (Or.inr (by rw [hget]))]
        exact h.2
    · constructor
      · rw [clear_cells_cellAt_ne_c _ _ _ _ _ _ (by rw [h.1]; exact hkc)]
        exact h.1
      · rw [clear_cells_cellAt_ne_c _ _ _ _ _ _ (by rw [h.2]; exact hkc)]
        exact h.2
  · intro c2 q hq
    by_cases h : c2 = c
    · subst h
      by_cases hk : c2 ∈ s.drawn_paths.map Prod.fst
      · rw [paths_get_set_self _ _ _ hk] at hq
        simp at hq
      · rw [paths_get_absent _ _ (by rwa [map_fst_paths_set])] at hq
        simp at hq
    · rw [paths_get_set_ne _ _ _ _ h] at hq
      rcases hI4 c2 q hq with h4 | h4 | h4
      · exact Or.inl h4
      · exact Or.inr (Or.inl h4)
      · refine Or.inr (Or.inr ?_)
        rw [clear_cells_cellAt_ne_c _ _ _ _ _ _ (by rw [h4]; exact h)]
        exact h4

end Cd01

namespace Cd01

theorem Inv_move_cursor (s : CdState) (dx dy : Int) (hInv : Inv s) :
    Inv (move_cursor s dx dy) := by
  simp only [move_cursor]
  split
  · exact hInv
  · exact hInv

theorem Inv_handle_undo (s : CdState) (hInv : Inv s) : Inv (handle_undo s) := by
  simp only [handle_undo]
  by_cases h0 : s.selected_color = 0
  · rw [if_pos h0]
    exact hInv
  · rw [if_neg h0]
    by_cases h1 : (paths_get s.drawn_paths s.selected_color).length ≤ 1
    · rw [if_pos h1]
      exact hInv
    · rw [if_neg h1]
      have h2 := Inv_undo_last_cell s s.selected_color hInv
      cases hgl : (paths_get (undo_last_cell s s.selected_color).drawn_paths
          (undo_last_cell s s.selected_color).selected_color).getLast? with
      | none =>
        simp only [hgl]
        exact h2
      | some last =>
        simp only [hgl]
        exact h2

theorem Inv_handle_select (s : CdState) (hInv : Inv s) :
    Inv (handle_select s) := by
  obtain ⟨hHD, hEPN, hKNZ, hKND, hDK, hSEL, hI1, hI2, hI3, hI4⟩ := hInv
  simp only [handle_select]
  by_cases h0 : 0 < s.selected_color
  · rw [if_pos h0]
    exact ⟨hHD, hEPN, hKNZ, hKND, hDK, Or.inl rfl, hI1, hI2, hI3, hI4⟩
  · rw [if_neg h0]
    cases hfind : s.endpoints.find? (fun kv =>
        (s.cursor_x, s.cursor_y) == kv.2.1 || (s.cursor_x, s.cursor_y) == kv.2.2) with
    | none =>
      exact ⟨hHD, hEPN, hKNZ, hKND, hDK, hSEL, hI1, hI2, hI3, hI4⟩
    | some kv =>
      have hkv : kv ∈ s.endpoints := List.mem_of_find?_eq_some hfind
      have hpos : (s.cursor_x, s.cursor_y) = kv.2.1 ∨
          (s.cursor_x, s.cursor_y) = kv.2.2 := by
        have := List.find?_some hfind
        simpa using this
      have hclear := Inv_clear_drawn_path s kv.1 (hKNZ kv hkv) 
        ⟨hHD, hEPN, hKNZ, hKND, hDK, hSEL, hI1, hI2, hI3, hI4⟩
      obtain ⟨cHD, cEPN, cKNZ, cKND, cDK, cSEL, cI1, cI2, cI3, cI4⟩ := hclear
      have hkeys : kv.1 ∈ (clear_drawn_path s kv.1).drawn_paths.map Prod.fst := by
        rw [cDK]
        have hend : (clear_drawn_path s kv.1).endpoints = s.endpoints := rfl
        rw [hend]
        exact List.mem_map_of_mem Prod.fst hkv
      have hend : (clear_drawn_path s kv.1).endpoints = s.endpoints := rfl
      have hgrid3 : ∀ kv2 ∈ s.endpoints,
          cellAt (clear_drawn_path s kv.1).grid kv2.2.1.2 kv2.2.1.1 = kv2.1 ∧
          cellAt (clear_drawn_path s kv.1).grid kv2.2.2.2 kv2.2.2.1 = kv2.1 := by
        intro kv2 hkv2
        exact cI3 kv2 (by rwa [hend])
      refine ⟨cHD, cEPN, cKNZ, cKND, ?_, ?_, ?_, ?_, cI3, ?_⟩
      · show (paths_set (clear_drawn_path s kv.1).drawn_paths kv.1
            [(s.cursor_x, s.cursor_y)]).map Prod.fst =
          (clear_drawn_path s kv.1).endpoints.map Prod.fst
        rw [map_fst_paths_set]
        exact cDK
      · refine Or.inr ?_
        rw [hend]
        exact List.mem_map_of_mem Prod.fst hkv
      · intro c2
        show (paths_get (paths_set (clear_drawn_path s kv.1).drawn_paths kv.1
            [(s.cursor_x, s.cursor_y)]) c2).Nodup
        by_cases h : c2 = kv.1
        · subst h
          rw [paths_get_set_self _ _ _ hkeys]
          simp
        · rw [paths_get_set_ne _ _ _ _ h]
          exact cI1 c2
      · intro c1 c2 hne q h1 h2
        have key : ∀ c3 c4, c3 ≠ c4 → c3 = kv.1 →
            q ∈ paths_get (paths_set (clear_drawn_path s kv.1).drawn_paths kv.1
              [(s.cursor_x, s.cursor_y)]) c3 →
            q ∈ paths_get (paths_set (clear_drawn_path s kv.1).drawn_paths kv.1
              [(s.cursor_x, s.cursor_y)]) c4 →
            q ∈ (clear_drawn_path s kv.1).bridges := by
          intro c3 c4 hne34 he3 hq3 hq4
          subst he3
          rw [paths_get_set_self _ _ _ hkeys] at hq3
          have hq : q = (s.cursor_x, s.cursor_y) := by simpa using hq3
          subst hq
          rw [paths_get_set_ne _ _ _ _ (fun hh => hne34 hh.symm)] at hq4
          rcases cI4 c4 _ hq4 with h4 | h4 | h4
          · obtain ⟨kv2, hkv2, hc4, hcell⟩ := h4
            exfalso
            have : kv2 = kv :=
              ep_cells_inj s.endpoints hEPN kv2 kv (s.cursor_x, s.cursor_y)
                (by rwa [hend] at hkv2) hkv hcell hpos
            rw [← this] at hne34
            exact hne34 hc4
          · exact h4
          · exfalso
            have hc3 : cellAt (clear_drawn_path s kv.1).grid s.cursor_y s.cursor_x
                = kv.1 := by
              rcases hpos with hh | hh
              · have := (hgrid3 kv hkv).1
                rw [← hh] at this
                exact this
              · have := (hgrid3 kv hkv).2
                rw [← hh] at this
                exact this
            rw [hc3] at h4
            exact hne34 h4
        by_cases he1 : c1 = kv.1
        · exact key c1 c2 hne he1 h1 h2
        · by_cases he2 : c2 = kv.1
          · exact key c2 c1 (fun hh => hne hh.symm) he2 h2 h1
          · rw [paths_get_set_ne _ _ _ _ he1] at h1
            rw [paths_get_set_ne _ _ _ _ he2] at h2
            exact cI2 c1 c2 hne q h1 h2
      · intro c2 q hq
        by_cases h : c2 = kv.1
        · subst h
          rw [paths_get_set_self _ _ _ hkeys] at hq
          have hq2 : q = (s.cursor_x, s.cursor_y) := by simpa using hq
          subst hq2
          refine Or.inl ⟨kv, by rwa [hend], rfl, ?_⟩
          rcases hpos with hh | hh
          · exact Or.inl hh
          · exact Or.inr hh
        · rw [paths_get_set_ne _ _ _ _ h] at hq
          exact cI4 c2 q hq

end Cd01

namespace Cd01

theorem nodup_path_concat (l : List (Int × Int)) (t : Int × Int)
    (hnd : l.Nodup) (hmem : t ∉ l) : (l ++ [t]).Nodup := by
  rw [List.nodup_append]
  refine ⟨hnd, List.nodup_singleton _, ?_⟩
  intro a ha hb
  rw [List.mem_singleton] at hb
  subst hb
  exact hmem ha

theorem Inv_extend_complete (s : CdState) (tx ty : Int) (hInv : Inv s)
    (hpath : paths_get s.drawn_paths s.selected_color ≠ [])
    (hmem : (tx, ty) ∉ paths_get s.drawn_paths s.selected_color)
    (ht : (tx, ty) = (eps_get s.endpoints s.selected_color).1 ∨
      (tx, ty) = (eps_get s.endpoints s.selected_color).2) :
    Inv { s with
          drawn_paths := paths_set s.drawn_paths s.selected_color
            (paths_get s.drawn_paths s.selected_color ++ [(tx, ty)]),
          cursor_x := tx, cursor_y := ty, selected_color := 0 } := by
  obtain ⟨hHD, hEPN, hKNZ, hKND, hDK, hSEL, hI1, hI2, hI3, hI4⟩ := hInv
  have hckey : s.selected_color ∈ s.drawn_paths.map Prod.fst := by
    by_contra hc
    exact hpath (paths_get_absent _ _ hc)
  obtain ⟨kv, hkv, hfst⟩ : ∃ kv ∈ s.endpoints, kv.1 = s.selected_color := by
    rw [hDK] at hckey
    obtain ⟨kv, hkv, hfst⟩ := List.mem_map.mp hckey
    exact ⟨kv, hkv, hfst⟩
  have hget : eps_get s.endpoints s.selected_color = kv.2 := by
    rw [← hfst]
    exact eps_get_of_mem _ kv hKND hkv
  have htcell : (tx, ty) = kv.2.1 ∨ (tx, ty) = kv.2.2 := by
    rw [hget] at ht
    exact ht
  have hDget : paths_get (paths_set s.drawn_paths s.selected_color
      (paths_get s.drawn_paths s.selected_color ++ [(tx, ty)]))
      s.selected_color =
      paths_get s.drawn_paths s.selected_color ++ [(tx, ty)] :=
    paths_get_set_self _ _ _ hckey
  have hkey_t : ∀ c2, c2 ≠ s.selected_color →
      (tx, ty) ∈ paths_get s.drawn_paths c2 → (tx, ty) ∈ s.bridges := by
    intro c2 hne hmem2
    rcases hI4 c2 _ hmem2 with h4 | h4 | h4
    · obtain ⟨kv2, hkv2, hc2, hcells⟩ := h4
      exfalso
      have heq : kv2 = kv :=
        ep_cells_inj s.endpoints hEPN kv2 kv (tx, ty) hkv2 hkv
          (by rcases hcells with hh | hh
              · exact Or.inl hh
              · exact Or.inr hh)
          (by rcases htcell with hh | hh
              · exact Or.inl hh
              · exact Or.inr hh)
      rw [heq, hfst] at hc2
      exact hne hc2.symm
    · exact h4
    · exfalso
      have hc : cellAt s.grid ty tx = kv.1 := by
        rcases htcell with hh | hh
        · have := (hI3 kv hkv).1
          rw [← hh] at this
          exact this
        · have := (hI3 kv hkv).2
          rw [← hh] at this
          exact this
      rw [hc, hfst] at h4
      exact hne h4.symm
  refine ⟨hHD, hEPN, hKNZ, hKND, ?_, Or.inl rfl, ?_, ?_, hI3, ?_⟩
  · show (paths_set s.drawn_paths s.selected_color
        (paths_get s.drawn_paths s.selected_color ++ [(tx, ty)])).map Prod.fst =
      s.endpoints.map Prod.fst
    rw [map_fst_paths_set]
    exact hDK
  · intro c2
    show (paths_get (paths_set s.drawn_paths s.selected_color
        (paths_get s.drawn_paths s.selected_color ++ [(tx, ty)])) c2).Nodup
    by_cases h : c2 = s.selected_color
    · subst h
      rw [hDget]
      exact nodup_path_concat _ _ (hI1 s.selected_color) hmem
    · rw [paths_get_set_ne _ _ _ _ h]
      exact hI1 c2
  · intro c1 c2 hne q h1 h2
    show q ∈ s.bridges
    have key : ∀ c3 c4, c3 ≠ c4 → c3 = s.selected_color →
        q ∈ paths_get (paths_set s.drawn_paths s.selected_color
          (paths_get s.drawn_paths s.selected_color ++ [(tx, ty)])) c3 →
        q ∈ paths_get (paths_set s.drawn_paths s.selected_color
          (paths_get s.drawn_paths s.selected_color ++ [(tx, ty)])) c4 →
        q ∈ s.bridges := by
      intro c3 c4 hne34 he3 h3 h4
      subst he3
      rw [hDget] at h3
      rw [paths_get_set_ne _ _ _ _ (fun hh => hne34 hh.symm)] at h4
      rcases List.mem_append.mp h3 with h3 | h3
      · exact hI2 s.selected_color c4 hne34 q h3 h4
      · rw [List.mem_singleton] at h3
        subst h3
        exact hkey_t c4 (fun hh => hne34 hh.symm) h4
    by_cases he1 : c1 = s.selected_color
    · exact key c1 c2 hne he1 h1 h2
    · by_cases he2 : c2 = s.selected_color
      · exact key c2 c1 (fun hh => hne hh.symm) he2 h2 h1
      · rw [paths_get_set_ne _ _ _ _ he1] at h1
        rw [paths_get_set_ne _ _ _ _ he2] at h2
        exact hI2 c1 c2 hne q h1 h2
  · intro c2 q hq
    by_cases h : c2 = s.selected_color
    · subst h
      rw [hDget] at hq
      rcases List.mem_append.mp hq with hq | hq
      · exact hI4 s.selected_color q hq
      · rw [List.mem_singleton] at hq
        subst hq
        exact Or.inl ⟨kv, hkv, hfst, htcell⟩
    · rw [paths_get_set_ne _ _ _ _ h] at hq
      exact hI4 c2 q hq

end Cd01

namespace Cd01

theorem Inv_extend_empty (s : CdState) (tx ty : Int) (hInv : Inv s)
    (hb : 0 ≤ tx ∧ tx < (s.grid_w : Int) ∧ 0 ≤ ty ∧ ty < (s.grid_h : Int))
    (hpath : paths_get s.drawn_paths s.selected_color ≠ [])
    (hmem : (tx, ty) ∉ paths_get s.drawn_paths s.selected_color)
    (hcell : cellAt s.grid ty tx = 0) :
    Inv { s with
          drawn_paths := paths_set s.drawn_paths s.selected_color
            (paths_get s.drawn_paths s.selected_color ++ [(tx, ty)]),
          grid := setAt s.grid ty tx s.selected_color,
          cursor_x := tx, cursor_y := ty } := by
  obtain ⟨hHD, hEPN, hKNZ, hKND, hDK, hSEL, hI1, hI2, hI3, hI4⟩ := hInv
  have hckey : s.selected_color ∈ s.drawn_paths.map Prod.fst := by
    by_contra hc
    exact hpath (paths_get_absent _ _ hc)
  have hDget : paths_get (paths_set s.drawn_paths s.selected_color
      (paths_get s.drawn_paths s.selected_color ++ [(tx, ty)]))
      s.selected_color =
      paths_get s.drawn_paths s.selected_color ++ [(tx, ty)] :=
    paths_get_set_self _ _ _ hckey
  have hepcell : ∀ kv ∈ s.endpoints, kv.2.1 ≠ (tx, ty) ∧ kv.2.2 ≠ (tx, ty) := by
    intro kv hkv
    constructor <;> intro hequ
    · have h3 := (hI3 kv hkv).1
      rw [hequ] at h3
      simp only [] at h3
      rw [hcell] at h3
      exact hKNZ kv hkv h3.symm
    · have h3 := (hI3 kv hkv).2
      rw [hequ] at h3
      simp only [] at h3
      rw [hcell] at h3
      exact hKNZ kv hkv h3.symm
  have hkey_t : ∀ c2, (tx, ty) ∈ paths_get s.drawn_paths c2 →
      (tx, ty) ∈ s.bridges := by
    intro c2 hmem2
    rcases hI4 c2 _ hmem2 with h4 | h4 | h4
    · obtain ⟨kv2, hkv2, hc2, hcells⟩ := h4
      exfalso
      rcases hcells with hh | hh
      · exact (hepcell kv2 hkv2).1 hh.symm
      · exact (hepcell kv2 hkv2).2 hh.symm
    · exact h4
    · exfalso
      rw [hcell] at h4
      have hkc2 : c2 ∈ s.drawn_paths.map Prod.fst := by
        by_contra hc
        rw [paths_get_absent _ _ hc] at hmem2
        simp at hmem2
      rw [hDK] at hkc2
      obtain ⟨kv2, hkv2, hfst2⟩ := List.mem_map.mp hkc2
      rw [← h4] at hfst2
      exact hKNZ kv2 hkv2 hfst2
  refine ⟨gridDims_setAt hHD _ _ _, hEPN, hKNZ, hKND, ?_, hSEL, ?_, ?_, ?_, ?_⟩
  · show (paths_set s.drawn_paths s.selected_color
        (paths_get s.drawn_paths s.selected_color ++ [(tx, ty)])).map Prod.fst =
      s.endpoints.map Prod.fst
    rw [map_fst_paths_set]
    exact hDK
  · intro c2
    show (paths_get (paths_set s.drawn_paths s.selected_color
        (paths_get s.drawn_paths s.selected_color ++ [(tx, ty)])) c2).Nodup
    by_cases h : c2 = s.selected_color
    · subst h
      rw [hDget]
      exact nodup_path_concat _ _ (hI1 s.selected_color) hmem
    · rw [paths_get_set_ne _ _ _ _ h]
      exact hI1 c2
  · intro c1 c2 hne q h1 h2
    show q ∈ s.bridges
    have key : ∀ c3 c4, c3 ≠ c4 → c3 = s.selected_color →
        q ∈ paths_get (paths_set s.drawn_paths s.selected_color
          (paths_get s.drawn_paths s.selected_color ++ [(tx, ty)])) c3 →
        q ∈ paths_get (paths_set s.drawn_paths s.selected_color
          (paths_get s.drawn_paths s.selected_color ++ [(tx, ty)])) c4 →
        q ∈ s.bridges := by
      intro c3 c4 hne34 he3 h3 h4
      subst he3
      rw [hDget] at h3
      rw [paths_get_set_ne _ _ _ _ (fun hh => hne34 hh.symm)] at h4
      rcases List.mem_append.mp h3 with h3 | h3
      · exact hI2 s.selected_color c4 hne34 q h3 h4
      · rw [List.mem_singleton] at h3
        subst h3
        exact hkey_t c4 h4
    by_cases he1 : c1 = s.selected_color
    · exact key c1 c2 hne he1 h1 h2
    · by_cases he2 : c2 = s.selected_color
      · exact key c2 c1 (fun hh => hne hh.symm) he2 h2 h1
      · rw [paths_get_set_ne _ _ _ _ he1] at h1
        rw [paths_get_set_ne _ _ _ _ he2] at h2
        exact hI2 c1 c2 hne q h1 h2
  · intro kv hkv
    have h := hI3 kv hkv
    have hne := hepcell kv hkv
    constructor
    · rw [cellAt_setAt_ne (pair_ne_flip hne.1) _]
      exact h.1
    · rw [cellAt_setAt_ne (pair_ne_flip hne.2) _]
      exact h.2
  · intro c2 q hq
    by_cases h : c2 = s.selected_color
    · subst h
      rw [hDget] at hq
      rcases List.mem_append.mp hq with hq | hq
      · rcases hI4 s.selected_color q hq with h4 | h4 | h4
        · exact Or.inl h4
        · exact Or.inr (Or.inl h4)
        · refine Or.inr (Or.inr ?_)
          have hqt : q ≠ (tx, ty) := by
            rintro rfl
            exact hmem hq
          rw [cellAt_setAt_ne (pair_ne_flip hqt) _]
          exact h4
      · rw [List.mem_singleton] at hq
        subst hq
        refine Or.inr (Or.inr ?_)
        exact cellAt_setAt_self hHD hb.2.2.1 hb.2.2.2 hb.1 hb.2.1 _
    · rw [paths_get_set_ne _ _ _ _ h] at hq
      rcases hI4 c2 q hq with h4 | h4 | h4
      · exact Or.inl h4
      · exact Or.inr (Or.inl h4)
      · refine Or.inr (Or.inr ?_)
        have hqt : q ≠ (tx, ty) := by
          rintro rfl
          rw [hcell] at h4
          have hkc2 : c2 ∈ s.drawn_paths.map Prod.fst := by
            by_contra hc
            rw [paths_get_absent _ _ hc] at hq
            simp at hq
          rw [hDK] at hkc2
          obtain ⟨kv2, hkv2, hfst2⟩ := List.mem_map.mp hkc2
          rw [← h4] at hfst2
          exact hKNZ kv2 hkv2 hfst2
        rw [cellAt_setAt_ne (pair_ne_flip hqt) _]
        exact h4

theorem Inv_extend_bridge (s : CdState) (tx ty : Int) (hInv : Inv s)
    (hpath : paths_get s.drawn_paths s.selected_color ≠ [])
    (hmem : (tx, ty) ∉ paths_get s.drawn_paths s.selected_color)
    (hbr : (tx, ty) ∈ s.bridges) :
    Inv { s with
          drawn_paths := paths_set s.drawn_paths s.selected_color
            (paths_get s.drawn_paths s.selected_color ++ [(tx, ty)]),
          cursor_x := tx, cursor_y := ty } := by
  obtain ⟨hHD, hEPN, hKNZ, hKND, hDK, hSEL, hI1, hI2, hI3, hI4⟩ := hInv
  have hckey : s.selected_color ∈ s.drawn_paths.map Prod.fst := by
    by_contra hc
    exact hpath (paths_get_absent _ _ hc)
  have hDget : paths_get (paths_set s.drawn_paths s.selected_color
      (paths_get s.drawn_paths s.selected_color ++ [(tx, ty)]))
      s.selected_color =
      paths_get s.drawn_paths s.selected_color ++ [(tx, ty)] :=
    paths_get_set_self _ _ _ hckey
  refine ⟨hHD, hEPN, hKNZ, hKND, ?_, hSEL, ?_, ?_, hI3, ?_⟩
  · show (paths_set s.drawn_paths s.selected_color
        (paths_get s.drawn_paths s.selected_color ++ [(tx, ty)])).map Prod.fst =
      s.endpoints.map Prod.fst
    rw [map_fst_paths_set]
    exact hDK
  · intro c2
    show (paths_get (paths_set s.drawn_paths s.selected_color
        (paths_get s.drawn_paths s.selected_color ++ [(tx, ty)])) c2).Nodup
    by_cases h : c2 = s.selected_color
    · subst h
      rw [hDget]
      exact nodup_path_concat _ _ (hI1 s.selected_color) hmem
    · rw [paths_get_set_ne _ _ _ _ h]
      exact hI1 c2
  · intro c1 c2 hne q h1 h2
    show q ∈ s.bridges
    have key : ∀ c3 c4, c3 ≠ c4 → c3 = s.selected_color →
        q ∈ paths_get (paths_set s.drawn_paths s.selected_color
          (paths_get s.drawn_paths s.selected_color ++ [(tx, ty)])) c3 →
        q ∈ paths_get (paths_set s.drawn_paths s.selected_color
          (paths_get s.drawn_paths s.selected_color ++ [(tx, ty)])) c4 →
        q ∈ s.bridges := by
      intro c3 c4 hne34 he3 h3 h4
      subst he3
      rw [hDget] at h3
      rw [paths_get_set_ne _ _ _ _ (fun hh => hne34 hh.symm)] at h4
      rcases List.mem_append.mp h3 with h3 | h3
      · exact hI2 s.selected_color c4 hne34 q h3 h4
      · rw [List.mem_singleton] at h3
        subst h3
        exact hbr
    by_cases he1 : c1 = s.selected_color
    · exact key c1 c2 hne he1 h1 h2
    · by_cases he2 : c2 = s.selected_color
      · exact key c2 c1 (fun hh => hne hh.symm) he2 h2 h1
      · rw [paths_get_set_ne _ _ _ _ he1] at h1
        rw [paths_get_set_ne _ _ _ _ he2] at h2
        exact hI2 c1 c2 hne q h1 h2
  · intro c2 q hq
    by_cases h : c2 = s.selected_color
    · subst h
      rw [hDget] at hq
      rcases List.mem_append.mp hq with hq | hq
      · exact hI4 s.selected_color q hq
      · rw [List.mem_singleton] at hq
        subst hq
        exact Or.inr (Or.inl hbr)
    · rw [paths_get_set_ne _ _ _ _ h] at hq
      exact hI4 c2 q hq

end Cd01

namespace Cd01

theorem Inv_extend_path (s : CdState) (dx dy : Int) (hInv : Inv s) :
    Inv (extend_path s dx dy) := by
  simp only [extend_path]
  by_cases hb : 0 ≤ s.cursor_x + dx ∧ s.cursor_x + dx < (s.grid_w : Int) ∧
      0 ≤ s.cursor_y + dy ∧ s.cursor_y + dy < (s.grid_h : Int)
  · rw [if_neg (not_not_intro hb)]
    by_cases hpath : paths_get s.drawn_paths s.selected_color = []
    · rw [if_pos hpath]
      exact hInv
    · rw [if_neg hpath]
      by_cases hbs : 2 ≤ (paths_get s.drawn_paths s.selected_color).length ∧
          (paths_get s.drawn_paths s.selected_color)[(paths_get s.drawn_paths s.selected_color).length - 2]? =
            some (s.cursor_x + dx, s.cursor_y + dy)
      · rw [if_pos hbs]
        exact Inv_undo_last_cell s s.selected_color hInv
      · rw [if_neg hbs]
        by_cases hmem : (s.cursor_x + dx, s.cursor_y + dy) ∈
            paths_get s.drawn_paths s.selected_color
        · rw [if_pos hmem]
          exact hInv
        · rw [if_neg hmem]
          by_cases hcomp : (s.cursor_x + dx, s.cursor_y + dy) =
              (if (paths_get s.drawn_paths s.selected_color).headD (0, 0) =
                  (eps_get s.endpoints s.selected_color).1 then
                (eps_get s.endpoints s.selected_color).2
              else (eps_get s.endpoints s.selected_color).1)
          · rw [if_pos hcomp]
            have ht : (s.cursor_x + dx, s.cursor_y + dy) =
                (eps_get s.endpoints s.selected_color).1 ∨
                (s.cursor_x + dx, s.cursor_y + dy) =
                (eps_get s.endpoints s.selected_color).2 := by
              by_cases hh : (paths_get s.drawn_paths s.selected_color).headD (0, 0) =
                  (eps_get s.endpoints s.selected_color).1
              · rw [if_pos hh] at hcomp
                exact Or.inr hcomp
              · rw [if_neg hh] at hcomp
                exact Or.inl hcomp
            exact Inv_extend_complete s _ _ hInv hpath hmem ht
          · rw [if_neg hcomp]
            by_cases hcell : cellAt s.grid (s.cursor_y + dy) (s.cursor_x + dx) = 0
            · rw [if_pos hcell]
              exact Inv_extend_empty s _ _ hInv hb hpath hmem hcell
            · rw [if_neg hcell]
              by_cases hbr : (s.cursor_x + dx, s.cursor_y + dy) ∈ s.bridges ∧
                  cellAt s.grid (s.cursor_y + dy) (s.cursor_x + dx) ≠
                    s.selected_color
              · rw [if_pos hbr]
                exact Inv_extend_bridge s _ _ hInv hpath hmem hbr.1
              · rw [if_neg hbr]
                exact hInv
  · rw [if_pos hb]
    exact hInv

theorem Inv_cd_apply (s : CdState) (a : CdAct) (hInv : Inv s) :
    Inv (cd_apply s a) := by
  cases a with
  | dir d =>
    simp only [cd_apply]
    split
    · exact Inv_extend_path s d.1 d.2 hInv
    · exact Inv_move_cursor s d.1 d.2 hInv
  | select => exact Inv_handle_select s hInv
  | undoAct => exact Inv_handle_undo s hInv

theorem Inv_cd_run (s : CdState) (acts : List CdAct) (hInv : Inv s) :
    Inv (cd_run s acts) := by
  induction acts generalizing s with
  | nil => exact hInv
  | cons a rest ih => exact ih _ (Inv_cd_apply s a hInv)

theorem gridDims_init_grid (gw gh : Nat)
    (eps : List (Nat × ((Int × Int) × (Int × Int)))) :
    GridDims (init_grid gw gh eps) gw gh := by
  unfold init_grid
  have haux : ∀ (l : List (Nat × ((Int × Int) × (Int × Int))))
      (g : List (List Nat)), GridDims g gw gh →
      GridDims (l.foldl (fun g kv =>
        setAt (setAt g kv.2.1.2 kv.2.1.1 kv.1) kv.2.2.2 kv.2.2.1 kv.1) g)
        gw gh := by
    intro l
    induction l with
    | nil => exact fun g h => h
    | cons kv rest ih =>
      intro g h
      exact ih _ (gridDims_setAt (gridDims_setAt h _ _ _) _ _ _)
  exact haux eps _ (gridDims_replicate gh gw 0)

theorem paths_get_init (eps : List (Nat × ((Int × Int) × (Int × Int))))
    (c : Nat) :
    paths_get (eps.map fun kv => (kv.1, ([] : List (Int × Int)))) c = [] := by
  induction eps with
  | nil => rfl
  | cons kv rest ih =>
    rw [List.map_cons, paths_get_cons]
    split
    · rfl
    · exact ih

theorem Inv_init (gw gh : Nat) (eps : List (Nat × ((Int × Int) × (Int × Int))))
    (brs : List (Int × Int)) (cx cy : Int)
    (hEPN : (eps.flatMap fun kv => [kv.2.1, kv.2.2]).Nodup)
    (hKNZ : ∀ kv ∈ eps, kv.1 ≠ 0)
    (hKND : (eps.map Prod.fst).Nodup)
    (hI3 : ∀ kv ∈ eps, cellAt (init_grid gw gh eps) kv.2.1.2 kv.2.1.1 = kv.1 ∧
      cellAt (init_grid gw gh eps) kv.2.2.2 kv.2.2.1 = kv.1) :
    Inv { grid := init_grid gw gh eps, grid_w := gw, grid_h := gh,
          endpoints := eps, bridges := brs, cursor_x := cx, cursor_y := cy,
          selected_color := 0,
          drawn_paths := eps.map fun kv => (kv.1, []) } := by
  refine ⟨gridDims_init_grid gw gh eps, hEPN, hKNZ, hKND, ?_, Or.inl rfl,
    ?_, ?_, hI3, ?_⟩
  · show (eps.map fun kv => (kv.1, ([] : List (Int × Int)))).map Prod.fst =
      eps.map Prod.fst
    rw [List.map_map]
    rfl
  · intro c
    show (paths_get (eps.map fun kv => (kv.1, ([] : List (Int × Int)))) c).Nodup
    rw [paths_get_init]
    exact List.nodup_nil
  · intro c1 c2 hne q h1 h2
    rw [paths_get_init] at h1
    simp at h1
  · intro c q hq
    rw [paths_get_init] at hq
    simp at hq

theorem Inv_on_set_level (idx : Nat) (hidx : idx < 6) :
    Inv (on_set_level idx) := by
  interval_cases idx
  · exact Inv_init 8 8 [(1, ((6, 6), (0, 4))), (2, ((0, 3), (2, 0))),
      (3, ((3, 0), (5, 3))), (4, ((5, 4), (3, 4))), (5, ((3, 5), (2, 1)))] []
      6 6 (by decide) (by decide) (by decide) (by decide)
  · exact Inv_init 16 16 [(1, ((2, 13), (15, 14))), (2, ((14, 14), (14, 12))),
      (3, ((14, 11), (13, 11))), (4, ((13, 12), (8, 12))),
      (5, ((9, 12), (10, 3))), (6, ((9, 3), (4, 8)))] []
      2 13 (by decide) (by decide) (by decide) (by decide)
  · exact Inv_init 8 8 [(1, ((0, 0), (1, 3))), (2, ((0, 4), (1, 7))),
      (3, ((2, 0), (3, 2))), (4, ((2, 3), (3, 7))), (5, ((4, 0), (5, 3))),
      (6, ((4, 4), (5, 7))), (7, ((6, 0), (7, 7)))] [(3, 3)]
      0 0 (by decide) (by decide) (by decide) (by decide)
  · exact Inv_init 16 16 [(1, ((0, 0), (7, 3))), (2, ((8, 0), (15, 3))),
      (3, ((0, 4), (7, 7))), (4, ((8, 4), (15, 7))), (5, ((0, 8), (7, 11))),
      (6, ((8, 8), (15, 11))), (7, ((0, 12), (7, 15))),
      (8, ((8, 12), (15, 15)))] [(7, 4), (8, 11)]
      0 0 (by decide) (by decide) (by decide) (by decide)
  · exact Inv_init 32 32 [(1, ((0, 0), (31, 3))), (2, ((0, 4), (31, 6))),
      (3, ((0, 7), (31, 10))), (4, ((0, 11), (31, 13))),
      (5, ((0, 14), (31, 17))), (6, ((0, 18), (31, 20))),
      (7, ((0, 21), (31, 23))), (8, ((0, 24), (31, 27))),
      (9, ((0, 28), (31, 31)))] [(15, 6), (16, 21)]
      0 0 (by decide) (by decide) (by decide) (by decide)
  · exact Inv_init 32 32 [(1, ((0, 0), (31, 2))), (2, ((0, 3), (31, 5))),
      (3, ((0, 6), (31, 8))), (4, ((0, 9), (31, 11))),
      (5, ((0, 12), (31, 14))), (6, ((0, 15), (31, 17))),
      (7, ((0, 18), (31, 20))), (8, ((0, 21), (31, 23))),
      (9, ((0, 24), (31, 26))), (10, ((0, 27), (31, 31)))]
      [(10, 3), (21, 3), (10, 20), (21, 20)]
      0 0 (by decide) (by decide) (by decide) (by decide)

end Cd01

namespace Cd01

/-- C5: in every cd01 state reachable from level entry by any sequence
of select, extend, undo, and clear operations (clears happen inside
select), no cell appears twice within one color's drawn path, and any
cell lying on two distinct colors' drawn paths is a declared bridge
cell of that level. -/
theorem cd01_path_invariants (idx : Nat) (acts : List CdAct) (hidx : idx < 6) :
    (∀ c, (paths_get (cd_run (on_set_level idx) acts).drawn_paths c).Nodup) ∧
    (∀ c1 c2, c1 ≠ c2 → ∀ p : Int × Int,
      p ∈ paths_get (cd_run (on_set_level idx) acts).drawn_paths c1 →
      p ∈ paths_get (cd_run (on_set_level idx) acts).drawn_paths c2 →
      p ∈ (cd_run (on_set_level idx) acts).bridges) := by
  have h := Inv_cd_run (on_set_level idx) acts (Inv_on_set_level idx hidx)
  exact ⟨h.2.2.2.2.2.2.1, h.2.2.2.2.2.2.2.1⟩

/-- C5 witness: on level 1, after selecting color 1 and extending the
path twice, the drawn path of color 1 has no duplicate cell. -/
theorem cd01_path_invariants_witness :
    (paths_get (cd_run (on_set_level 0)
        [CdAct.select, CdAct.dir (0, -1), CdAct.dir (1, 0)]).drawn_paths
      1).Nodup :=
  (cd01_path_invariants 0 [CdAct.select, CdAct.dir (0, -1), CdAct.dir (1, 0)]
    (by decide)).1 1

end Cd01
